import Mathlib

/-! # small-shell: job-control core

A shallow embedding of the job-control parts of the shell
(`CommandDelegator.c`, `CommandParser.c`, `InterruptHandlers.c`, `main.c`)
and theorems about it.

Conventions of the embedding.

* C `int` flags are integers; `TRUE` is 1 and `FALSE` is 0 as in `CommandParser.h`.
* Pointers to `struct processNode` are `Option Nat`: `none` is `NULL`, `some a` is the
  address `a` of a cell of the heap.  The heap is a list of cells, `calloc` appends a
  fresh zeroed cell, `free` empties a cell, and reading or writing through `NULL` or a
  freed cell is a memory fault, which makes the operation return `none`.
* Results of system calls (`waitpid`, `open`) are inputs of the model.
* Text written to standard output is returned as a `String`.
-/

namespace SmallShell

/-! ## Constants of the headers -/

def TRUE : Int := 1
def FALSE : Int := 0

def EXIT_FLAG : Int := 1
def STATUS_FLAG : Int := 2
def CD_FLAG : Int := 4

def CHILD : Nat := 1
def PARENT : Nat := 2
def FOREGROUND : Nat := 4
def BACKGROUND : Nat := 8
def FOREGROUND_ONLY : Nat := 16

def PID : String := "pid"
def PID_LEN : String := "pidlen"
def STATUS : String := "SMALLSH_STATUS"
def BASIC_STATUS : String := "exit value 0"

/-- Signal number of `SIGTERM` (signal.h). -/
def SIGTERM : Nat := 15

/-! ## The process list (`struct processNode`, `struct processLinkedList`) -/

/-- A cell `struct processNode { pid_t pid; struct processNode *next; }`. -/
structure processNode where
  pid : Int
  next : Option Nat
deriving DecidableEq, Repr

/-- The heap of process nodes: cell `a` is `mem[a]`, `none` once freed. -/
abbrev Heap := List (Option processNode)

/-- Read the cell at address `a`; `none` is a memory fault. -/
def load (mem : Heap) (a : Nat) : Option processNode :=
  match mem[a]? with
  | some (some node) => some node
  | _ => none

/-- Overwrite the cell at address `a`. -/
def store (mem : Heap) (a : Nat) (node : processNode) : Heap :=
  mem.set a (some node)

/-- Release the cell at address `a` (`free`). -/
def release (mem : Heap) (a : Nat) : Heap :=
  mem.set a none

/-- Allocate one zeroed cell (`calloc(1, sizeof(struct processNode))`):
the new heap and the address of the cell. -/
def calloc (mem : Heap) : Heap × Nat :=
  (mem ++ [some ⟨0, none⟩], mem.length)

/-- The registry `struct processLinkedList { head; tail; }` together with the heap its
pointers refer to. -/
structure processLinkedList where
  mem : Heap
  head : Option Nat
  tail : Option Nat
deriving DecidableEq, Repr

/-- The registry made by `calloc(1, sizeof(struct processLinkedList))` in `startShell`. -/
def emptyList : processLinkedList := ⟨[], none, none⟩

/-- The call `addProcess(procList, pid)`. -/
def addProcess (procList : processLinkedList) (pid : Int) : Option processLinkedList :=
  match procList.tail with
  | some t =>
    -- tail->next = calloc(...); procList->tail = tail->next;
    match load procList.mem t with
    | none => none
    | some tnode =>
      let (mem1, fresh) := calloc procList.mem
      let mem2 := store mem1 t { tnode with next := some fresh }
      -- procList->tail->pid = pid;
      match load mem2 fresh with
      | none => none
      | some n => some ⟨store mem2 fresh { n with pid := pid }, procList.head, some fresh⟩
  | none =>
    -- tail = calloc(...); procList->head = tail; procList->tail = tail;
    let (mem1, fresh) := calloc procList.mem
    match load mem1 fresh with
    | none => none
    | some n => some ⟨store mem1 fresh { n with pid := pid }, some fresh, some fresh⟩

/-- The `while (cur != NULL && cur->next != NULL)` loop of `removeProcess`.
`fuel` bounds the number of iterations; running out of it (a cyclic list) gives `none`. -/
def removeLoop : Nat → processLinkedList → Option Nat → Int → Option (processLinkedList × Int)
  | _, procList, none, _ => some (procList, FALSE)
  | 0, _, some _, _ => none
  | fuel + 1, procList, some cur, pid =>
    match load procList.mem cur with
    | none => none
    | some cnode =>
      match cnode.next with
      | none => some (procList, FALSE)
      | some nx =>
        match load procList.mem nx with
        | none => none
        | some nnode =>
          if nnode.pid = pid then
            -- if (cur->next != NULL && cur->next->pid == procList->tail->pid) tail = cur;
            match procList.tail with
            | none => none
            | some t =>
              match load procList.mem t with
              | none => none
              | some tnode =>
                let tail1 := if nnode.pid = tnode.pid then some cur else procList.tail
                -- cur->next = cur->next->next; free(temp);
                let mem1 := store procList.mem cur { cnode with next := nnode.next }
                some (⟨release mem1 nx, procList.head, tail1⟩, TRUE)
          else removeLoop fuel procList (some nx) pid

/-- The call `removeProcess(procList, pid)`: the new registry and the returned flag. -/
def removeProcess (procList : processLinkedList) (pid : Int) :
    Option (processLinkedList × Int) :=
  match procList.head with
  | none => some (procList, FALSE)
  | some h =>
    match load procList.mem h with
    | none => none
    | some hnode =>
      if hnode.pid = pid then
        -- both branches set head = head->next; the first also sets tail = head
        let tail1 := if procList.head = procList.tail then hnode.next else procList.tail
        some (⟨release procList.mem h, hnode.next, tail1⟩, TRUE)
      else removeLoop procList.mem.length procList (some h) pid

/-- Walk the list from pointer `p`, as `printProcList` does: the cells met, as pairs of
address and pid.  `none` when a cell cannot be read or `fuel` runs out. -/
def walk : Nat → Heap → Option Nat → Option (List (Nat × Int))
  | _, _, none => some []
  | 0, _, some _ => none
  | fuel + 1, mem, some a =>
    match load mem a with
    | none => none
    | some node =>
      match walk fuel mem node.next with
      | none => none
      | some rest => some ((a, node.pid) :: rest)

/-- The cells reachable from `head`. -/
def cellsOf (procList : processLinkedList) : Option (List (Nat × Int)) :=
  walk procList.mem.length procList.mem procList.head

/-- The pids reachable from `head`, in list order. -/
def heldPids (procList : processLinkedList) : Option (List Int) :=
  (cellsOf procList).map (fun cells => cells.map Prod.snd)


/-! ## Sequences of registry calls -/

/-- One call on the registry: `register pid` is `addProcess(procList, pid)`, `remove pid` is
`removeProcess(procList, pid)` with the returned flag dropped. -/
inductive RegistryCall where
  | register (pid : Int)
  | remove (pid : Int)
deriving DecidableEq, Repr

/-- Perform one call. -/
def runCall (procList : processLinkedList) : RegistryCall → Option processLinkedList
  | .register pid => addProcess procList pid
  | .remove pid =>
    match removeProcess procList pid with
    | none => none
    | some r => some r.1

/-- Perform the calls from left to right. -/
def runCalls : List RegistryCall → processLinkedList → Option processLinkedList
  | [], procList => some procList
  | c :: cs, procList =>
    match runCall procList c with
    | none => none
    | some next => runCalls cs next

/-- Spec side: the pids held after the calls, in arrival order.  Registering appends the pid,
removing takes the pid away; `held` is what was held before. -/
def heldInArrivalOrder : List RegistryCall → List Int → List Int
  | [], held => held
  | .register pid :: cs, held => heldInArrivalOrder cs (held ++ [pid])
  | .remove pid :: cs, held => heldInArrivalOrder cs (held.filter (fun q => q ≠ pid))

/-- Spec side: `p` is registered and not removed since, i.e. the last call that names `p` is a
`register`; `before` says whether `p` was held before the calls. -/
def registeredNotRemoved : List RegistryCall → Int → Bool → Bool
  | [], _, before => before
  | .register pid :: cs, p, before => registeredNotRemoved cs p (if pid = p then true else before)
  | .remove pid :: cs, p, before => registeredNotRemoved cs p (if pid = p then false else before)

/-- No call registers a pid while it is held; `held` is what was held before the calls. -/
def registersOnlyNew : List RegistryCall → List Int → Bool
  | [], _ => true
  | .register pid :: cs, held => decide (pid ∉ held) && registersOnlyNew cs (held ++ [pid])
  | .remove pid :: cs, held => registersOnlyNew cs (held.filter (fun q => q ≠ pid))

/-- The pid stored in the cell `head` points to; `none` when `head` is `NULL`. -/
def headPid (procList : processLinkedList) : Option Int :=
  match procList.head with
  | none => none
  | some h =>
    match load procList.mem h with
    | none => none
    | some node => some node.pid

/-- A registry as the calls can produce it: the walk from `head` ends at `NULL`, and `tail`
designates a cell of that walk (it is `NULL` when the walk is empty). -/
def isRegistry (procList : processLinkedList) : Bool :=
  match cellsOf procList with
  | none => false
  | some cells =>
    match procList.tail with
    | none => cells.isEmpty
    | some t => decide (t ∈ cells.map Prod.fst)

/-! ## List segments in the heap -/

/-- List segment `Seg mem p q cells`: following `next` from `p` meets exactly `cells` and ends at `q`. -/
def Seg (mem : Heap) : Option Nat → Option Nat → List (Nat × Int) → Prop
  | p, q, [] => p = q
  | p, q, c :: rest => p = some c.1 ∧ ∃ nx, load mem c.1 = some ⟨c.2, nx⟩ ∧ Seg mem nx q rest

/-- The tail pointer designates a cell of the walk, or is null when the walk is empty. -/
def TailIn (tail : Option Nat) (cells : List (Nat × Int)) : Prop :=
  match tail with
  | none => cells = []
  | some t => t ∈ cells.map Prod.fst

/-- The tail pointer designates the last cell of the walk (null when the walk is empty). -/
def TailLast (tail : Option Nat) (cells : List (Nat × Int)) : Prop :=
  tail = (cells.map Prod.fst).getLast?

/-! ## Wait statuses and the environment -/

/-- The macro `WTERMSIG(status)` of `<sys/wait.h>`: `status & 0x7f`. -/
def WTERMSIG (status : Nat) : Nat := status % 128

/-- The macro `WIFEXITED(status)` of `<sys/wait.h>`: `WTERMSIG(status) == 0`, as a C truth value. -/
def WIFEXITED (status : Nat) : Int := if WTERMSIG status = 0 then 1 else 0

/-- The macro `WEXITSTATUS(status)` of `<sys/wait.h>`: `(status & 0xff00) >> 8`. -/
def WEXITSTATUS (status : Nat) : Nat := (status / 256) % 256

/-- The status word the kernel reports for a child that exited normally with code `code`. -/
def exitedStatus (code : Nat) : Nat := code * 256

/-- The status word the kernel reports for a child killed by signal `sig`; `core` tells whether
a core dump was written (bit `0x80`). -/
def signaledStatus (sig : Nat) (core : Bool) : Nat := sig + (if core then 128 else 0)

/-- One result of a `waitpid` call: the value returned and the value of `statusCode` after the
call (a call that reaps nothing leaves it at its initial 0). -/
structure WaitResult where
  ret : Int
  status : Nat
deriving DecidableEq, Repr

/-- System calls whose order the theorems speak about. -/
inductive SysCall where
  | kill (pid : Int) (sig : Nat)
  | waitpid (pid : Int) (options : Nat)
deriving DecidableEq, Repr

/-- The environment variables of the process, most recent binding first. -/
abbrev Env := List (String × String)

/-- The call `getenv(name)`; `none` is `NULL`. -/
def getenv (env : Env) (name : String) : Option String :=
  env.lookup name

/-- The call `setenv(name, value, 1)`. -/
def setenv (env : Env) (name value : String) : Env :=
  (name, value) :: env.filter (fun kv => kv.1 ≠ name)

/-- The call `unsetenv(name)`. -/
def unsetenv (env : Env) (name : String) : Env :=
  env.filter (fun kv => kv.1 ≠ name)

/-! ## Reaping (`clearFinished`, `nonBlockClearFinished`) -/

/-- What `clearFinished` leaves behind: the environment, the text printed, the system calls
made and the value returned. -/
structure Cleared where
  env : Env
  out : String
  calls : List SysCall
  result : Int
deriving DecidableEq, Repr

/-- The call `clearFinished(targetProcess, hideStatus)`; `w` is the result of its `waitpid` call. -/
def clearFinished (targetProcess : Int) (hideStatus : Int) (w : WaitResult) (env : Env) :
    Cleared :=
  let statusCode := w.status
  let statAndOut : String × String :=
    if hideStatus = 0 then
      if statusCode = 0 then
        ("exit value 0\n", "")
      else if WIFEXITED statusCode = 1 then
        ("exit value " ++ toString (WEXITSTATUS statusCode) ++ "\n", "")
      else
        ("terminated by signal " ++ toString (WTERMSIG statusCode) ++ "\n",
         "terminated by signal " ++ toString (WTERMSIG statusCode) ++ "\n")
    else ("", "")
  { env := setenv env STATUS statAndOut.1
    out := statAndOut.2
    calls := [SysCall.waitpid targetProcess 0]
    result := w.ret }

/-- The text `nonBlockClearFinished` prints for a finished process that it removed from the
list: `printf("background pid %d is done:", ...)` followed by one of the three endings. -/
def completionText (finishedProcess : Int) (statusCode : Nat) : String :=
  "background pid " ++ toString finishedProcess ++ " is done:" ++
    (if statusCode = 0 then " exit value 0\n"
     else if WIFEXITED statusCode = 1 then
       " exit value " ++ toString (WEXITSTATUS statusCode) ++ "\n"
     else " terminated by signal " ++ toString (WTERMSIG statusCode) ++ "\n")

/-- The call `nonBlockClearFinished(processList)`.  The list holds the results of the successive
`waitpid(-1, &statusCode, WNOHANG)` calls; when it is used up the next call returns a value
that is not positive and the loop ends.  Returns the registry and the text printed. -/
def nonBlockClearFinished : List WaitResult → processLinkedList →
    Option (processLinkedList × String)
  | [], processList => some (processList, "")
  | w :: ws, processList =>
    if w.ret > 0 then
      match removeProcess processList w.ret with
      | none => none
      | some (list1, removed) =>
        match nonBlockClearFinished ws list1 with
        | none => none
        | some (list2, out) =>
          some (list2, (if removed ≠ 0 then completionText w.ret w.status else "") ++ out)
    else some (processList, "")

/-- The call `showStatus()`: `printf(getenv(STATUS))`.  The stored texts hold no conversion
specification, so the text is printed as it is; `none` when the variable is not set. -/
def showStatus (env : Env) : Option String :=
  getenv env STATUS

/-- The loop `while (clearFinished(pid, 0) == -1);` of `forkForeground`.  The list holds the
results of the successive blocking `waitpid` calls; `none` when the list is used up before a
call returns something other than -1 (the wait has not returned). -/
def waitForeground (pid : Int) : List WaitResult → Env → Option Cleared
  | [], _ => none
  | w :: ws, env =>
    let r := clearFinished pid 0 w env
    if r.result = -1 then
      match waitForeground pid ws r.env with
      | none => none
      | some r1 => some { r1 with out := r.out ++ r1.out, calls := r.calls ++ r1.calls }
    else some r

/-! ## Foreground-only mode (`InterruptHandlers.c`) -/

/-- What a signal is set to do. -/
inductive Disposition where
  | SIG_DFL
  | SIG_IGN
  | toggleFgOnlyMode
deriving DecidableEq, Repr

/-- The constant `OBLIVIOUS` of `InterruptHandlers.h`. -/
def OBLIVIOUS : Disposition := Disposition.SIG_IGN

/-- The constant `FILICIDE` of `InterruptHandlers.h`. -/
def FILICIDE : Disposition := Disposition.SIG_DFL

/-- The call `loadHandlers(processMask)`: the handlers installed for `SIGINT` and `SIGTSTP`.  Both
`struct sigaction` start zeroed, and a zero handler is `SIG_DFL`. -/
def loadHandlers (processMask : Nat) : Disposition × Disposition :=
  if processMask &&& BACKGROUND ≠ 0 then (OBLIVIOUS, OBLIVIOUS)
  else if processMask &&& PARENT ≠ 0 then (OBLIVIOUS, Disposition.toggleFgOnlyMode)
  else if processMask &&& FOREGROUND ≠ 0 then (FILICIDE, OBLIVIOUS)
  else (Disposition.SIG_DFL, Disposition.SIG_DFL)

/-- The state of the session: the environment, the registry, the local `isForeOnlyMode` of
`startShell`, the global flag `toggleFgMode` and the installed handlers. -/
structure Shell where
  env : Env
  procList : processLinkedList
  isForeOnlyMode : Nat
  toggleFgMode : Nat
  handlers : Disposition × Disposition
deriving DecidableEq, Repr

/-- The signal handler `toggleFgOnlyMode(signum)`. -/
def toggleFgOnlyMode (sh : Shell) : Shell :=
  { sh with toggleFgMode := 1 }

/-- The call `printForeGroundMsg(isFgOnly)`: the text printed. -/
def printForeGroundMsg (isFgOnly : Nat) : String :=
  if isFgOnly ≠ 0 then
    "\x1b[93mEntering foreground-only mode (& is now ignored)\x1b[96m\n"
  else
    "\x1b[93mExiting foreground-only mode\x1b[96m\n"

/-- The call `applyFgOnlyToggle(&isForeOnly)`: the new mode, the new value of `toggleFgMode` and the
text printed. -/
def applyFgOnlyToggle (isForeOnly : Nat) : Nat × Nat × String :=
  let mode := isForeOnly ^^^ FOREGROUND_ONLY
  (mode, 0, printForeGroundMsg mode)

/-- The call `printPrompt()`: the text printed. -/
def printPrompt : String := "\x1b[92m: \x1b[96m"

/-- The check at the top of the `while (run)` loop of `startShell`:
`if (toggleFgMode) { applyFgOnlyToggle(&isForeOnlyMode); printPrompt(); }`. -/
def checkToggle (sh : Shell) : Shell × String :=
  if sh.toggleFgMode ≠ 0 then
    let r := applyFgOnlyToggle sh.isForeOnlyMode
    ({ sh with isForeOnlyMode := r.1, toggleFgMode := r.2.1 }, r.2.2 ++ printPrompt)
  else (sh, "")

/-- The call `initParentProc(pid)` on the environment `env`: the environment and the handlers. -/
def initParentProc (pid : Int) (env : Env) : Env × (Disposition × Disposition) :=
  let temp := toString pid
  let env1 := setenv env PID temp
  let length := temp.length
  let env2 := setenv env1 PID_LEN (toString length)
  let handlers := loadHandlers PARENT
  let env3 := setenv env2 STATUS "exit code 0"
  (setenv env3 "TOGGLE_FG_MODE" "0", handlers)

/-- The session state at the start of `startShell`, after `initParentProc(getpid())`. -/
def initialShell (pid : Int) (env : Env) : Shell :=
  { env := (initParentProc pid env).1
    procList := emptyList
    isForeOnlyMode := 0
    toggleFgMode := 0
    handlers := (initParentProc pid env).2 }

/-! ## The parent side of `forkForeground` and `exitProgram` -/

/-- The record `struct forkResult`. -/
structure forkResult where
  pid : Int
  isForeOnly : Nat
deriving DecidableEq, Repr

/-- What the parent branch of `forkForeground` leaves behind. -/
structure ForegroundDone where
  shell : Shell
  res : forkResult
  out : String
  calls : List SysCall
deriving DecidableEq, Repr

/-- The branch `pid > 0` of `forkForeground(cmd, procList, isForeOnlyMode)`, run in the session
`sh`: wait for the child, apply a pending toggle, sweep the finished background processes,
print the prompt.  `waits` holds the results of the blocking `waitpid` calls, `sweep` those of
the non-blocking ones.  The local copy of `isForeOnlyMode` reaches the caller through
`res.isForeOnly`, which `startShell` stores back. -/
def forkForegroundParent (pid : Int) (waits sweep : List WaitResult) (sh : Shell) :
    Option ForegroundDone :=
  match waitForeground pid waits sh.env with
  | none => none
  | some cleared =>
    let toggled : Nat × Nat × String :=
      if sh.toggleFgMode ≠ 0 then applyFgOnlyToggle sh.isForeOnlyMode
      else (sh.isForeOnlyMode, sh.toggleFgMode, "")
    match nonBlockClearFinished sweep sh.procList with
    | none => none
    | some (list1, swept) =>
      some { shell := { sh with env := cleared.env, procList := list1,
                                isForeOnlyMode := toggled.1, toggleFgMode := toggled.2.1 }
             res := { pid := pid, isForeOnly := toggled.1 }
             out := cleared.out ++ toggled.2.2 ++ swept ++ printPrompt
             calls := cleared.calls }

/-- The loop of `freeProcessList`: free every cell from `cur` on. -/
def freeCells : Nat → Heap → Option Nat → Option Heap
  | _, mem, none => some mem
  | 0, _, some _ => none
  | fuel + 1, mem, some cur =>
    match load mem cur with
    | none => none
    | some node => freeCells fuel (release mem cur) node.next

/-- The call `freeProcessList(procList)`: the heap once the cells are freed.  The list record
is freed with them, so both pointers are gone. -/
def freeProcessList (procList : processLinkedList) : Option processLinkedList :=
  match freeCells procList.mem.length procList.mem procList.head with
  | none => none
  | some mem => some ⟨mem, none, none⟩

/-- What the `while (processList->head)` loop of `exitProgram` leaves behind. -/
structure Drained where
  procList : processLinkedList
  env : Env
  calls : List SysCall
  iterations : Nat
deriving DecidableEq, Repr

/-- The loop `while (processList->head)` of `exitProgram`: kill the head, wait for it, remove
it.  `waits` holds the results of the blocking `waitpid` calls, one for each iteration; `none`
when a wait does not return, on a memory fault, or when `fuel` runs out. -/
def exitLoop : Nat → processLinkedList → List WaitResult → Env → Option Drained
  | fuel, processList, waits, env =>
    match processList.head with
    | none => some { procList := processList, env := env, calls := [], iterations := 0 }
    | some h =>
      match fuel with
      | 0 => none
      | fuel1 + 1 =>
        match load processList.mem h with
        | none => none
        | some hnode =>
          match waits with
          | [] => none
          | w :: ws =>
            let cleared := clearFinished hnode.pid 1 w env
            match removeProcess processList hnode.pid with
            | none => none
            | some (list1, _) =>
              match exitLoop fuel1 list1 ws cleared.env with
              | none => none
              | some d =>
                some { d with
                  calls := SysCall.kill hnode.pid SIGTERM :: (cleared.calls ++ d.calls)
                  iterations := d.iterations + 1 }

/-- What `exitProgram` leaves behind: the registry when the loop ends, the heap after
`freeProcessList`, the environment, the system calls, the number of iterations, the text
printed and the argument of `exit`. -/
structure Exited where
  drained : processLinkedList
  freed : processLinkedList
  env : Env
  calls : List SysCall
  iterations : Nat
  out : String
  exitCode : Int
deriving DecidableEq, Repr

/-- The call `exitProgram(processList, cmd)`.  Freeing `cmd` has no effect that is modelled. -/
def exitProgram (processList : processLinkedList) (waits : List WaitResult) (env : Env) :
    Option Exited :=
  match exitLoop processList.mem.length processList waits env with
  | none => none
  | some d =>
    match freeProcessList d.procList with
    | none => none
    | some freed =>
      some { drained := d.procList
             freed := freed
             env := unsetenv (unsetenv (unsetenv d.env PID) PID_LEN) STATUS
             calls := d.calls
             iterations := d.iterations
             out := "\x1b[0m\n"
             exitCode := 0 }

/-- The signals sent by `kill` among the calls, in order, each with the pid it was sent to. -/
def killed : List SysCall → List (Int × Nat)
  | [] => []
  | SysCall.kill pid sig :: cs => (pid, sig) :: killed cs
  | SysCall.waitpid _ _ :: cs => killed cs

/-- The pids waited for by `waitpid` among the calls, in order, each with the options. -/
def waited : List SysCall → List (Int × Nat)
  | [] => []
  | SysCall.kill _ _ :: cs => waited cs
  | SysCall.waitpid pid options :: cs => (pid, options) :: waited cs

/-! ## The parser (`CommandParser.c`) -/

/-- The record `struct command` of `CommandParser.h`.  `args` is the array `char *args[512]`
of `startShell`, a slot being `none` when it holds `NULL`. -/
structure command where
  args : List (Option String)
  numArgs : Int
  isBgProcess : Int
  hasOutfile : Int
  outfile : Option String
  hasInfile : Int
  infile : Option String
deriving DecidableEq, Repr

/-- Number of slots of the array `args` of `startShell`. -/
def ARGS_SLOTS : Nat := 512

/-- The terminating character of a C string. -/
def NUL : Char := Char.ofNat 0

/-- The call `isBuiltIn(command)`. -/
def isBuiltIn (cmdName : String) : Int :=
  (if cmdName = "cd" then CD_FLAG else 0) +
  (if cmdName = "status" then STATUS_FLAG else 0) +
  (if cmdName = "exit" then EXIT_FLAG else 0)

/-- The call `isWhitespace(c)`: `!(c >= 0x21 && c <= 0x7e)`. -/
def isWhitespace (c : Char) : Bool :=
  !(decide (33 ≤ c.toNat) && decide (c.toNat ≤ 126))

/-- The scan of `stripWhiteSpace`: `cur` is the argument being read (its characters in reverse)
when the `newArg` flag is down. -/
def stripLoop : List Char → Option (List Char) → List String → List String
  | [], none, acc => acc.reverse
  | [], some cur, acc => (String.mk cur.reverse :: acc).reverse
  | c :: rest, none, acc =>
    if isWhitespace c then stripLoop rest none acc else stripLoop rest (some [c]) acc
  | c :: rest, some cur, acc =>
    if isWhitespace c then stripLoop rest none (String.mk cur.reverse :: acc)
    else stripLoop rest (some (c :: cur)) acc

/-- The call `stripWhiteSpace(input, args)`: the arguments found, in order. -/
def stripWhiteSpace (input : String) : List String :=
  stripLoop input.data none []

/-- The call `atoi(s)`: optional white space, an optional sign, then decimal digits. -/
def atoi (s : String) : Int :=
  let body := s.data.dropWhile (fun c => c = ' ' ∨ (9 ≤ c.toNat ∧ c.toNat ≤ 13))
  let digits (cs : List Char) : Nat :=
    (cs.takeWhile Char.isDigit).foldl (fun n c => 10 * n + (c.toNat - 48)) 0
  match body with
  | '-' :: cs => - (digits cs : Int)
  | '+' :: cs => digits cs
  | cs => digits cs

/-- The call `countVars(rawArg)`: the pairs of dollar signs met by the scan, which steps over
both characters of a pair. -/
def countVars : List Char → Nat
  | [] => 0
  | [_] => 0
  | c :: d :: rest =>
    if c = '$' ∧ d = '$' then countVars rest + 1 else countVars (d :: rest)

/-- The loop of `expandVariables(dest, source)`, `source` being what is left to read.  `dest`
is the whole buffer.  At a pair of dollar signs the code calls
`sprintf(dest, "%s%s", dest, getenv(PID))`: the destination is also the first string the call
reads, the two objects overlap, and the behaviour of such a call is undefined (what is
written depends on the C library and on how the program is built).  The result is `none`
there.  Otherwise the character is stored at `curIdx`; a write outside the buffer gives
`none`. -/
def expandLoop : List Char → Int → List Char → Option (List Char)
  | [], _, dest => some dest
  | [c], curIdx, dest =>
    if 0 ≤ curIdx ∧ curIdx < dest.length then some (dest.set curIdx.toNat c) else none
  | c :: d :: rest, curIdx, dest =>
    if c = '$' ∧ d = '$' then none
    else if 0 ≤ curIdx ∧ curIdx < dest.length then
      expandLoop (d :: rest) (curIdx + 1) (dest.set curIdx.toNat c)
    else none

/-- The call `expandVariables(dest, source)`: the buffer afterwards. -/
def expandVariables (dest : List Char) (source : List Char) : Option (List Char) :=
  expandLoop source 0 dest

/-- The call `parseArg(rawArg)`: the string held by the new buffer.  `none` when the variable
`PID_LEN` is missing, the computed length is not positive, or `expandVariables` gives
`none`. -/
def parseArg (env : Env) (rawArg : String) : Option String :=
  match getenv env PID_LEN with
  | none => none
  | some pidLenText =>
    let pidLen := atoi pidLenText
    let varToExpand := countVars rawArg.data
    let newLength : Int := (pidLen - 2) * varToExpand + rawArg.data.length + 1
    if newLength ≤ 0 then none
    else
      match expandVariables (List.replicate newLength.toNat NUL) rawArg.data with
      | none => none
      | some buf => some (String.mk (buf.takeWhile (fun x => x ≠ NUL)))

/-- The call `setNullRedirects(cmd)`. -/
def setNullRedirects (cmd : command) : command :=
  let cmd1 :=
    if cmd.hasInfile = 0 then { cmd with hasInfile := TRUE, infile := some "/dev/null" }
    else cmd
  if cmd1.hasOutfile = 0 then { cmd1 with hasOutfile := TRUE, outfile := some "/dev/null" }
  else cmd1

/-- Read slot `i` of the array; `none` when `i` is outside the array. -/
def slot (args : List (Option String)) (i : Int) : Option (Option String) :=
  if 0 ≤ i then args[i.toNat]? else none

/-- The `for` loop of `parseAllArgs`, at index `i`; `ptrIdx` is the number of arguments
found by `stripWhiteSpace`.  `none` on a memory fault (an argument or file name that is
`NULL`) or when `fuel` runs out. -/
def parseArgsLoop (env : Env) (ptrIdx : Int) : Nat → Nat → command → Option command
  | 0, _, _ => none
  | fuel + 1, i, cmd =>
    if (i : Int) < ptrIdx then
      match cmd.args[i]? with
      | some (some raw) =>
        match parseArg env raw with
        | none => none
        | some arg =>
          let cmd1 := { cmd with args := cmd.args.set i (some arg) }
          if (i : Int) ≥ ptrIdx - 5 then
            if arg = "<" then
              match cmd1.args[i + 1]? with
              | some (some rawFile) =>
                match parseArg env rawFile with
                | none => none
                | some file =>
                  parseArgsLoop env ptrIdx fuel (i + 2)
                    { cmd1 with args := (cmd1.args.set i none).set (i + 1) none
                                hasInfile := TRUE
                                infile := some file
                                numArgs := cmd1.numArgs - 2 }
              | _ => none
            else if arg = ">" then
              match cmd1.args[i + 1]? with
              | some (some rawFile) =>
                match parseArg env rawFile with
                | none => none
                | some file =>
                  parseArgsLoop env ptrIdx fuel (i + 2)
                    { cmd1 with args := (cmd1.args.set i none).set (i + 1) none
                                hasOutfile := TRUE
                                outfile := some file
                                numArgs := cmd1.numArgs - 2 }
              | _ => none
            else parseArgsLoop env ptrIdx fuel (i + 1) cmd1
          else parseArgsLoop env ptrIdx fuel (i + 1) cmd1
      | _ => none
    else some cmd

/-- The call `parseAllArgs(args, cmd, isForeOnlyMode)`, the array being `cmd.args`. -/
def parseAllArgs (env : Env) (cmd : command) (isForeOnlyMode : Nat) : Option command :=
  let ptrIdx := cmd.numArgs
  match parseArgsLoop env ptrIdx (ptrIdx.toNat + 1) 0 cmd with
  | none => none
  | some cmd1 =>
    match slot cmd1.args (ptrIdx - 1) with
    | none => none
    | some none => some cmd1
    | some (some last) =>
      if last = "&" then
        match slot cmd1.args 0 with
        | some (some arg0) =>
          let bg : Int := if isBuiltIn arg0 = 0 ∧ isForeOnlyMode = 0 then 1 else 0
          let cmd2 := setNullRedirects
            { cmd1 with isBgProcess := bg, numArgs := cmd1.numArgs - 1 }
          some { cmd2 with args := cmd2.args.set (ptrIdx - 1).toNat none }
        | _ => none
      else some cmd1

/-- The call `echoModifier(cmd)`. -/
def echoModifier (cmd : command) : Option command :=
  if cmd.numArgs > 1 then
    match slot cmd.args 1 with
    | some (some arg) =>
      let args1 := cmd.args.set 1 (some ("\x1b[95m" ++ arg))
      match slot args1 (cmd.numArgs - 1) with
      | some (some lastArg) =>
        some { cmd with args := args1.set (cmd.numArgs - 1).toNat (some (lastArg ++ "\x1b[0m")) }
      | _ => none
    | _ => none
  else some cmd

/-- Size in bytes of the buffer `input` that `startShell` allocates for each line
(`calloc(2048, sizeof(char))`). -/
def INPUT_SIZE : Nat := 2048

/-- The call `parseInput(input, args, isForeOnlyMode)` on the line `line` read by `gets`:
`some none` is the `NULL` returned for an empty line or a comment, `none` a memory fault
(a line that does not fit with its `NUL` in the buffer `input`, which `gets` then overflows,
more arguments than the array has slots, or a `NULL` where a string is read). -/
def parseInput (env : Env) (line : String) (isForeOnlyMode : Nat) : Option (Option command) :=
  let found := stripWhiteSpace line
  if line.utf8ByteSize + 1 > INPUT_SIZE then none
  else if found.length > ARGS_SLOTS then none
  else
    let args : List (Option String) :=
      found.map some ++ List.replicate (ARGS_SLOTS - found.length) none
    match found with
    | [] => some none
    | first :: _ =>
      if first.data.head? = some '#' then some none
      else
        let cmd : command :=
          { args := args, numArgs := found.length, isBgProcess := 0,
            hasOutfile := FALSE, outfile := none, hasInfile := FALSE, infile := none }
        match parseAllArgs env cmd isForeOnlyMode with
        | none => none
        | some cmd1 =>
          match slot cmd1.args 0 with
          | some (some arg0) =>
            if arg0 = "echo" then
              match echoModifier cmd1 with
              | none => none
              | some cmd2 => some (some cmd2)
            else some (some cmd1)
          | _ => none

/-! ## Redirection (`openRedirFile`, `openRedirFiles`) -/

/-- What the redirection code leaves behind: the returned flag, the text printed, and the
`open` calls made, each with the path passed and whether it was for output. -/
structure Redirected where
  ok : Int
  out : String
  opened : List (Option String × Bool)
deriving DecidableEq, Repr

/-- The call `openRedirFile(cmd, isOutput)`.  The function reads the index of the path from
`cmd->infileIdx` or `cmd->outfileIdx`; `struct command` declares neither member and the
parser stores neither, so the two indices are arguments here.  `canOpen path isOutput` tells
whether `open` succeeds; a `NULL` path makes it fail and is printed as `(null)`.  `none` when
the index is outside the array. -/
def openRedirFile (canOpen : String → Bool → Bool) (infileIdx outfileIdx : Int)
    (cmd : command) (isOutput : Bool) : Option Redirected :=
  let idx := if !isOutput then infileIdx else outfileIdx
  match slot cmd.args idx with
  | none => none
  | some path =>
    let fdOk := match path with
      | none => false
      | some p => canOpen p isOutput
    if !fdOk then
      some { ok := FALSE
             out := "cannot open " ++ path.getD "(null)" ++ " for " ++
               (if isOutput then "output\n" else "input\n")
             opened := [(path, isOutput)] }
    else some { ok := TRUE, out := "", opened := [(path, isOutput)] }

/-- The call `openRedirFiles(cmd)`, with the indices as in `openRedirFile`. -/
def openRedirFiles (canOpen : String → Bool → Bool) (infileIdx outfileIdx : Int)
    (cmd : command) : Option Redirected :=
  let first : Option Redirected :=
    if infileIdx ≠ -1 then
      match openRedirFile canOpen infileIdx outfileIdx cmd false with
      | none => none
      | some r => some { r with ok := Int.land TRUE r.ok }
    else some { ok := TRUE, out := "", opened := [] }
  match first with
  | none => none
  | some r1 =>
    if outfileIdx ≠ -1 ∧ r1.ok ≠ 0 then
      match openRedirFile canOpen infileIdx outfileIdx cmd true with
      | none => none
      | some r2 =>
        some { ok := Int.land r1.ok r2.ok
               out := r1.out ++ r2.out
               opened := r1.opened ++ r2.opened }
    else some r1

/-! ## Launching a command (`forkForeground`, `forkBackground`) -/

/-- Whether `open` succeeds on the path read from `args`, as `openRedirFile` decides it: a
`NULL` path makes it fail. -/
def openSucceeds (canOpen : String → Bool → Bool) (path : Option String) (isOutput : Bool) :
    Bool :=
  match path with
  | none => false
  | some p => canOpen p isOutput

/-- The option `WNOHANG` of `waitpid` (`<sys/wait.h>`). -/
def WNOHANG : Nat := 1

/-- The `waitpid(-1, &statusCode, WNOHANG)` calls that `nonBlockClearFinished` makes when the
results are those of the list: one for each result up to the first that is not positive, or
one more than the list holds when all are positive. -/
def sweepCalls : List WaitResult → List SysCall
  | [] => [SysCall.waitpid (-1) WNOHANG]
  | w :: ws => SysCall.waitpid (-1) WNOHANG :: (if w.ret > 0 then sweepCalls ws else [])

/-- Install the handlers `loadHandlers(processMask)` sets. -/
def installHandlers (processMask : Nat) (sh : Shell) : Shell :=
  { sh with handlers := loadHandlers processMask }

/-- What the process meets during one command cycle; these are inputs of the model.
`forkRet` is the value returned by `fork`, `ownPid` the value returned by `getpid`, `waits` the
results of the blocking `waitpid` calls, `sweep` those of the non-blocking ones, `canOpen`
tells whether `open` succeeds, `infileIdx` and `outfileIdx` are the two indices that
`openRedirFile` reads, and `execReturns` tells whether `execvp` fails and returns. -/
structure World where
  forkRet : Int
  ownPid : Int
  waits : List WaitResult
  sweep : List WaitResult
  canOpen : String → Bool → Bool
  infileIdx : Int
  outfileIdx : Int
  execReturns : Bool

/-- How the block `if (openRedirFiles(cmd)) { execvp(...); printf(...); fflush(stdout); }`
ends: `replaced` tells that `execvp` replaced the process image, so that nothing after it
runs; `execs` holds the `execvp` calls made, each with the file and the arguments up to the
first `NULL`. -/
structure ChildEnd where
  replaced : Bool
  out : String
  opened : List (Option String × Bool)
  execs : List (Option String × List (Option String))
deriving DecidableEq, Repr

/-- The block `if (openRedirFiles(cmd)) { execvp(cmd->args[0], cmd->args); printf("%s: no
such file or directory\n", cmd->args[0]); fflush(stdout); }` that ends the child branch of
both `forkForeground` and `forkBackground`.  A `NULL` file makes `execvp` fail and is printed
as `(null)`. -/
def redirectAndExec (w : World) (cmd : command) : Option ChildEnd :=
  match openRedirFiles w.canOpen w.infileIdx w.outfileIdx cmd with
  | none => none
  | some r =>
    if r.ok ≠ 0 then
      match slot cmd.args 0 with
      | none => none
      | some prog =>
        if w.execReturns = true ∨ prog = none then
          some { replaced := false
                 out := r.out ++ prog.getD "(null)" ++ ": no such file or directory\n"
                 opened := r.opened
                 execs := [(prog, cmd.args.takeWhile Option.isSome)] }
        else
          some { replaced := true
                 out := r.out
                 opened := r.opened
                 execs := [(prog, cmd.args.takeWhile Option.isSome)] }
    else some { replaced := false, out := r.out, opened := r.opened, execs := [] }

/-- What a call of `forkForeground` or `forkBackground` leaves behind in the process that
runs it: the session state, the returned record (`none` when `execvp` replaced the process
image and the call never returns), the text printed, the `waitpid` calls, the `open` calls and
the `execvp` calls. -/
structure Launched where
  shell : Shell
  res : Option forkResult
  out : String
  calls : List SysCall
  opened : List (Option String × Bool)
  execs : List (Option String × List (Option String))
deriving DecidableEq, Repr

/-- The call `forkForeground(cmd, procList, isForeOnlyMode)` in the session `sh`. -/
def forkForeground (w : World) (cmd : command) (sh : Shell) : Option Launched :=
  let pid := w.forkRet
  if pid < 0 then
    some { shell := sh, res := some { pid := pid, isForeOnly := sh.isForeOnlyMode }
           out := "Error forking process", calls := [], opened := [], execs := [] }
  else if pid > 0 then
    match forkForegroundParent pid w.waits w.sweep sh with
    | none => none
    | some done =>
      some { shell := done.shell, res := some done.res, out := done.out
             calls := done.calls ++ sweepCalls w.sweep, opened := [], execs := [] }
  else
    match redirectAndExec w cmd with
    | none => none
    | some child =>
      some { shell := installHandlers (FOREGROUND ||| CHILD) sh
             res := if child.replaced = true then none
                    else some { pid := pid, isForeOnly := sh.isForeOnlyMode }
             out := child.out, calls := [], opened := child.opened, execs := child.execs }

/-- The text `printf("backround pid is %d\n", getpid())` of the child branch of
`forkBackground`. -/
def announcement (ownPid : Int) : String :=
  "backround pid is " ++ toString ownPid ++ "\n"

/-- The call `forkBackground(cmd, processList)` in the session `sh`.  The loop that counts to
200 in the parent branch has no effect. -/
def forkBackground (w : World) (cmd : command) (sh : Shell) : Option Launched :=
  let pid := w.forkRet
  if pid < 0 then
    some { shell := sh, res := some { pid := pid, isForeOnly := 0 }
           out := "Error forking process", calls := [], opened := [], execs := [] }
  else if pid > 0 then
    match addProcess sh.procList pid with
    | none => none
    | some list1 =>
      match nonBlockClearFinished w.sweep list1 with
      | none => none
      | some (list2, swept) =>
        some { shell := { sh with procList := list2 }
               res := some { pid := pid, isForeOnly := 0 }
               out := swept, calls := sweepCalls w.sweep, opened := [], execs := [] }
  else
    match nonBlockClearFinished w.sweep sh.procList with
    | none => none
    | some (list1, swept) =>
      match redirectAndExec w cmd with
      | none => none
      | some child =>
        some { shell := { installHandlers (BACKGROUND ||| CHILD) sh with procList := list1 }
               res := if child.replaced = true then none else some { pid := pid, isForeOnly := 0 }
               out := announcement w.ownPid ++ swept ++ printPrompt ++ child.out
               calls := sweepCalls w.sweep, opened := child.opened, execs := child.execs }

/-! ## One cycle of the loop of `startShell` -/

/-- The branch of `startShell` that runs a command. -/
inductive Branch where
  | cd
  | status
  | exit
  | background
  | foreground
deriving DecidableEq, Repr

/-- How one cycle of the loop of `startShell` ends for the process that runs it: the loop
goes on to the next cycle, the process calls `exit`, or `execvp` has replaced its image. -/
inductive CycleEnd where
  | next (sh : Shell)
  | exit (code : Int)
  | exec
deriving DecidableEq, Repr

/-- What one cycle leaves behind: how it ends, the text printed, whether `fork` was called,
the `kill` and `waitpid` calls, the `open` calls, the `execvp` calls and the argument of
`chdir` when it was called. -/
structure Cycle where
  ending : CycleEnd
  out : String
  forked : Bool
  calls : List SysCall
  opened : List (Option String × Bool)
  execs : List (Option String × List (Option String))
  chdir : Option (Option String)
deriving DecidableEq, Repr

/-- The choice made by `switch (builtInRes)` and `if (cmd->isBgProcess)` in `startShell`;
`none` when `cmd->args[0]` is `NULL`. -/
def selectBranch (cmd : command) : Option Branch :=
  match slot cmd.args 0 with
  | some (some arg0) =>
    let builtInRes := isBuiltIn arg0
    if builtInRes = CD_FLAG then some Branch.cd
    else if builtInRes = STATUS_FLAG then some Branch.status
    else if builtInRes = EXIT_FLAG then some Branch.exit
    else if cmd.isBgProcess ≠ 0 then some Branch.background
    else some Branch.foreground
  | _ => none

/-- The call `cd(args, numArgs)`: the argument passed to `chdir`; `none` when the slot read
is outside the array. -/
def cd (env : Env) (cmd : command) : Option (Option String) :=
  if cmd.numArgs < 2 then some (getenv env "HOME") else slot cmd.args 1

/-- What `startShell` does with the record returned by a fork function: a record with
`pid == 0` makes the process call `exit(1)`; otherwise the loop goes on, a foreground launch
storing `res->isForeOnly` back into `isForeOnlyMode`. -/
def afterLaunch (storeMode : Bool) (l : Launched) : Cycle :=
  { ending :=
      match l.res with
      | none => CycleEnd.exec
      | some res =>
        if res.pid = 0 then CycleEnd.exit 1
        else if storeMode = true then
          CycleEnd.next { l.shell with isForeOnlyMode := res.isForeOnly }
        else CycleEnd.next l.shell
    out := l.out
    forked := true
    calls := l.calls
    opened := l.opened
    execs := l.execs
    chdir := none }

/-- The part `if (cmd != NULL) { ... }` of the loop of `startShell` for the command `cmd`. -/
def dispatch (w : World) (sh : Shell) (cmd : command) : Option Cycle :=
  match selectBranch cmd with
  | none => none
  | some Branch.cd =>
    match cd sh.env cmd with
    | none => none
    | some dir =>
      some { ending := CycleEnd.next sh, out := printPrompt, forked := false, calls := []
             opened := [], execs := [], chdir := some dir }
  | some Branch.status =>
    match showStatus sh.env with
    | none => none
    | some text =>
      some { ending := CycleEnd.next sh, out := text ++ printPrompt, forked := false
             calls := [], opened := [], execs := [], chdir := none }
  | some Branch.exit =>
    match exitProgram sh.procList w.waits sh.env with
    | none => none
    | some r =>
      some { ending := CycleEnd.exit r.exitCode, out := r.out, forked := false
             calls := r.calls, opened := [], execs := [], chdir := none }
  | some Branch.background =>
    match forkBackground w cmd sh with
    | none => none
    | some l => some (afterLaunch false l)
  | some Branch.foreground =>
    match forkForeground w cmd sh with
    | none => none
    | some l => some (afterLaunch true l)

/-- One cycle of the loop `while (run)` of `startShell` on the line `line` read by `gets`. -/
def startShellCycle (w : World) (line : String) (sh : Shell) : Option Cycle :=
  let checked := checkToggle sh
  match parseInput checked.1.env line checked.1.isForeOnlyMode with
  | none => none
  | some none =>
    match nonBlockClearFinished w.sweep checked.1.procList with
    | none => none
    | some (list1, swept) =>
      some { ending := CycleEnd.next { checked.1 with procList := list1 }
             out := checked.2 ++ swept ++ printPrompt, forked := false
             calls := sweepCalls w.sweep, opened := [], execs := [], chdir := none }
  | some (some cmd) =>
    match dispatch w checked.1 cmd with
    | none => none
    | some c => some { c with out := checked.2 ++ c.out }

/-- What the delivery of a signal with disposition `d` does to the session: nothing when the
signal is ignored, the handler `toggleFgOnlyMode` when it is installed; `none` stands for the
default action, which ends or stops the process. -/
def deliver (d : Disposition) (sh : Shell) : Option Shell :=
  match d with
  | Disposition.SIG_IGN => some sh
  | Disposition.toggleFgOnlyMode => some (toggleFgOnlyMode sh)
  | Disposition.SIG_DFL => none

/-! ## Which arguments `parseAllArgs` takes as redirection operators -/

theorem load_lt {mem : Heap} {a : Nat} {n : processNode} (h : load mem a = some n) :
    a < mem.length := by
  unfold load at h
  by_contra hlt
  rw [List.getElem?_eq_none (by omega)] at h
  simp at h

theorem load_store_self {mem : Heap} {a : Nat} (n : processNode) (h : a < mem.length) :
    load (store mem a n) a = some n := by
  simp [load, store, h]

theorem load_store_ne {mem : Heap} {a b : Nat} (n : processNode) (h : a ≠ b) :
    load (store mem a n) b = load mem b := by
  simp [load, store, List.getElem?_set_ne h]

theorem load_release_ne {mem : Heap} {a b : Nat} (h : a ≠ b) :
    load (release mem a) b = load mem b := by
  simp [load, release, List.getElem?_set_ne h]

theorem load_calloc_old {mem : Heap} {b : Nat} (h : b < mem.length) :
    load (calloc mem).1 b = load mem b := by
  simp [load, calloc, List.getElem?_append_left h]

theorem load_calloc_fresh (mem : Heap) :
    load (calloc mem).1 (calloc mem).2 = some ⟨0, none⟩ := by
  simp [load, calloc]

theorem seg_congr {mem mem1 : Heap} : ∀ {cells : List (Nat × Int)} {p q : Option Nat},
    (∀ a ∈ cells.map Prod.fst, load mem1 a = load mem a) →
    Seg mem p q cells → Seg mem1 p q cells
  | [], _, _, _, h => h
  | c :: rest, _, _, hagree, h => by
    obtain ⟨hp, nx, hl, hrest⟩ := h
    refine ⟨hp, nx, ?_, seg_congr (fun a ha => hagree a (by simp at ha ⊢; exact Or.inr ha)) hrest⟩
    rw [hagree c.1 (by simp), hl]

theorem seg_append {mem : Heap} : ∀ {xs ys : List (Nat × Int)} {p q : Option Nat},
    Seg mem p q (xs ++ ys) ↔ ∃ r, Seg mem p r xs ∧ Seg mem r q ys
  | [], ys, p, q => by
    constructor
    · intro h; exact ⟨p, rfl, h⟩
    · rintro ⟨r, h1, h2⟩
      have : p = r := h1
      subst this; exact h2
  | c :: xs, ys, p, q => by
    constructor
    · rintro ⟨hp, nx, hl, hrest⟩
      obtain ⟨r, h1, h2⟩ := seg_append.mp hrest
      exact ⟨r, ⟨hp, nx, hl, h1⟩, h2⟩
    · rintro ⟨r, ⟨hp, nx, hl, h1⟩, h2⟩
      exact ⟨hp, nx, hl, seg_append.mpr ⟨r, h1, h2⟩⟩

theorem seg_addr_lt {mem : Heap} : ∀ {cells : List (Nat × Int)} {p q : Option Nat},
    Seg mem p q cells → ∀ a ∈ cells.map Prod.fst, a < mem.length
  | [], _, _, _, a, ha => by simp at ha
  | c :: rest, _, _, h, a, ha => by
    obtain ⟨_, nx, hl, hrest⟩ := h
    simp only [List.map_cons, List.mem_cons] at ha
    rcases ha with rfl | ha
    · exact load_lt hl
    · exact seg_addr_lt hrest a ha

theorem seg_mem_load {mem : Heap} : ∀ {cells : List (Nat × Int)} {p q : Option Nat},
    Seg mem p q cells → ∀ c ∈ cells, ∃ nx, load mem c.1 = some ⟨c.2, nx⟩
  | [], _, _, _, c, hc => by simp at hc
  | d :: rest, _, _, h, c, hc => by
    obtain ⟨_, nx, hl, hrest⟩ := h
    simp only [List.mem_cons] at hc
    rcases hc with rfl | hc
    · exact ⟨nx, hl⟩
    · exact seg_mem_load hrest c hc

theorem seg_unique {mem : Heap} : ∀ {xs ys : List (Nat × Int)} {p : Option Nat},
    Seg mem p none xs → Seg mem p none ys → xs = ys
  | [], [], _, _, _ => rfl
  | [], c :: ys, p, h1, h2 => by
    have h1 : p = none := h1
    obtain ⟨hp, _⟩ := h2
    rw [h1] at hp; cases hp
  | c :: xs, [], p, h1, h2 => by
    have h2 : p = none := h2
    obtain ⟨hp, _⟩ := h1
    rw [h2] at hp; cases hp
  | c :: xs, d :: ys, p, h1, h2 => by
    obtain ⟨hp1, nx1, hl1, hr1⟩ := h1
    obtain ⟨hp2, nx2, hl2, hr2⟩ := h2
    rw [hp1] at hp2
    have hcd : c.1 = d.1 := Option.some.inj hp2
    rw [hcd, hl2] at hl1
    have hn := Option.some.inj hl1
    have hpid : d.2 = c.2 := congrArg processNode.pid hn
    have hnx : nx2 = nx1 := congrArg processNode.next hn
    subst hnx
    have := seg_unique hr1 hr2
    subst this
    have : c = d := Prod.ext hcd hpid.symm
    rw [this]

theorem seg_nodup {mem : Heap} : ∀ {cells : List (Nat × Int)} {p : Option Nat},
    Seg mem p none cells → (cells.map Prod.fst).Nodup
  | [], _, _ => by simp
  | c :: rest, p, h => by
    obtain ⟨hp, nx, hl, hrest⟩ := h
    rw [List.map_cons, List.nodup_cons]
    refine ⟨?_, seg_nodup hrest⟩
    intro hmem
    obtain ⟨d, hd, hdc⟩ := List.mem_map.mp hmem
    obtain ⟨r1, r2, hsplit⟩ := List.append_of_mem hd
    rw [hsplit] at hrest
    obtain ⟨r, _, h2⟩ := seg_append.mp hrest
    have hfull : Seg mem (some c.1) none (c :: rest) := ⟨rfl, nx, hl, by rw [hsplit]; exact seg_append.mpr ⟨r, ‹_›, h2⟩⟩
    have hr : r = some c.1 := by rw [h2.1, hdc]
    rw [hr] at h2
    have := seg_unique hfull h2
    have hlen := congrArg List.length this
    rw [hsplit] at hlen
    simp at hlen
    omega


theorem seg_of_walk : ∀ {fuel : Nat} {mem : Heap} {p : Option Nat} {cells : List (Nat × Int)},
    walk fuel mem p = some cells → Seg mem p none cells
  | _, _, none, cells, h => by
    have : cells = [] := by
      cases ‹Nat› <;> simp [walk] at h <;> exact h
    subst this; rfl
  | 0, _, some a, _, h => by simp [walk] at h
  | fuel + 1, mem, some a, cells, h => by
    simp only [walk] at h
    cases hl : load mem a with
    | none => simp [hl] at h
    | some node =>
      simp only [hl] at h
      cases hw : walk fuel mem node.next with
      | none => simp [hw] at h
      | some rest =>
        simp only [hw, Option.some.injEq] at h
        subst h
        exact ⟨rfl, node.next, hl, seg_of_walk hw⟩

theorem walk_of_seg : ∀ {cells : List (Nat × Int)} (fuel : Nat) {mem : Heap} {p : Option Nat},
    Seg mem p none cells → cells.length ≤ fuel → walk fuel mem p = some cells
  | [], fuel, _, p, h, _ => by
    have : p = none := h
    subst this
    cases fuel <;> rfl
  | c :: rest, 0, _, _, _, hf => by simp at hf
  | c :: rest, fuel + 1, mem, p, h, hf => by
    obtain ⟨hp, nx, hl, hrest⟩ := h
    subst hp
    have := walk_of_seg fuel hrest (by simpa using hf)
    simp [walk, hl, this]

theorem seg_length_le {mem : Heap} {cells : List (Nat × Int)} {p : Option Nat}
    (h : Seg mem p none cells) : cells.length ≤ mem.length := by
  have hnd := seg_nodup h
  have hlt := seg_addr_lt h
  have hsub : (cells.map Prod.fst).toFinset ⊆ Finset.range mem.length := by
    intro a ha
    rw [List.mem_toFinset] at ha
    exact Finset.mem_range.mpr (hlt a ha)
  have hcard := Finset.card_le_card hsub
  rw [List.toFinset_card_of_nodup hnd, Finset.card_range, List.length_map] at hcard
  exact hcard

theorem cellsOf_eq_some {s : processLinkedList} {cells : List (Nat × Int)} :
    cellsOf s = some cells ↔ Seg s.mem s.head none cells :=
  ⟨seg_of_walk, fun h => walk_of_seg _ h (seg_length_le h)⟩



theorem tailIn_of_tailLast {tail : Option Nat} {cells : List (Nat × Int)}
    (h : TailLast tail cells) : TailIn tail cells := by
  unfold TailLast at h
  subst h
  rcases List.eq_nil_or_concat cells with rfl | ⟨init, c, rfl⟩
  · simp [TailIn]
  · simp [TailIn]

theorem addProcess_empty {s : processLinkedList} (ht : s.tail = none)
    (pid : Int) :
    ∃ s1, addProcess s pid = some s1 ∧ Seg s1.mem s1.head none [(s.mem.length, pid)] ∧
      s1.tail = some s.mem.length ∧ s1.mem.length = s.mem.length + 1 := by
  refine ⟨⟨store (calloc s.mem).1 s.mem.length ⟨pid, none⟩, some s.mem.length,
    some s.mem.length⟩, ?_, ?_, rfl, ?_⟩
  · have hfresh := load_calloc_fresh s.mem
    simp only [calloc] at hfresh
    simp [addProcess, ht, calloc, hfresh]
  · refine ⟨rfl, none, ?_, rfl⟩
    exact load_store_self _ (by simp [calloc])
  · simp [store, calloc]

theorem addProcess_after {s : processLinkedList} {pre post : List (Nat × Int)} {t : Nat} {v : Int}
    (hseg : Seg s.mem s.head none (pre ++ (t, v) :: post)) (ht : s.tail = some t) (pid : Int) :
    ∃ s1, addProcess s pid = some s1 ∧
      Seg s1.mem s1.head none (pre ++ [(t, v), (s.mem.length, pid)]) ∧
      s1.tail = some s.mem.length ∧ s1.mem.length = s.mem.length + 1 := by
  have hnd := seg_nodup hseg
  have hlt := seg_addr_lt hseg
  obtain ⟨r, hpre, hrest⟩ := seg_append.mp hseg
  obtain ⟨hr, nx, hlt0, _⟩ := hrest
  simp only at hr hlt0
  have htlen : t < s.mem.length := load_lt hlt0
  have hne : t ≠ s.mem.length := by omega
  have hfresh := load_calloc_fresh s.mem
  simp only [calloc] at hfresh
  have hload2 : load (store (s.mem ++ [some ⟨0, none⟩]) t ⟨v, some s.mem.length⟩) s.mem.length
      = some ⟨0, none⟩ := by
    rw [load_store_ne _ hne]; exact hfresh
  refine ⟨⟨store (store (calloc s.mem).1 t ⟨v, some s.mem.length⟩) s.mem.length ⟨pid, none⟩,
    s.head, some s.mem.length⟩, ?_, ?_, rfl, ?_⟩
  · simp [addProcess, ht, hlt0, calloc, hload2]
  · refine seg_append.mpr ⟨some t, ?_, ?_⟩
    · rw [hr] at hpre
      refine seg_congr ?_ hpre
      intro a ha
      have halt : a < s.mem.length := hlt a (by simp at ha ⊢; exact Or.inl ha)
      have hat : a ≠ t := by
        rintro rfl
        rw [List.map_append, List.map_cons, List.nodup_append] at hnd
        exact hnd.2.2 ha (by simp)
      have hal : s.mem.length ≠ a := by omega
      rw [load_store_ne _ hal, load_store_ne _ (Ne.symm hat)]
      exact load_calloc_old halt
    · refine ⟨rfl, some s.mem.length, ?_, rfl, none, ?_, rfl⟩
      · show load _ t = _
        rw [load_store_ne _ (Ne.symm hne)]
        exact load_store_self _ (by simp [calloc]; omega)
      · show load _ s.mem.length = _
        exact load_store_self _ (by simp [calloc, store])
  · simp [store, calloc]


theorem removeLoop_notfound {s : processLinkedList} {pid : Int} :
    ∀ {rest : List (Nat × Int)} {c : Nat} {vc : Int} (fuel : Nat),
    Seg s.mem (some c) none ((c, vc) :: rest) → pid ∉ rest.map Prod.snd →
    rest.length + 1 ≤ fuel → removeLoop fuel s (some c) pid = some (s, FALSE)
  | _, _, _, 0, _, _, hf => by omega
  | [], c, vc, fuel + 1, hseg, _, _ => by
    obtain ⟨_, nx, hl, hrest⟩ := hseg
    have hnx : nx = none := hrest
    subst hnx
    simp [removeLoop, hl]
  | (y, vy) :: rest, c, vc, fuel + 1, hseg, hnot, hf => by
    obtain ⟨_, nx, hl, hrest⟩ := hseg
    have hrest2 := hrest
    obtain ⟨hnx, ny, hly, _⟩ := hrest
    simp only at hnx hly hl
    subst hnx
    have hvy : vy ≠ pid := by
      intro h; apply hnot; simp [h]
    have hnot2 : pid ∉ rest.map Prod.snd := by
      intro h; apply hnot; simp at h ⊢; exact Or.inr h
    have ih := removeLoop_notfound fuel hrest2 hnot2 (by simpa using hf)
    simp [removeLoop, hl, hly, hvy, ih]

theorem removeProcess_notfound {s : processLinkedList} {cells : List (Nat × Int)} {pid : Int}
    (hseg : Seg s.mem s.head none cells) (hnot : pid ∉ cells.map Prod.snd) :
    removeProcess s pid = some (s, FALSE) := by
  cases cells with
  | nil =>
    have hh : s.head = none := hseg
    simp [removeProcess, hh]
  | cons c rest =>
    obtain ⟨a, v⟩ := c
    have hlen := seg_length_le hseg
    have hseg2 := hseg
    obtain ⟨hh, nx, hl, _⟩ := hseg
    simp only at hh hl
    have hv : v ≠ pid := by
      intro h; apply hnot; simp [h]
    have hnot2 : pid ∉ rest.map Prod.snd := by
      intro h; apply hnot; simp at h ⊢; exact Or.inr h
    rw [hh] at hseg2
    have := removeLoop_notfound s.mem.length hseg2 hnot2 (by simpa using hlen)
    simp [removeProcess, hh, hl, hv, this]

theorem removeProcess_head {s : processLinkedList} {h : Nat} {v : Int} {rest : List (Nat × Int)}
    (hseg : Seg s.mem s.head none ((h, v) :: rest)) :
    ∃ s1, removeProcess s v = some (s1, TRUE) ∧ Seg s1.mem s1.head none rest ∧
      s1.mem.length = s.mem.length ∧
      s1.tail = (if s.head = s.tail then s1.head else s.tail) := by
  have hnd := seg_nodup hseg
  obtain ⟨hh, nx, hl, hrest⟩ := hseg
  simp only at hh hl
  refine ⟨⟨release s.mem h, nx, if s.head = s.tail then nx else s.tail⟩, ?_, ?_, ?_, rfl⟩
  · simp [removeProcess, hh, hl]
  · refine seg_congr ?_ hrest
    intro a ha
    have : h ≠ a := by
      rintro rfl
      rw [List.map_cons, List.nodup_cons] at hnd
      exact hnd.1 ha
    exact load_release_ne this
  · simp [release]


theorem removeLoop_found {s : processLinkedList} {pid : Int} {t : Nat} {tnode : processNode}
    {x : Nat} {r2 : List (Nat × Int)} (ht : s.tail = some t) (hlt : load s.mem t = some tnode) :
    ∀ {r1 pre : List (Nat × Int)} {c : Nat} {vc : Int} (fuel : Nat),
    Seg s.mem s.head none (pre ++ (c, vc) :: (r1 ++ (x, pid) :: r2)) →
    pid ∉ r1.map Prod.snd → r1.length + 2 ≤ fuel →
    ∃ s1, removeLoop fuel s (some c) pid = some (s1, TRUE) ∧
      Seg s1.mem s1.head none (pre ++ (c, vc) :: (r1 ++ r2)) ∧
      s1.mem.length = s.mem.length ∧
      s1.tail = (if pid = tnode.pid then (((c, vc) :: r1).map Prod.fst).getLast? else some t)
  | _, _, _, _, 0, _, _, hf => by omega
  | [], pre, c, vc, fuel + 1, hseg, _, _ => by
    have hnd := seg_nodup hseg
    obtain ⟨r, hpre, hc⟩ := seg_append.mp hseg
    obtain ⟨hr, nxc, hlc, hx⟩ := hc
    obtain ⟨hnx, nx2, hlx, hr2⟩ := hx
    simp only [List.nil_append] at hr hlc hnx hlx
    subst hnx hr
    simp only [List.map_append, List.map_cons, List.nil_append, List.nodup_append,
      List.nodup_cons, List.mem_cons, not_or] at hnd
    obtain ⟨_, ⟨⟨hcx, hcr2⟩, hxr2, _⟩, hdisj⟩ := hnd
    refine ⟨⟨release (store s.mem c ⟨vc, nx2⟩) x, s.head,
      if pid = tnode.pid then some c else some t⟩, ?_, ?_, ?_, ?_⟩
    · simp [removeLoop, hlc, hlx, ht, hlt]
    · refine seg_append.mpr ⟨some c, ?_, rfl, nx2, ?_, ?_⟩
      · refine seg_congr ?_ hpre
        intro a ha
        have h1 : a ≠ c := fun h => hdisj ha (by simp [h])
        have h2 : a ≠ x := fun h => hdisj ha (by simp [h])
        rw [load_release_ne (Ne.symm h2), load_store_ne _ (Ne.symm h1)]
      · show load _ c = _
        rw [load_release_ne (Ne.symm hcx)]
        exact load_store_self _ (load_lt hlc)
      · refine seg_congr ?_ hr2
        intro a ha
        have h1 : a ≠ c := fun h => hcr2 (h ▸ ha)
        have h2 : a ≠ x := fun h => hxr2 (h ▸ ha)
        rw [load_release_ne (Ne.symm h2), load_store_ne _ (Ne.symm h1)]
    · simp [release, store]
    · simp
  | (y, vy) :: r1, pre, c, vc, fuel + 1, hseg, hnot, hf => by
    have hvy : vy ≠ pid := by
      intro h; apply hnot; simp [h]
    have hnot2 : pid ∉ r1.map Prod.snd := by
      intro h; apply hnot; simp at h ⊢; exact Or.inr h
    have hseg2 : Seg s.mem s.head none ((pre ++ [(c, vc)]) ++ (y, vy) :: (r1 ++ (x, pid) :: r2)) := by
      simpa using hseg
    obtain ⟨s1, hrun, hs1, hlen, htail⟩ :=
      removeLoop_found ht hlt fuel hseg2 hnot2 (by simpa using hf)
    obtain ⟨r, _, hc⟩ := seg_append.mp hseg
    obtain ⟨_, nxc, hlc, hy⟩ := hc
    obtain ⟨hnx, ny, hly, _⟩ := hy
    simp only [List.cons_append] at hlc hnx hly
    subst hnx
    refine ⟨s1, ?_, by simpa using hs1, hlen, ?_⟩
    · simp [removeLoop, hlc, hly, hvy, hrun]
    · rw [htail]; simp [List.getLast?_cons_cons]


theorem getLast?_cons_append_cons {α : Type} (c : α) (l1 : List α) (a : α) (l2 : List α) :
    (c :: (l1 ++ a :: l2)).getLast? = (a :: l2).getLast? := by
  rw [← List.cons_append, List.getLast?_append_cons]

theorem tailIn_head {mem : Heap} {p : Option Nat} {cells : List (Nat × Int)}
    (h : Seg mem p none cells) : TailIn p cells := by
  cases cells with
  | nil =>
    have : p = none := h
    subst this; rfl
  | cons c rest =>
    obtain ⟨hp, _⟩ := h
    subst hp
    simp [TailIn]

theorem seg_pid_eq {mem : Heap} {p q : Option Nat} {cells : List (Nat × Int)} {a : Nat} {v : Int}
    {node : processNode} (h : Seg mem p q cells) (hc : (a, v) ∈ cells)
    (hl : load mem a = some node) : node.pid = v := by
  obtain ⟨nx, hl2⟩ := seg_mem_load h (a, v) hc
  simp only at hl2
  rw [hl2] at hl
  exact (congrArg processNode.pid (Option.some.inj hl)).symm

theorem split_first_pid : ∀ (cells : List (Nat × Int)) (pid : Int), pid ∈ cells.map Prod.snd →
    ∃ r0 x r2, cells = r0 ++ (x, pid) :: r2 ∧ pid ∉ r0.map Prod.snd
  | [], _, h => by simp at h
  | (a, v) :: rest, pid, h => by
    by_cases hv : v = pid
    · subst hv
      exact ⟨[], a, rest, rfl, by simp⟩
    · have h2 : pid ∈ rest.map Prod.snd := by
        simp only [List.map_cons, List.mem_cons] at h
        rcases h with h | h
        · exact absurd h.symm hv
        · exact h
      obtain ⟨r0, x, r2, hsplit, hnot⟩ := split_first_pid rest pid h2
      refine ⟨(a, v) :: r0, x, r2, by rw [hsplit]; rfl, ?_⟩
      simp only [List.map_cons, List.mem_cons, not_or]
      exact ⟨fun h => hv h.symm, hnot⟩

theorem removeProcess_found {s : processLinkedList} {r0 r2 : List (Nat × Int)} {x : Nat}
    {pid : Int} (hseg : Seg s.mem s.head none (r0 ++ (x, pid) :: r2))
    (hnot : pid ∉ r0.map Prod.snd) (htail : TailIn s.tail (r0 ++ (x, pid) :: r2)) :
    ∃ s1, removeProcess s pid = some (s1, TRUE) ∧ Seg s1.mem s1.head none (r0 ++ r2) ∧
      s1.mem.length = s.mem.length ∧ TailIn s1.tail (r0 ++ r2) ∧
      (TailLast s.tail (r0 ++ (x, pid) :: r2) → pid ∉ r2.map Prod.snd →
        TailLast s1.tail (r0 ++ r2)) := by
  have hnd := seg_nodup hseg
  cases r0 with
  | nil =>
    simp only [List.nil_append] at hseg htail hnd ⊢
    obtain ⟨s1, hrun, hs1, hlen, ht1⟩ := removeProcess_head hseg
    have hhead : s.head = some x := hseg.1
    rw [List.map_cons, List.nodup_cons] at hnd
    refine ⟨s1, hrun, hs1, hlen, ?_, ?_⟩
    · rw [ht1]
      split
      · exact tailIn_head hs1
      · rename_i hne
        cases htl : s.tail with
        | none => rw [htl] at htail; simp [TailIn] at htail
        | some t =>
          rw [htl] at htail
          simp only [TailIn, List.map_cons, List.mem_cons] at htail ⊢
          rcases htail with rfl | h
          · exact absurd (hhead.trans htl.symm) hne
          · exact h
    · intro hlast _
      unfold TailLast at hlast ⊢
      rw [ht1]
      cases r2 with
      | nil =>
        have h1 : s1.head = none := hs1
        simp [hlast, hhead, h1]
      | cons d r2 =>
        have hne : s.head ≠ s.tail := by
          rw [hhead, hlast]
          simp only [List.map_cons, List.getLast?_cons_cons]
          intro h
          exact hnd.1 (List.mem_of_getLast?_eq_some h.symm)
        rw [if_neg hne, hlast]
        simp [List.getLast?_cons_cons]
  | cons c r1 =>
    obtain ⟨c, vc⟩ := c
    have hlenle := seg_length_le hseg
    have hseg2 := hseg
    obtain ⟨hh, nxc, hlc, _⟩ := hseg
    simp only [List.cons_append] at hh hlc
    have hvc : vc ≠ pid := by
      intro h; apply hnot; simp [h]
    have hnot1 : pid ∉ r1.map Prod.snd := by
      intro h; apply hnot; simp at h ⊢; exact Or.inr h
    cases htl : s.tail with
    | none => rw [htl] at htail; simp [TailIn] at htail
    | some t =>
      rw [htl] at htail
      simp only [TailIn] at htail
      obtain ⟨⟨t0, vt⟩, htmem, ht0⟩ := List.mem_map.mp htail
      simp only at ht0
      subst ht0
      obtain ⟨nt, hlt⟩ := seg_mem_load hseg2 _ htmem
      simp only at hlt
      have hseg3 : Seg s.mem s.head none ([] ++ (c, vc) :: (r1 ++ (x, pid) :: r2)) := by
        simpa using hseg2
      obtain ⟨s1, hrun, hs1, hlen, ht1⟩ := removeLoop_found htl hlt s.mem.length
        hseg3 hnot1 (by simp at hlenle; omega)
      simp only [List.nil_append] at hs1
      refine ⟨s1, ?_, by simpa using hs1, hlen, ?_, ?_⟩
      · simp [removeProcess, hh, hlc, hvc, hrun]
      · rw [ht1]
        by_cases heq : pid = (⟨vt, nt⟩ : processNode).pid
        · rw [if_pos heq]
          cases hgl : (((c, vc) :: r1).map Prod.fst).getLast? with
          | none => simp at hgl
          | some u =>
            have := List.mem_of_getLast?_eq_some hgl
            show u ∈ List.map Prod.fst (((c, vc) :: r1) ++ r2)
            rw [List.map_append]
            exact List.mem_append_left _ this
        · rw [if_neg heq]
          have hne : ¬ pid = vt := heq
          show t0 ∈ List.map Prod.fst ((c, vc) :: r1 ++ r2)
          have hne2 : (t0, vt) ≠ (x, pid) := by
            intro h
            apply hne
            simp only [Prod.mk.injEq] at h
            exact h.2.symm
          have : (t0, vt) ∈ ((c, vc) :: r1) ++ r2 := by
            simp only [List.cons_append, List.mem_cons, List.mem_append] at htmem ⊢
            rcases htmem with h | h | h | h
            · exact Or.inl h
            · exact Or.inr (Or.inl h)
            · exact absurd h hne2
            · exact Or.inr (Or.inr h)
          exact List.mem_map.mpr ⟨(t0, vt), this, rfl⟩
      · intro hlast hnot2
        unfold TailLast at hlast ⊢
        rw [ht1]
        cases r2 with
        | nil =>
          have hlx : t0 = x := by
            have h2 : (List.map Prod.fst ((c, vc) :: r1 ++ [(x, pid)])).getLast? = some x := by
              rw [List.map_append]
              exact List.getLast?_concat _
            rw [h2] at hlast
            exact Option.some.inj hlast
          subst hlx
          have hxmem : (t0, pid) ∈ (c, vc) :: r1 ++ [(t0, pid)] := by simp
          have hpid := seg_pid_eq hseg2 hxmem hlt
          rw [if_pos hpid.symm]
          simp
        | cons d r2 =>
          have hlast2 : some t0 = ((d :: r2).map Prod.fst).getLast? := by
            rw [hlast]
            simp only [List.cons_append, List.map_cons, List.map_append]
            rw [getLast?_cons_append_cons, List.getLast?_cons_cons]
          have htin : t0 ∈ (d :: r2).map Prod.fst := List.mem_of_getLast?_eq_some hlast2.symm
          obtain ⟨⟨t1, vt1⟩, htmem1, ht1eq⟩ := List.mem_map.mp htin
          simp only at ht1eq
          subst ht1eq
          have hmem2 : (t1, vt1) ∈ (c, vc) :: r1 ++ (x, pid) :: d :: r2 := by
            simp only [List.cons_append, List.mem_cons, List.mem_append] at htmem1 ⊢
            rcases htmem1 with h | h
            · exact Or.inr (Or.inr (Or.inr (Or.inl h)))
            · exact Or.inr (Or.inr (Or.inr (Or.inr h)))
          have hpid := seg_pid_eq hseg2 hmem2 hlt
          have hne : pid ≠ (⟨vt, nt⟩ : processNode).pid := by
            rw [hpid]
            intro h
            apply hnot2
            exact List.mem_map.mpr ⟨(t1, vt1), htmem1, h.symm⟩
          rw [if_neg hne, hlast2]
          simp only [List.cons_append, List.map_cons, List.map_append]
          rw [getLast?_cons_append_cons]


theorem getLast?_append_two {α : Type} (l : List α) (a b : α) :
    (l ++ [a, b]).getLast? = some b := by
  rw [show l ++ [a, b] = (l ++ [a]) ++ [b] by simp]
  exact List.getLast?_concat _

theorem isRegistry_iff {s : processLinkedList} :
    isRegistry s = true ↔ ∃ cells, Seg s.mem s.head none cells ∧ TailIn s.tail cells := by
  constructor
  · intro h
    unfold isRegistry at h
    cases hc : cellsOf s with
    | none => simp [hc] at h
    | some cells =>
      refine ⟨cells, cellsOf_eq_some.mp hc, ?_⟩
      simp only [hc] at h
      cases ht : s.tail with
      | none => simp only [ht] at h; simpa [TailIn] using h
      | some t => simp only [ht] at h; simpa [TailIn] using h
  · rintro ⟨cells, hseg, ht⟩
    unfold isRegistry
    rw [cellsOf_eq_some.mpr hseg]
    cases hts : s.tail with
    | none => rw [hts] at ht; simpa [TailIn] using ht
    | some t => rw [hts] at ht; simpa [TailIn] using ht

theorem heldPids_of_seg {s : processLinkedList} {cells : List (Nat × Int)}
    (h : Seg s.mem s.head none cells) : heldPids s = some (cells.map Prod.snd) := by
  simp [heldPids, cellsOf_eq_some.mpr h]

theorem seg_head {mem : Heap} {p : Option Nat} {cells : List (Nat × Int)}
    (h : Seg mem p none cells) : p = (cells.map Prod.fst).head? := by
  cases cells with
  | nil => exact h
  | cons c rest => exact h.1

theorem headPid_of_seg {s : processLinkedList} {cells : List (Nat × Int)}
    (h : Seg s.mem s.head none cells) : headPid s = (cells.map Prod.snd).head? := by
  cases cells with
  | nil =>
    have : s.head = none := h
    simp [headPid, this]
  | cons c rest =>
    obtain ⟨hh, nx, hl, _⟩ := h
    simp [headPid, hh, hl]

/-- On a registry whose tail is the last cell, `addProcess` appends one cell. -/
theorem addProcess_wellFormed {s : processLinkedList} {cells : List (Nat × Int)}
    (hseg : Seg s.mem s.head none cells) (ht : TailLast s.tail cells) (pid : Int) :
    ∃ s1, addProcess s pid = some s1 ∧
      Seg s1.mem s1.head none (cells ++ [(s.mem.length, pid)]) ∧
      TailLast s1.tail (cells ++ [(s.mem.length, pid)]) := by
  rcases List.eq_nil_or_concat cells with rfl | ⟨pre, ⟨t, v⟩, rfl⟩
  · have ht0 : s.tail = none := ht
    obtain ⟨s1, h1, h2, h3, _⟩ := addProcess_empty ht0 pid
    exact ⟨s1, h1, h2, by simp [TailLast, h3]⟩
  · simp only [List.concat_eq_append] at hseg ht ⊢
    have ht0 : s.tail = some t := by
      rw [ht, List.map_append]
      exact List.getLast?_concat _
    have hseg2 : Seg s.mem s.head none (pre ++ (t, v) :: []) := hseg
    obtain ⟨s1, h1, h2, h3, _⟩ := addProcess_after hseg2 ht0 pid
    refine ⟨s1, h1, by simpa using h2, ?_⟩
    unfold TailLast
    rw [h3, List.map_append]
    exact (List.getLast?_concat _).symm

/-- On any registry `addProcess` succeeds and gives a registry whose tail is the last cell. -/
theorem addProcess_registry {s : processLinkedList} {cells : List (Nat × Int)}
    (hseg : Seg s.mem s.head none cells) (ht : TailIn s.tail cells) (pid : Int) :
    ∃ s1 cells1, addProcess s pid = some s1 ∧ Seg s1.mem s1.head none cells1 ∧
      TailLast s1.tail cells1 := by
  cases hts : s.tail with
  | none =>
    obtain ⟨s1, h1, h2, h3, _⟩ := addProcess_empty hts pid
    exact ⟨s1, _, h1, h2, by simp [TailLast, h3]⟩
  | some t =>
    rw [hts] at ht
    obtain ⟨⟨t0, v⟩, hmem, rfl⟩ := List.mem_map.mp ht
    obtain ⟨pre, post, rfl⟩ := List.append_of_mem hmem
    obtain ⟨s1, h1, h2, h3, _⟩ := addProcess_after hseg hts pid
    refine ⟨s1, _, h1, h2, ?_⟩
    unfold TailLast
    rw [h3, List.map_append]
    exact (getLast?_append_two _ _ _).symm

/-- On any registry `removeProcess` succeeds and gives a registry. -/
theorem removeProcess_registry {s : processLinkedList} {cells : List (Nat × Int)}
    (hseg : Seg s.mem s.head none cells) (ht : TailIn s.tail cells) (pid : Int) :
    ∃ s1 flag cells1, removeProcess s pid = some (s1, flag) ∧ Seg s1.mem s1.head none cells1 ∧
      TailIn s1.tail cells1 ∧ (cells1.map Prod.snd).Sublist (cells.map Prod.snd) := by
  by_cases hmem : pid ∈ cells.map Prod.snd
  · obtain ⟨r0, x, r2, rfl, hnot⟩ := split_first_pid cells pid hmem
    obtain ⟨s1, h1, h2, _, h4, _⟩ := removeProcess_found hseg hnot ht
    refine ⟨s1, TRUE, _, h1, h2, h4, ?_⟩
    exact List.Sublist.map _ (List.Sublist.append_left (List.sublist_cons_self _ _) _)
  · exact ⟨s, FALSE, cells, removeProcess_notfound hseg hmem, hseg, ht, List.Sublist.refl _⟩

theorem emptyList_seg : Seg emptyList.mem emptyList.head none [] := rfl

theorem emptyList_tailLast : TailLast emptyList.tail [] := rfl

/-- Every sequence of calls runs without a memory fault and leaves a registry. -/
theorem runCalls_registry : ∀ (calls : List RegistryCall) (s : processLinkedList)
    (cells : List (Nat × Int)), Seg s.mem s.head none cells → TailIn s.tail cells →
    ∃ s1 cells1, runCalls calls s = some s1 ∧ Seg s1.mem s1.head none cells1 ∧
      TailIn s1.tail cells1
  | [], s, cells, hseg, ht => ⟨s, cells, rfl, hseg, ht⟩
  | .register pid :: cs, s, cells, hseg, ht => by
    obtain ⟨s1, cells1, h1, h2, h3⟩ := addProcess_registry hseg ht pid
    obtain ⟨s2, cells2, h4, h5, h6⟩ := runCalls_registry cs s1 cells1 h2 (tailIn_of_tailLast h3)
    exact ⟨s2, cells2, by simp [runCalls, runCall, h1, h4], h5, h6⟩
  | .remove pid :: cs, s, cells, hseg, ht => by
    obtain ⟨s1, flag, cells1, h1, h2, h3, _⟩ := removeProcess_registry hseg ht pid
    obtain ⟨s2, cells2, h4, h5, h6⟩ := runCalls_registry cs s1 cells1 h2 h3
    exact ⟨s2, cells2, by simp [runCalls, runCall, h1, h4], h5, h6⟩

theorem filter_ne_of_not_mem {l : List Int} {pid : Int} (h : pid ∉ l) :
    l.filter (fun q => q ≠ pid) = l := by
  rw [List.filter_eq_self]
  intro a ha
  simp only [ne_eq, decide_not, Bool.not_eq_true', decide_eq_false_iff_not]
  rintro rfl
  exact h ha

/-- When no call registers a held pid, the calls keep the tail at the last cell and the walk
is the spec's arrival-order list. -/
theorem runCalls_wellFormed : ∀ (calls : List RegistryCall) (s : processLinkedList)
    (cells : List (Nat × Int)), Seg s.mem s.head none cells → TailLast s.tail cells →
    (cells.map Prod.snd).Nodup → registersOnlyNew calls (cells.map Prod.snd) = true →
    ∃ s1 cells1, runCalls calls s = some s1 ∧ Seg s1.mem s1.head none cells1 ∧
      TailLast s1.tail cells1 ∧ (cells1.map Prod.snd).Nodup ∧
      cells1.map Prod.snd = heldInArrivalOrder calls (cells.map Prod.snd)
  | [], s, cells, hseg, ht, hnd, _ => ⟨s, cells, rfl, hseg, ht, hnd, rfl⟩
  | .register pid :: cs, s, cells, hseg, ht, hnd, hnew => by
    simp only [registersOnlyNew, Bool.and_eq_true, decide_eq_true_eq] at hnew
    obtain ⟨s1, h1, h2, h3⟩ := addProcess_wellFormed hseg ht pid
    have hmap : (cells ++ [(s.mem.length, pid)]).map Prod.snd = cells.map Prod.snd ++ [pid] := by
      simp
    have hnd1 : ((cells ++ [(s.mem.length, pid)]).map Prod.snd).Nodup := by
      rw [hmap]
      exact List.Nodup.append hnd (List.nodup_singleton _) (by simpa using hnew.1)
    obtain ⟨s2, cells2, h4, h5, h6, h7, h8⟩ :=
      runCalls_wellFormed cs s1 _ h2 h3 hnd1 (by rw [hmap]; exact hnew.2)
    refine ⟨s2, cells2, by simp [runCalls, runCall, h1, h4], h5, h6, h7, ?_⟩
    rw [h8, hmap]; rfl
  | .remove pid :: cs, s, cells, hseg, ht, hnd, hnew => by
    simp only [registersOnlyNew] at hnew
    by_cases hmem : pid ∈ cells.map Prod.snd
    · obtain ⟨r0, x, r2, rfl, hnot⟩ := split_first_pid cells pid hmem
      have hnot2 : pid ∉ r2.map Prod.snd := by
        rw [List.map_append, List.map_cons, List.nodup_append] at hnd
        exact (List.nodup_cons.mp hnd.2.1).1
      obtain ⟨s1, h1, h2, _, h4, h5⟩ := removeProcess_found hseg hnot (tailIn_of_tailLast ht)
      have hfil : ((r0 ++ (x, pid) :: r2).map Prod.snd).filter (fun q => q ≠ pid)
          = (r0 ++ r2).map Prod.snd := by
        simp only [List.map_append, List.map_cons, List.filter_append, List.filter_cons]
        rw [filter_ne_of_not_mem hnot, filter_ne_of_not_mem hnot2]
        simp
      have hnd1 : ((r0 ++ r2).map Prod.snd).Nodup := by
        refine List.Nodup.sublist ?_ hnd
        exact List.Sublist.map _ (List.Sublist.append_left (List.sublist_cons_self _ _) _)
      obtain ⟨s2, cells2, h6, h7, h8, h9, h10⟩ :=
        runCalls_wellFormed cs s1 _ h2 (h5 ht hnot2) hnd1 (by rw [← hfil]; exact hnew)
      refine ⟨s2, cells2, by simp [runCalls, runCall, h1, h6], h7, h8, h9, ?_⟩
      rw [h10, ← hfil]; rfl
    · have h1 := removeProcess_notfound hseg hmem
      have hfil := filter_ne_of_not_mem hmem
      obtain ⟨s2, cells2, h6, h7, h8, h9, h10⟩ :=
        runCalls_wellFormed cs s _ hseg ht hnd (by rw [← hfil]; exact hnew)
      refine ⟨s2, cells2, by simp [runCalls, runCall, h1, h6], h7, h8, h9, ?_⟩
      rw [h10]
      simp only [heldInArrivalOrder]
      rw [hfil]

/-- Membership in the arrival-order list is "registered and not removed since". -/
theorem mem_heldInArrivalOrder : ∀ (calls : List RegistryCall) (held : List Int) (p : Int),
    p ∈ heldInArrivalOrder calls held ↔ registeredNotRemoved calls p (decide (p ∈ held)) = true
  | [], held, p => by simp [heldInArrivalOrder, registeredNotRemoved]
  | .register pid :: cs, held, p => by
    rw [heldInArrivalOrder, registeredNotRemoved, mem_heldInArrivalOrder cs]
    have : decide (p ∈ held ++ [pid]) = (if pid = p then true else decide (p ∈ held)) := by
      by_cases h : pid = p
      · subst h; simp
      · have h2 : ¬ p = pid := fun e => h e.symm
        simp [h, h2]
    rw [this]
  | .remove pid :: cs, held, p => by
    rw [heldInArrivalOrder, registeredNotRemoved, mem_heldInArrivalOrder cs]
    have : decide (p ∈ held.filter (fun q => q ≠ pid))
        = (if pid = p then false else decide (p ∈ held)) := by
      by_cases h : pid = p
      · subst h; simp
      · have h2 : ¬ p = pid := fun e => h e.symm
        simp [h, h2]
    rw [this]

/-! ## C1 – C3: the registry under sequences of calls -/

/-- Every sequence of calls on the empty registry runs without a memory fault and leaves a
registry. -/
theorem runCalls_emptyList_isRegistry (calls : List RegistryCall) :
    ∃ s, runCalls calls emptyList = some s ∧ isRegistry s = true := by
  obtain ⟨s, cells, h1, h2, h3⟩ :=
    runCalls_registry calls emptyList [] emptyList_seg (tailIn_of_tailLast emptyList_tailLast)
  exact ⟨s, h1, isRegistry_iff.mpr ⟨cells, h2, h3⟩⟩

/-- C1 (as stated) fails: registering pid 7 twice on the empty registry leaves a registry that
holds 7 twice, so "no pid is held twice" does not hold for every sequence of calls. -/
theorem C1_counterexample_register_twice :
    (runCalls [.register 7, .register 7] emptyList).bind heldPids = some [7, 7] ∧
    ¬ ([7, 7] : List Int).Nodup := by
  decide

/-- C1 (amended): for every sequence of `addProcess`/`removeProcess` calls on the empty
registry in which no pid is registered while it is held, the calls succeed, the pids reachable
from `head` are exactly the pids registered and not removed since, no pid is held twice, `head`
designates the oldest pid still held, and `head` is null exactly when nothing is held. -/
theorem C1_registry_content (calls : List RegistryCall)
    (hnew : registersOnlyNew calls [] = true) :
    ∃ s pids, runCalls calls emptyList = some s ∧ heldPids s = some pids ∧
      (∀ p, p ∈ pids ↔ registeredNotRemoved calls p false = true) ∧
      pids.Nodup ∧
      headPid s = (heldInArrivalOrder calls []).head? ∧
      (s.head = none ↔ pids = []) := by
  obtain ⟨s, cells, h1, h2, _, h4, h5⟩ :=
    runCalls_wellFormed calls emptyList [] emptyList_seg emptyList_tailLast (by simp)
      (by simpa using hnew)
  simp only [List.map_nil] at h5
  refine ⟨s, cells.map Prod.snd, h1, heldPids_of_seg h2, ?_, h4, ?_, ?_⟩
  · intro p
    rw [h5, mem_heldInArrivalOrder]
    simp
  · rw [headPid_of_seg h2, h5]
  · rw [seg_head h2]
    cases cells <;> simp

/-- Witness for `C1_registry_content`: register 4, register 9, remove 4. -/
theorem C1_registry_content_witness :
    registersOnlyNew [.register 4, .register 9, .remove 4] [] = true ∧
    ∃ s pids, runCalls [.register 4, .register 9, .remove 4] emptyList = some s ∧
      heldPids s = some pids ∧
      (∀ p, p ∈ pids ↔
        registeredNotRemoved [.register 4, .register 9, .remove 4] p false = true) ∧
      pids.Nodup ∧
      headPid s = (heldInArrivalOrder [.register 4, .register 9, .remove 4] []).head? ∧
      (s.head = none ↔ pids = []) :=
  ⟨by decide, C1_registry_content [.register 4, .register 9, .remove 4] (by decide)⟩

/-- A list that holds a pid twice, which no sequence of calls registering only new pids
builds: after registering 1, 2, 3, 2, `removeProcess(procList, 2)` unlinks the first cell
holding 2 and also moves the tail pointer, because the loop compares the pids of the cells; a
following `addProcess(procList, 5)` then leaves the walk 1, 5. -/
theorem removeProcess_on_repeated_pid :
    ∃ s0 s1 s2,
      runCalls [.register 1, .register 2, .register 3, .register 2] emptyList = some s0 ∧
      cellsOf s0 = some [(0, 1), (1, 2), (2, 3), (3, 2)] ∧ s0.tail = some 3 ∧
      removeProcess s0 2 = some (s1, TRUE) ∧
      cellsOf s1 = some [(0, 1), (2, 3), (3, 2)] ∧ s1.tail = some 0 ∧
      addProcess s1 5 = some s2 ∧ heldPids s2 = some [1, 5] := by
  refine ⟨⟨[some ⟨1, some 1⟩, some ⟨2, some 2⟩, some ⟨3, some 3⟩, some ⟨2, none⟩],
      some 0, some 3⟩,
    ⟨[some ⟨1, some 2⟩, none, some ⟨3, some 3⟩, some ⟨2, none⟩], some 0, some 0⟩,
    ⟨[some ⟨1, some 4⟩, none, some ⟨3, some 3⟩, some ⟨2, none⟩, some ⟨5, none⟩],
      some 0, some 4⟩, ?_⟩
  decide

/-- When the removed cell is not the last one, the last cell is the same before and after. -/
theorem getLast?_remove_inner {α : Type} (r0 : List α) (x : α) (r2 : List α)
    (hr : r2 ≠ []) :
    (r0 ++ r2).getLast? = (r0 ++ x :: r2).getLast? := by
  rcases List.eq_nil_or_concat r2 with rfl | ⟨init, y, rfl⟩
  · exact absurd rfl hr
  · simp only [List.concat_eq_append]
    rw [← List.append_assoc, List.getLast?_concat,
      show r0 ++ x :: (init ++ [y]) = (r0 ++ x :: init) ++ [y] by simp, List.getLast?_concat]

/-- C2: for every registry built by a sequence of `addProcess`/`removeProcess` calls in which
no pid is registered while it is held, and every pid: when no entry holds the pid,
`removeProcess` returns FALSE and leaves the registry as it is; when one does, it returns
TRUE, the cells left are the cells before without the first one holding the pid, in the same
order, the tail pointer designates the last cell left and is the one before unless the
removed cell was the tail, and a following `addProcess` appends after every cell left. -/
theorem C2_removeProcess_first_match (calls : List RegistryCall)
    (hnew : registersOnlyNew calls [] = true) (pid : Int) :
    ∃ s cells, runCalls calls emptyList = some s ∧ cellsOf s = some cells ∧
      s.tail = (cells.map Prod.fst).getLast? ∧
      (pid ∉ cells.map Prod.snd → removeProcess s pid = some (s, FALSE)) ∧
      (pid ∈ cells.map Prod.snd →
        ∃ r0 x r2 s1, cells = r0 ++ (x, pid) :: r2 ∧ pid ∉ r0.map Prod.snd ∧
          removeProcess s pid = some (s1, TRUE) ∧ cellsOf s1 = some (r0 ++ r2) ∧
          s1.tail = ((r0 ++ r2).map Prod.fst).getLast? ∧
          (s.tail ≠ some x → s1.tail = s.tail) ∧
          ∀ q, ∃ s2, addProcess s1 q = some s2 ∧
            heldPids s2 = some ((r0 ++ r2).map Prod.snd ++ [q])) := by
  obtain ⟨s, cells, h1, hseg, ht, hnd, _⟩ :=
    runCalls_wellFormed calls emptyList [] emptyList_seg emptyList_tailLast (by simp)
      (by simpa using hnew)
  refine ⟨s, cells, h1, cellsOf_eq_some.mpr hseg, ht, removeProcess_notfound hseg, ?_⟩
  intro hmem
  obtain ⟨r0, x, r2, rfl, hnot⟩ := split_first_pid cells pid hmem
  have hnot2 : pid ∉ r2.map Prod.snd := by
    intro h2
    rw [List.map_append, List.map_cons] at hnd
    have := (List.nodup_cons.mp (List.nodup_append.mp hnd).2.1).1
    exact this h2
  obtain ⟨s1, hrun, hseg1, _, _, hlast⟩ := removeProcess_found hseg hnot (tailIn_of_tailLast ht)
  have ht1 : TailLast s1.tail (r0 ++ r2) := hlast ht hnot2
  refine ⟨r0, x, r2, s1, rfl, hnot, hrun, cellsOf_eq_some.mpr hseg1, ht1, ?_, ?_⟩
  · intro hne
    have hts : s.tail = ((r0 ++ (x, pid) :: r2).map Prod.fst).getLast? := ht
    have ht1s : s1.tail = ((r0 ++ r2).map Prod.fst).getLast? := ht1
    have hr : r2 ≠ [] := by
      rintro rfl
      apply hne
      rw [hts, List.map_append]
      exact List.getLast?_concat _
    rw [hts, ht1s, List.map_append, List.map_append, List.map_cons]
    exact getLast?_remove_inner _ _ _ (by simpa using hr)
  · intro q
    obtain ⟨s2, h6, h7, _⟩ := addProcess_wellFormed hseg1 ht1 q
    refine ⟨s2, h6, ?_⟩
    rw [heldPids_of_seg h7]
    simp

/-- Witness for `C2_removeProcess_first_match`: register 4, 9 and 6, then pid 9. -/
theorem C2_removeProcess_first_match_witness :
    registersOnlyNew [.register 4, .register 9, .register 6] [] = true ∧
    ∃ s cells, runCalls [.register 4, .register 9, .register 6] emptyList = some s ∧
      cellsOf s = some cells ∧
      s.tail = (cells.map Prod.fst).getLast? ∧
      ((9 : Int) ∉ cells.map Prod.snd → removeProcess s 9 = some (s, FALSE)) ∧
      ((9 : Int) ∈ cells.map Prod.snd →
        ∃ r0 x r2 s1, cells = r0 ++ (x, 9) :: r2 ∧ (9 : Int) ∉ r0.map Prod.snd ∧
          removeProcess s 9 = some (s1, TRUE) ∧ cellsOf s1 = some (r0 ++ r2) ∧
          s1.tail = ((r0 ++ r2).map Prod.fst).getLast? ∧
          (s.tail ≠ some x → s1.tail = s.tail) ∧
          ∀ q, ∃ s2, addProcess s1 q = some s2 ∧
            heldPids s2 = some ((r0 ++ r2).map Prod.snd ++ [q])) :=
  ⟨by decide, C2_removeProcess_first_match [.register 4, .register 9, .register 6]
    (by decide) 9⟩

/-- C3: for every sequence of `addProcess`/`removeProcess` calls on the empty registry in
which no pid is registered while it is held, the calls succeed, the walk from `head` yields the
held pids in arrival order, `tail` designates the last cell of the walk, `head` the first,
`head` and `tail` are null exactly when the registry is empty, and `addProcess(pid)` yields the
previous sequence followed by `pid`. -/
theorem C3_arrival_order (calls : List RegistryCall)
    (hnew : registersOnlyNew calls [] = true) :
    ∃ s cells, runCalls calls emptyList = some s ∧ cellsOf s = some cells ∧
      heldPids s = some (heldInArrivalOrder calls []) ∧
      s.head = (cells.map Prod.fst).head? ∧
      s.tail = (cells.map Prod.fst).getLast? ∧
      (s.head = none ↔ cells = []) ∧ (s.tail = none ↔ cells = []) ∧
      ∀ pid, ∃ s1, addProcess s pid = some s1 ∧
        heldPids s1 = some (heldInArrivalOrder calls [] ++ [pid]) := by
  obtain ⟨s, cells, h1, h2, h3, _, h5⟩ :=
    runCalls_wellFormed calls emptyList [] emptyList_seg emptyList_tailLast (by simp)
      (by simpa using hnew)
  simp only [List.map_nil] at h5
  refine ⟨s, cells, h1, cellsOf_eq_some.mpr h2, ?_, seg_head h2, h3, ?_, ?_, ?_⟩
  · rw [heldPids_of_seg h2, h5]
  · rw [seg_head h2]
    cases cells <;> simp
  · rw [h3]
    simp
  · intro pid
    obtain ⟨s1, h6, h7, _⟩ := addProcess_wellFormed h2 h3 pid
    refine ⟨s1, h6, ?_⟩
    rw [heldPids_of_seg h7, ← h5]
    simp

/-- Witness for `C3_arrival_order`: register 4, register 9, remove 4, register 6. -/
theorem C3_arrival_order_witness :
    registersOnlyNew [.register 4, .register 9, .remove 4, .register 6] [] = true ∧
    ∃ s cells, runCalls [.register 4, .register 9, .remove 4, .register 6] emptyList = some s ∧
      cellsOf s = some cells ∧
      heldPids s = some (heldInArrivalOrder [.register 4, .register 9, .remove 4, .register 6] []) ∧
      s.head = (cells.map Prod.fst).head? ∧
      s.tail = (cells.map Prod.fst).getLast? ∧
      (s.head = none ↔ cells = []) ∧ (s.tail = none ↔ cells = []) ∧
      ∀ pid, ∃ s1, addProcess s pid = some s1 ∧
        heldPids s1 =
          some (heldInArrivalOrder [.register 4, .register 9, .remove 4, .register 6] [] ++ [pid]) :=
  ⟨by decide, C3_arrival_order [.register 4, .register 9, .remove 4, .register 6] (by decide)⟩

/-! ## C4, C5: the non-blocking sweep -/

/-- On a registry the sweep never faults, leaves a registry and only takes pids away. -/
theorem nonBlockClearFinished_registry : ∀ (ws : List WaitResult) (s : processLinkedList)
    (cells : List (Nat × Int)), Seg s.mem s.head none cells → TailIn s.tail cells →
    ∃ s2 out cells2, nonBlockClearFinished ws s = some (s2, out) ∧
      Seg s2.mem s2.head none cells2 ∧ TailIn s2.tail cells2 ∧
      (cells2.map Prod.snd).Sublist (cells.map Prod.snd)
  | [], s, cells, hseg, ht => ⟨s, "", cells, rfl, hseg, ht, List.Sublist.refl _⟩
  | w :: ws, s, cells, hseg, ht => by
    by_cases hpos : w.ret > 0
    · obtain ⟨s1, flag, cells1, h1, h2, h3, h4⟩ := removeProcess_registry hseg ht w.ret
      obtain ⟨s2, out, cells2, h5, h6, h7, h8⟩ := nonBlockClearFinished_registry ws s1 cells1 h2 h3
      exact ⟨s2, (if flag ≠ 0 then completionText w.ret w.status else "") ++ out, cells2,
        by simp only [nonBlockClearFinished, if_pos hpos, h1, h5], h6, h7, h8.trans h4⟩
    · exact ⟨s, "", cells, by simp [nonBlockClearFinished, hpos], hseg, ht, List.Sublist.refl _⟩

theorem wexitstatus_exited {N : Nat} (h : N ≤ 255) : WEXITSTATUS (exitedStatus N) = N := by
  unfold WEXITSTATUS exitedStatus
  omega

theorem wifexited_exited (N : Nat) : WIFEXITED (exitedStatus N) = 1 := by
  unfold WIFEXITED WTERMSIG exitedStatus
  rw [if_pos (by omega)]

theorem wtermsig_signaled {n : Nat} (core : Bool) (h : n ≤ 127) :
    WTERMSIG (signaledStatus n core) = n := by
  unfold WTERMSIG signaledStatus
  cases core
  · simp only [Bool.false_eq_true, if_false]; omega
  · simp only [if_true]; omega

theorem wifexited_signaled {n : Nat} (core : Bool) (h1 : 1 ≤ n) (h : n ≤ 127) :
    WIFEXITED (signaledStatus n core) ≠ 1 := by
  unfold WIFEXITED
  rw [wtermsig_signaled core h, if_neg (by omega)]
  decide

theorem signaled_ne_zero {n : Nat} (core : Bool) (h1 : 1 ≤ n) : signaledStatus n core ≠ 0 := by
  unfold signaledStatus
  cases core
  · simp only [Bool.false_eq_true, if_false]; omega
  · simp only [if_true]; omega

/-- The notification for a process that exited normally with code `N`. -/
theorem completionText_exited (p : Int) {N : Nat} (h : N ≤ 255) :
    completionText p (exitedStatus N) =
      "background pid " ++ toString p ++ " is done: exit value " ++ toString N ++ "\n" := by
  have hlit : " is done: exit value " = " is done:" ++ " exit value " := by decide
  unfold completionText
  by_cases h0 : N = 0
  · subst h0
    have h1 : exitedStatus 0 = 0 := rfl
    have h2 : " exit value 0\n" = " exit value " ++ (toString (0 : Nat) ++ "\n") := by decide
    rw [h1, if_pos rfl, h2, hlit]
    simp only [String.append_assoc]
  · have h1 : exitedStatus N ≠ 0 := by unfold exitedStatus; omega
    rw [if_neg h1, if_pos (wifexited_exited N), wexitstatus_exited h, hlit]
    simp only [String.append_assoc]

/-- The notification for a process killed by signal `n`. -/
theorem completionText_signaled (p : Int) {n : Nat} (core : Bool) (h1 : 1 ≤ n) (h : n ≤ 127) :
    completionText p (signaledStatus n core) =
      "background pid " ++ toString p ++ " is done: terminated by signal " ++ toString n
        ++ "\n" := by
  have hlit : " is done: terminated by signal " = " is done:" ++ " terminated by signal " := by
    decide
  unfold completionText
  rw [if_neg (signaled_ne_zero core h1), if_neg (wifexited_signaled core h1 h),
    wtermsig_signaled core h, hlit]
  simp only [String.append_assoc]

/-- A pid held exactly once splits the walk around its cell. -/
theorem split_unique_pid (cells : List (Nat × Int)) (pid : Int)
    (h : (cells.map Prod.snd).count pid = 1) :
    ∃ r0 x r2, cells = r0 ++ (x, pid) :: r2 ∧ pid ∉ r0.map Prod.snd ∧
      pid ∉ r2.map Prod.snd := by
  have hmem : pid ∈ cells.map Prod.snd := List.count_pos_iff.mp (by omega)
  obtain ⟨r0, x, r2, rfl, hnot⟩ := split_first_pid cells pid hmem
  refine ⟨r0, x, r2, rfl, hnot, ?_⟩
  intro h2
  rw [List.map_append, List.map_cons, List.count_append, List.count_cons_self] at h
  have := List.count_pos_iff.mpr h2
  omega

/-- On a registry that holds pid `p` exactly once, the sweep that observes that `p` finished
with status word `st` removes the entry of `p`, ends with `p` absent, and prints the
notification for `p` followed by what the rest of the sweep prints. -/
theorem sweep_notifies_held_once (s : processLinkedList) (pids : List Int) (p : Int) (st : Nat)
    (ws : List WaitResult) (hreg : isRegistry s = true) (hheld : heldPids s = some pids)
    (hone : pids.count p = 1) (hpos : 0 < p) :
    ∃ s1 s2 out, removeProcess s p = some (s1, TRUE) ∧ heldPids s1 = some (pids.erase p) ∧
      nonBlockClearFinished ws s1 = some (s2, out) ∧
      nonBlockClearFinished (⟨p, st⟩ :: ws) s = some (s2, completionText p st ++ out) ∧
      (∃ pids2, heldPids s2 = some pids2 ∧ p ∉ pids2) ∧
      (∀ N, N ≤ 255 → st = exitedStatus N → completionText p st =
        "background pid " ++ toString p ++ " is done: exit value " ++ toString N ++ "\n") ∧
      (∀ n core, 1 ≤ n → n ≤ 127 → st = signaledStatus n core → completionText p st =
        "background pid " ++ toString p ++ " is done: terminated by signal " ++ toString n
          ++ "\n") := by
  obtain ⟨cells, hseg, ht⟩ := isRegistry_iff.mp hreg
  have hp : pids = cells.map Prod.snd := by
    rw [heldPids_of_seg hseg] at hheld
    exact (Option.some.inj hheld).symm
  subst hp
  obtain ⟨r0, x, r2, rfl, hn0, hn2⟩ := split_unique_pid cells p hone
  obtain ⟨s1, h1, h2, _, h4, _⟩ := removeProcess_found hseg hn0 ht
  obtain ⟨s2, out, cells2, h5, h6, _, h8⟩ := nonBlockClearFinished_registry ws s1 _ h2 h4
  have herase : ((r0 ++ (x, p) :: r2).map Prod.snd).erase p = (r0 ++ r2).map Prod.snd := by
    rw [List.map_append, List.map_cons, List.erase_append_right _ hn0, List.erase_cons_head,
      List.map_append]
  have hTRUE : TRUE ≠ 0 := by decide
  refine ⟨s1, s2, out, h1, ?_, h5, ?_, ⟨cells2.map Prod.snd, heldPids_of_seg h6, ?_⟩, ?_, ?_⟩
  · rw [heldPids_of_seg h2, herase]
  · have hgt : (⟨p, st⟩ : WaitResult).ret > 0 := hpos
    simp only [nonBlockClearFinished, if_pos hgt, h1, h5, if_pos hTRUE]
  · intro hmem
    have := h8.subset hmem
    rw [List.map_append, List.mem_append] at this
    exact this.elim hn0 hn2
  · intro N hN hst
    rw [hst]
    exact completionText_exited p hN
  · intro n core h1n hn hst
    rw [hst]
    exact completionText_signaled p core h1n hn

/-- C4: for every registry built by a sequence of `addProcess`/`removeProcess` calls in
which no pid is registered while it is held, and every pid `p` it holds: when the sweep
`nonBlockClearFinished` observes that `p` finished with status word `st`, the entry of `p` is
removed, `p` is absent from the registry when the sweep ends, and the text printed by the
sweep is the notification for `p` followed by what the rest of the sweep prints (discovery
order).  The notification is `background pid <p> is done: exit value <N>` when `p` exited
normally with code `N` in 0..255 and `background pid <p> is done: terminated by signal <n>`
when `p` was killed by signal `n`. -/
theorem C4_sweep_notifies_registry (calls : List RegistryCall)
    (hnew : registersOnlyNew calls [] = true) (p : Int) (st : Nat) (ws : List WaitResult)
    (hheld : p ∈ heldInArrivalOrder calls []) (hpos : 0 < p) :
    ∃ s s1 s2 out, runCalls calls emptyList = some s ∧
      heldPids s = some (heldInArrivalOrder calls []) ∧
      removeProcess s p = some (s1, TRUE) ∧
      heldPids s1 = some ((heldInArrivalOrder calls []).erase p) ∧
      nonBlockClearFinished ws s1 = some (s2, out) ∧
      nonBlockClearFinished (⟨p, st⟩ :: ws) s = some (s2, completionText p st ++ out) ∧
      (∃ pids2, heldPids s2 = some pids2 ∧ p ∉ pids2) ∧
      (∀ N, N ≤ 255 → st = exitedStatus N → completionText p st =
        "background pid " ++ toString p ++ " is done: exit value " ++ toString N ++ "\n") ∧
      (∀ n core, 1 ≤ n → n ≤ 127 → st = signaledStatus n core → completionText p st =
        "background pid " ++ toString p ++ " is done: terminated by signal " ++ toString n
          ++ "\n") := by
  obtain ⟨s, cells, h1, hseg, ht, hnd, hpids⟩ :=
    runCalls_wellFormed calls emptyList [] emptyList_seg emptyList_tailLast (by simp)
      (by simpa using hnew)
  simp only [List.map_nil] at hpids
  rw [← hpids] at hheld ⊢
  obtain ⟨s1, s2, out, h⟩ := sweep_notifies_held_once s (cells.map Prod.snd) p st ws
    (isRegistry_iff.mpr ⟨cells, hseg, tailIn_of_tailLast ht⟩) (heldPids_of_seg hseg)
    (List.count_eq_one_of_mem hnd hheld) hpos
  exact ⟨s, s1, s2, out, h1, heldPids_of_seg hseg, h⟩

/-- Witness for `C4_sweep_notifies_registry`: register 11 and 22, the sweep observing that
22 exited with code 3 and then that 11 was killed by signal 15. -/
theorem C4_sweep_notifies_registry_witness :
    registersOnlyNew [.register 11, .register 22] [] = true ∧
    (22 : Int) ∈ heldInArrivalOrder [.register 11, .register 22] [] ∧ (0 : Int) < 22 ∧
    ∃ s s1 s2 out, runCalls [.register 11, .register 22] emptyList = some s ∧
      heldPids s = some (heldInArrivalOrder [.register 11, .register 22] []) ∧
      removeProcess s 22 = some (s1, TRUE) ∧
      heldPids s1 = some ((heldInArrivalOrder [.register 11, .register 22] []).erase 22) ∧
      nonBlockClearFinished [⟨11, signaledStatus 15 false⟩] s1 = some (s2, out) ∧
      nonBlockClearFinished [⟨22, exitedStatus 3⟩, ⟨11, signaledStatus 15 false⟩] s
        = some (s2, completionText 22 (exitedStatus 3) ++ out) ∧
      (∃ pids2, heldPids s2 = some pids2 ∧ (22 : Int) ∉ pids2) ∧
      (∀ N, N ≤ 255 → exitedStatus 3 = exitedStatus N →
        completionText 22 (exitedStatus 3) =
          "background pid " ++ toString (22 : Int) ++ " is done: exit value "
            ++ toString N ++ "\n") ∧
      (∀ n core, 1 ≤ n → n ≤ 127 → exitedStatus 3 = signaledStatus n core →
        completionText 22 (exitedStatus 3) =
          "background pid " ++ toString (22 : Int) ++ " is done: terminated by signal "
            ++ toString n ++ "\n") :=
  ⟨by decide, by decide, by decide,
    C4_sweep_notifies_registry [.register 11, .register 22] (by decide) 22 (exitedStatus 3)
      [⟨11, signaledStatus 15 false⟩] (by decide) (by decide)⟩

/-- C5: for every registry and every finished pid `p` (a positive value returned by
`waitpid`) that the registry does not hold, `removeProcess` returns FALSE and leaves the
registry as it is, and the sweep `nonBlockClearFinished` that meets `p` behaves as the sweep
over the remaining finished children from the same registry: it prints nothing for `p`, goes
on, and ends without a fault. -/
theorem C5_sweep_ignores_unknown_pid (s : processLinkedList) (pids : List Int) (p : Int)
    (st : Nat) (ws : List WaitResult) (hreg : isRegistry s = true)
    (hheld : heldPids s = some pids) (hnot : p ∉ pids) (hpos : 0 < p) :
    removeProcess s p = some (s, FALSE) ∧
    nonBlockClearFinished (⟨p, st⟩ :: ws) s = nonBlockClearFinished ws s ∧
    ∃ s2 out, nonBlockClearFinished ws s = some (s2, out) := by
  obtain ⟨cells, hseg, ht⟩ := isRegistry_iff.mp hreg
  have hp : pids = cells.map Prod.snd := by
    rw [heldPids_of_seg hseg] at hheld
    exact (Option.some.inj hheld).symm
  subst hp
  have h1 := removeProcess_notfound hseg hnot
  obtain ⟨s2, out, _, h5, _⟩ := nonBlockClearFinished_registry ws s cells hseg ht
  have hgt : (⟨p, st⟩ : WaitResult).ret > 0 := hpos
  have hFALSE : ¬ FALSE ≠ 0 := by decide
  refine ⟨h1, ?_, s2, out, h5⟩
  simp only [nonBlockClearFinished, if_pos hgt, h1, h5, if_neg hFALSE, String.empty_append]

/-- Witness for `C5_sweep_ignores_unknown_pid`: the registry holding 11 and 22, the sweep
meeting the finished pid 33 and then 11. -/
theorem C5_sweep_ignores_unknown_pid_witness :
    isRegistry ⟨[some ⟨11, some 1⟩, some ⟨22, none⟩], some 0, some 1⟩ = true ∧
    heldPids ⟨[some ⟨11, some 1⟩, some ⟨22, none⟩], some 0, some 1⟩ = some [11, 22] ∧
    (33 : Int) ∉ ([11, 22] : List Int) ∧ (0 : Int) < 33 ∧
    (removeProcess ⟨[some ⟨11, some 1⟩, some ⟨22, none⟩], some 0, some 1⟩ 33
        = some (⟨[some ⟨11, some 1⟩, some ⟨22, none⟩], some 0, some 1⟩, FALSE) ∧
      nonBlockClearFinished [⟨33, 0⟩, ⟨11, 0⟩]
          ⟨[some ⟨11, some 1⟩, some ⟨22, none⟩], some 0, some 1⟩
        = nonBlockClearFinished [⟨11, 0⟩]
          ⟨[some ⟨11, some 1⟩, some ⟨22, none⟩], some 0, some 1⟩ ∧
      ∃ s2 out, nonBlockClearFinished [⟨11, 0⟩]
          ⟨[some ⟨11, some 1⟩, some ⟨22, none⟩], some 0, some 1⟩ = some (s2, out)) :=
  ⟨by decide, by decide, by decide, by decide,
    C5_sweep_ignores_unknown_pid ⟨[some ⟨11, some 1⟩, some ⟨22, none⟩], some 0, some 1⟩
      [11, 22] 33 0 [⟨11, 0⟩] (by decide) (by decide) (by decide) (by decide)⟩

/-! ## C6, C7: the status of the last foreground process -/

theorem getenv_setenv (env : Env) (name value : String) :
    getenv (setenv env name value) name = some value := by
  simp [getenv, setenv, List.lookup]

/-- The status recorded by one `clearFinished(pid, 0)`. -/
theorem showStatus_clearFinished (pid : Int) (w : WaitResult) (env : Env) :
    showStatus (clearFinished pid 0 w env).env =
      some (if w.status = 0 then "exit value 0\n"
        else if WIFEXITED w.status = 1 then
          "exit value " ++ toString (WEXITSTATUS w.status) ++ "\n"
        else "terminated by signal " ++ toString (WTERMSIG w.status) ++ "\n") := by
  unfold showStatus clearFinished
  simp only [getenv_setenv, if_true]
  split_ifs <;> rfl

/-- The retry loop ends at the first result that is not -1 and keeps the environment that
this last call left. -/
theorem waitForeground_retries (pid : Int) (final : WaitResult) (rest : List WaitResult)
    (hfin : final.ret ≠ -1) : ∀ (interrupted : List WaitResult) (env : Env),
    (∀ w ∈ interrupted, w.ret = -1) →
    ∃ r envLast, waitForeground pid (interrupted ++ final :: rest) env = some r ∧
      r.env = (clearFinished pid 0 final envLast).env
  | [], env, _ => by
    have h : (clearFinished pid 0 final env).result ≠ -1 := hfin
    exact ⟨clearFinished pid 0 final env, env, by simp [waitForeground, h], rfl⟩
  | w :: ws, env, hint => by
    have hw : (clearFinished pid 0 w env).result = -1 := hint w (by simp)
    obtain ⟨r, envLast, h1, h2⟩ := waitForeground_retries pid final rest hfin ws
      (clearFinished pid 0 w env).env (fun w1 h => hint w1 (by simp [h]))
    have hcons : (w :: ws) ++ final :: rest = w :: (ws ++ final :: rest) := rfl
    refine ⟨{ r with out := (clearFinished pid 0 w env).out ++ r.out,
                     calls := (clearFinished pid 0 w env).calls ++ r.calls }, envLast, ?_, h2⟩
    rw [hcons]
    simp only [waitForeground, if_pos hw, h1]

theorem showStatus_clearFinished_indep (pid : Int) (w : WaitResult) (env1 env2 : Env) :
    showStatus (clearFinished pid 0 w env1).env = showStatus (clearFinished pid 0 w env2).env := by
  rw [showStatus_clearFinished, showStatus_clearFinished]

/-- C6: once the blocking wait of `forkForeground` has returned (the results of the `waitpid`
calls being any number of -1 followed by a result `final` that is not -1), the parent branch
ends and the text that `showStatus` prints afterwards is `exit value N` when the child
exited normally with code `N` in 0..255 and `terminated by signal n` when it was killed by
signal `n`, each followed by a newline; it is the text that the last call alone records,
whatever calls were interrupted before. -/
theorem C6_foreground_status (pid : Int) (interrupted : List WaitResult) (final : WaitResult)
    (rest sweep : List WaitResult) (sh : Shell)
    (hint : ∀ w ∈ interrupted, w.ret = -1) (hfin : final.ret ≠ -1)
    (hreg : isRegistry sh.procList = true) :
    ∃ done, forkForegroundParent pid (interrupted ++ final :: rest) sweep sh = some done ∧
      showStatus done.shell.env = showStatus (clearFinished pid 0 final sh.env).env ∧
      (∀ N, N ≤ 255 → final.status = exitedStatus N →
        showStatus done.shell.env = some ("exit value " ++ toString N ++ "\n")) ∧
      (∀ n core, 1 ≤ n → n ≤ 127 → final.status = signaledStatus n core →
        showStatus done.shell.env = some ("terminated by signal " ++ toString n ++ "\n")) := by
  obtain ⟨r, envLast, h1, h2⟩ := waitForeground_retries pid final rest hfin interrupted sh.env hint
  obtain ⟨cells, hseg, ht⟩ := isRegistry_iff.mp hreg
  obtain ⟨s2, out, _, h5, _⟩ := nonBlockClearFinished_registry sweep sh.procList cells hseg ht
  have hshow : showStatus r.env = showStatus (clearFinished pid 0 final sh.env).env := by
    rw [h2]
    exact showStatus_clearFinished_indep pid final envLast sh.env
  have hrun : ∃ done, forkForegroundParent pid (interrupted ++ final :: rest) sweep sh
      = some done ∧ done.shell.env = r.env := by
    simp only [forkForegroundParent, h1, h5]
    exact ⟨_, rfl, rfl⟩
  obtain ⟨done, hdone, henv⟩ := hrun
  rw [← henv] at hshow
  refine ⟨done, hdone, hshow, ?_, ?_⟩
  · intro N hN hst
    rw [hshow, showStatus_clearFinished, hst]
    by_cases h0 : N = 0
    · subst h0
      have : exitedStatus 0 = 0 := rfl
      rw [this, if_pos rfl]
      decide
    · have hne : exitedStatus N ≠ 0 := by unfold exitedStatus; omega
      rw [if_neg hne, if_pos (wifexited_exited N), wexitstatus_exited hN]
  · intro n core h1n hn hst
    rw [hshow, showStatus_clearFinished, hst, if_neg (signaled_ne_zero core h1n),
      if_neg (wifexited_signaled core h1n hn), wtermsig_signaled core hn]

/-- Witness for `C6_foreground_status`: the child 77 runs `false`; one wait is interrupted,
the next reports exit code 1. -/
theorem C6_foreground_status_witness :
    (∀ w ∈ [(⟨-1, 0⟩ : WaitResult)], w.ret = -1) ∧ (⟨77, 256⟩ : WaitResult).ret ≠ -1 ∧
    isRegistry (initialShell 4321 []).procList = true ∧
    ∃ done, forkForegroundParent 77 ([⟨-1, 0⟩] ++ ⟨77, 256⟩ :: []) [] (initialShell 4321 [])
        = some done ∧
      showStatus done.shell.env =
        showStatus (clearFinished 77 0 ⟨77, 256⟩ (initialShell 4321 []).env).env ∧
      (∀ N, N ≤ 255 → (⟨77, 256⟩ : WaitResult).status = exitedStatus N →
        showStatus done.shell.env = some ("exit value " ++ toString N ++ "\n")) ∧
      (∀ n core, 1 ≤ n → n ≤ 127 → (⟨77, 256⟩ : WaitResult).status = signaledStatus n core →
        showStatus done.shell.env = some ("terminated by signal " ++ toString n ++ "\n")) :=
  ⟨by decide, by decide, by decide,
    C6_foreground_status 77 [⟨-1, 0⟩] ⟨77, 256⟩ [] [] (initialShell 4321 [])
      (by decide) (by decide) (by decide)⟩

/-- C7 (the code at the failing input): at session start, whatever the pid and the
environment, `initParentProc` stores `exit code 0` as the status, so `showStatus` prints
`exit code 0`, which is not the `exit value 0` of `BASIC_STATUS` and of `clearFinished`, and
has neither the form `exit value N` nor the form `terminated by signal N`. -/
theorem C7_initial_status_is_exit_code (pid : Int) (env : Env) :
    showStatus (initialShell pid env).env = some "exit code 0" ∧
    "exit code 0" ≠ BASIC_STATUS ∧
    (∀ tail : String, "exit code 0" ≠ "exit value " ++ tail) ∧
    (∀ tail : String, "exit code 0" ≠ "terminated by signal " ++ tail) := by
  refine ⟨?_, by decide, ?_, ?_⟩
  · simp [showStatus, initialShell, initParentProc, getenv, setenv, List.lookup, STATUS]
  · intro tail h
    have := congrArg String.data h
    simp at this
  · intro tail h
    have := congrArg String.data h
    simp at this

/-! ## C8: the pending toggle -/

theorem checkToggle_set {sh : Shell} (h : sh.toggleFgMode ≠ 0) :
    checkToggle sh =
      ({ sh with isForeOnlyMode := sh.isForeOnlyMode ^^^ FOREGROUND_ONLY, toggleFgMode := 0 },
        printForeGroundMsg (sh.isForeOnlyMode ^^^ FOREGROUND_ONLY) ++ printPrompt) := by
  unfold checkToggle
  rw [if_pos h]
  rfl

theorem checkToggle_clear {sh : Shell} (h : sh.toggleFgMode = 0) :
    checkToggle sh = (sh, "") := by
  unfold checkToggle
  rw [if_neg (fun hne => hne h)]

/-- The two texts of `printForeGroundMsg` and the flip of `applyFgOnlyToggle`, for a mode
that is 0 or `FOREGROUND_ONLY`. -/
theorem applyFgOnlyToggle_flip (m : Nat) (hm : m = 0 ∨ m = FOREGROUND_ONLY) :
    m ^^^ FOREGROUND_ONLY = (if m = 0 then FOREGROUND_ONLY else 0) ∧
    printForeGroundMsg (m ^^^ FOREGROUND_ONLY) =
      "\x1b[93m" ++ (if m ^^^ FOREGROUND_ONLY = FOREGROUND_ONLY
          then "Entering foreground-only mode (& is now ignored)"
          else "Exiting foreground-only mode") ++ "\x1b[96m\n" ∧
    m ^^^ FOREGROUND_ONLY ≠ m := by
  rcases hm with h | h <;> subst h <;> decide

/-- The parent branch of `forkForeground`, unfolded: the wait, the guard on `toggleFgMode`,
the sweep. -/
theorem forkForegroundParent_some {pid : Int} {waits sweep : List WaitResult} {sh : Shell}
    {done : ForegroundDone} (h : forkForegroundParent pid waits sweep sh = some done) :
    ∃ cleared list1 swept, waitForeground pid waits sh.env = some cleared ∧
      nonBlockClearFinished sweep sh.procList = some (list1, swept) ∧
      done.res.pid = pid ∧ done.res.isForeOnly = done.shell.isForeOnlyMode ∧
      (sh.toggleFgMode ≠ 0 →
        done.shell.isForeOnlyMode = sh.isForeOnlyMode ^^^ FOREGROUND_ONLY ∧
        done.shell.toggleFgMode = 0 ∧
        done.out = cleared.out ++ printForeGroundMsg (sh.isForeOnlyMode ^^^ FOREGROUND_ONLY)
          ++ swept ++ printPrompt) ∧
      (sh.toggleFgMode = 0 →
        done.shell.isForeOnlyMode = sh.isForeOnlyMode ∧ done.shell.toggleFgMode = 0 ∧
        done.out = cleared.out ++ swept ++ printPrompt) ∧
      done.shell.env = cleared.env ∧ done.shell.procList = list1 ∧
      done.shell.handlers = sh.handlers := by
  unfold forkForegroundParent at h
  cases hw : waitForeground pid waits sh.env with
  | none => simp [hw] at h
  | some cleared =>
    cases hs : nonBlockClearFinished sweep sh.procList with
    | none => simp [hw, hs] at h
    | some r =>
      obtain ⟨list1, swept⟩ := r
      simp only [hw, hs, Option.some.injEq] at h
      subst h
      refine ⟨cleared, list1, swept, rfl, rfl, rfl, rfl, ?_, ?_, rfl, rfl, rfl⟩
      · intro hset
        rw [if_pos hset]
        exact ⟨rfl, rfl, rfl⟩
      · intro hclear
        have hn : ¬ sh.toggleFgMode ≠ 0 := fun hne => hne hclear
        rw [if_neg hn]
        refine ⟨rfl, hclear, ?_⟩
        show cleared.out ++ "" ++ swept ++ printPrompt = _
        rw [String.append_assoc cleared.out "" swept, String.empty_append]

/-- C8: at each of the two checks of the pending toggle (the guard at the top of the loop of
`startShell`, `checkToggle`, and the guard after the wait in the parent branch of
`forkForeground`, whose result `startShell` stores back), for a mode that is 0 or
`FOREGROUND_ONLY`: if `toggleFgMode` is set, the mode is flipped to the other of the two
values, the flag is cleared and the text printed there is the notice `Entering
foreground-only mode (& is now ignored)` when the new mode is `FOREGROUND_ONLY` and `Exiting
foreground-only mode` otherwise (between the colour codes); if the flag is not set, the mode
and the flag are unchanged and no notice is printed.  A check at the top of the loop right
after either check changes nothing and prints nothing, so a flag set once by the handler is
applied once. -/
theorem C8_pending_toggle_at_each_check (sh : Shell)
    (hmode : sh.isForeOnlyMode = 0 ∨ sh.isForeOnlyMode = FOREGROUND_ONLY) :
    (sh.toggleFgMode ≠ 0 →
      (checkToggle sh).1.isForeOnlyMode = (if sh.isForeOnlyMode = 0 then FOREGROUND_ONLY else 0) ∧
      (checkToggle sh).1.toggleFgMode = 0 ∧
      (checkToggle sh).2 =
        "\x1b[93m" ++ (if (checkToggle sh).1.isForeOnlyMode = FOREGROUND_ONLY
            then "Entering foreground-only mode (& is now ignored)"
            else "Exiting foreground-only mode") ++ "\x1b[96m\n" ++ printPrompt ∧
      (checkToggle sh).1.env = sh.env ∧ (checkToggle sh).1.procList = sh.procList ∧
      (checkToggle sh).1.handlers = sh.handlers) ∧
    (sh.toggleFgMode = 0 → checkToggle sh = (sh, "")) ∧
    checkToggle (checkToggle sh).1 = ((checkToggle sh).1, "") ∧
    (checkToggle (toggleFgOnlyMode sh)).1.isForeOnlyMode ≠ sh.isForeOnlyMode ∧
    checkToggle (checkToggle (toggleFgOnlyMode sh)).1
      = ((checkToggle (toggleFgOnlyMode sh)).1, "") ∧
    (∀ (pid : Int) (waits sweep : List WaitResult) (done : ForegroundDone),
      forkForegroundParent pid waits sweep sh = some done →
      ∃ cleared list1 swept, waitForeground pid waits sh.env = some cleared ∧
        nonBlockClearFinished sweep sh.procList = some (list1, swept) ∧
        done.res.isForeOnly = done.shell.isForeOnlyMode ∧
        (sh.toggleFgMode ≠ 0 →
          done.shell.isForeOnlyMode = (if sh.isForeOnlyMode = 0 then FOREGROUND_ONLY else 0) ∧
          done.shell.toggleFgMode = 0 ∧
          done.out = cleared.out ++
            ("\x1b[93m" ++ (if done.shell.isForeOnlyMode = FOREGROUND_ONLY
              then "Entering foreground-only mode (& is now ignored)"
              else "Exiting foreground-only mode") ++ "\x1b[96m\n") ++ swept ++ printPrompt) ∧
        (sh.toggleFgMode = 0 →
          done.shell.isForeOnlyMode = sh.isForeOnlyMode ∧ done.shell.toggleFgMode = 0 ∧
          done.out = cleared.out ++ swept ++ printPrompt) ∧
        done.shell.handlers = sh.handlers ∧
        checkToggle done.shell = (done.shell, "")) := by
  have hsecond : ∀ t : Shell, checkToggle (checkToggle t).1 = ((checkToggle t).1, "") := by
    intro t
    by_cases h : t.toggleFgMode = 0
    · rw [checkToggle_clear h, checkToggle_clear h]
    · rw [checkToggle_set h]
      exact checkToggle_clear rfl
  have hflip := applyFgOnlyToggle_flip sh.isForeOnlyMode hmode
  have hsetflag : (toggleFgOnlyMode sh).toggleFgMode ≠ 0 := by
    simp [toggleFgOnlyMode]
  refine ⟨?_, checkToggle_clear, hsecond sh, ?_, hsecond _, ?_⟩
  · intro hset
    rw [checkToggle_set hset]
    refine ⟨hflip.1, rfl, ?_, rfl, rfl, rfl⟩
    show printForeGroundMsg (sh.isForeOnlyMode ^^^ FOREGROUND_ONLY) ++ printPrompt = _
    rw [hflip.2.1]
  · rw [checkToggle_set hsetflag]
    exact hflip.2.2
  · intro pid waits sweep done hdone
    obtain ⟨cleared, list1, swept, h1, h2, _, h4, h5, h6, _, _, h9⟩ :=
      forkForegroundParent_some hdone
    refine ⟨cleared, list1, swept, h1, h2, h4, ?_, h6, h9, ?_⟩
    · intro hset
      obtain ⟨ha, hb, hc⟩ := h5 hset
      refine ⟨by rw [ha, hflip.1], hb, ?_⟩
      rw [hc, ha, hflip.2.1]
    · by_cases hset : sh.toggleFgMode = 0
      · exact checkToggle_clear (h6 hset).2.1
      · exact checkToggle_clear (h5 hset).2.1

/-- Witness for `C8_pending_toggle_at_each_check`: the session at its start once the handler
has set the flag; the foreground child 77 is waited for and the guard of `forkForeground`
applies the toggle. -/
theorem C8_pending_toggle_at_each_check_witness :
    ((toggleFgOnlyMode (initialShell 4321 [])).isForeOnlyMode = 0 ∨
      (toggleFgOnlyMode (initialShell 4321 [])).isForeOnlyMode = FOREGROUND_ONLY) ∧
    (toggleFgOnlyMode (initialShell 4321 [])).toggleFgMode ≠ 0 ∧
    ((checkToggle (toggleFgOnlyMode (initialShell 4321 []))).1.isForeOnlyMode = FOREGROUND_ONLY ∧
      (checkToggle (toggleFgOnlyMode (initialShell 4321 []))).1.toggleFgMode = 0) ∧
    ∃ done, forkForegroundParent 77 [⟨77, 0⟩] [] (toggleFgOnlyMode (initialShell 4321 []))
        = some done ∧
      done.res.isForeOnly = FOREGROUND_ONLY ∧ done.shell.isForeOnlyMode = FOREGROUND_ONLY ∧
      done.shell.toggleFgMode = 0 ∧ checkToggle done.shell = (done.shell, "") := by
  have hthm := C8_pending_toggle_at_each_check (toggleFgOnlyMode (initialShell 4321 []))
    (Or.inl rfl)
  have hset : (toggleFgOnlyMode (initialShell 4321 [])).toggleFgMode ≠ 0 := by decide
  refine ⟨Or.inl rfl, hset, ⟨(hthm.1 hset).1, (hthm.1 hset).2.1⟩, ?_⟩
  cases hrun : forkForegroundParent 77 [⟨77, 0⟩] [] (toggleFgOnlyMode (initialShell 4321 []))
    with
  | none => exact absurd hrun (by decide)
  | some done =>
    obtain ⟨_, _, _, _, _, h3, h4, _, _, h7⟩ := hthm.2.2.2.2.2 77 [⟨77, 0⟩] [] done hrun
    exact ⟨done, rfl, by rw [h3, (h4 hset).1]; rfl, by rw [(h4 hset).1]; rfl, (h4 hset).2.1, h7⟩

/-! ## C9: shutdown -/

/-- With a wait result for every cell, the loop of `exitProgram` runs once for each cell of the
walk, kills and waits for its pid, and ends with `head` null. -/
theorem exitLoop_drains : ∀ (cells : List (Nat × Int)) (fuel : Nat) (s : processLinkedList)
    (waits : List WaitResult) (env : Env), Seg s.mem s.head none cells →
    cells.length ≤ fuel → cells.length ≤ waits.length →
    ∃ d, exitLoop fuel s waits env = some d ∧ d.iterations = cells.length ∧
      d.calls = (cells.map Prod.snd).flatMap
        (fun p => [SysCall.kill p SIGTERM, SysCall.waitpid p 0]) ∧
      d.procList.head = none ∧ d.procList.mem.length = s.mem.length
  | [], fuel, s, waits, env, hseg, _, _ => by
    have hh : s.head = none := hseg
    refine ⟨⟨s, env, [], 0⟩, ?_, rfl, rfl, hh, rfl⟩
    cases fuel <;> simp [exitLoop, hh]
  | (h, v) :: rest, 0, _, _, _, _, hf, _ => by simp at hf
  | (h, v) :: rest, fuel + 1, s, [], _, _, _, hw => by simp at hw
  | (h, v) :: rest, fuel + 1, s, w :: ws, env, hseg, hf, hw => by
    obtain ⟨s1, h1, h2, h3, _⟩ := removeProcess_head hseg
    obtain ⟨hh, nx, hl, _⟩ := hseg
    simp only at hh hl
    obtain ⟨d, h5, h6, h7, h8, h9⟩ := exitLoop_drains rest fuel s1 ws
      (clearFinished v 1 w env).env h2 (by simpa using hf) (by simpa using hw)
    refine ⟨{ d with calls := SysCall.kill v SIGTERM ::
        ((clearFinished v 1 w env).calls ++ d.calls), iterations := d.iterations + 1 },
      ?_, by simp [h6], ?_, h8, by rw [h9, h3]⟩
    · simp only [exitLoop, hh, hl, h1, h5]
    · simp only [h7, List.map_cons, List.flatMap_cons, clearFinished]
      rfl

theorem killed_flatMap (pids : List Int) :
    killed (pids.flatMap (fun p => [SysCall.kill p SIGTERM, SysCall.waitpid p 0]))
      = pids.map (fun p => (p, SIGTERM)) := by
  induction pids with
  | nil => rfl
  | cons p rest ih => simp only [List.flatMap_cons, List.map_cons]; simp [killed, ih]

theorem waited_flatMap (pids : List Int) :
    waited (pids.flatMap (fun p => [SysCall.kill p SIGTERM, SysCall.waitpid p 0]))
      = pids.map (fun p => (p, 0)) := by
  induction pids with
  | nil => rfl
  | cons p rest ih => simp only [List.flatMap_cons, List.map_cons]; simp [waited, ih]

/-- For every list whose walk from `head` has `N` cells (whatever `tail` is), when each of
the `N` blocking waits returns, whatever it returns, `exitProgram` ends after exactly `N`
iterations of its loop; the system calls are, for each held pid in list order,
`kill(pid, SIGTERM)` followed by one blocking `waitpid(pid, &statusCode, 0)`; the registry is
empty when the loop ends, and the process exits with code 0. -/
theorem exitProgram_drains (s : processLinkedList) (cells : List (Nat × Int))
    (waits : List WaitResult) (env : Env) (hcells : cellsOf s = some cells)
    (hw : cells.length ≤ waits.length) :
    ∃ r, exitProgram s waits env = some r ∧ r.iterations = cells.length ∧
      r.calls = (cells.map Prod.snd).flatMap
        (fun p => [SysCall.kill p SIGTERM, SysCall.waitpid p 0]) ∧
      killed r.calls = (cells.map Prod.snd).map (fun p => (p, SIGTERM)) ∧
      waited r.calls = (cells.map Prod.snd).map (fun p => (p, 0)) ∧
      r.drained.head = none ∧ heldPids r.drained = some [] ∧ r.exitCode = 0 := by
  have hseg := cellsOf_eq_some.mp hcells
  obtain ⟨d, h1, h2, h3, h4, _⟩ := exitLoop_drains cells s.mem.length s waits env hseg
    (seg_length_le hseg) hw
  have hfree : freeProcessList d.procList = some ⟨d.procList.mem, none, none⟩ := by
    unfold freeProcessList
    rw [h4]
    cases d.procList.mem.length <;> rfl
  have hheld : heldPids d.procList = some [] := by
    have : Seg d.procList.mem d.procList.head none [] := h4
    rw [heldPids_of_seg this]; rfl
  have hrun : exitProgram s waits env = some
      { drained := d.procList
        freed := ⟨d.procList.mem, none, none⟩
        env := unsetenv (unsetenv (unsetenv d.env PID) PID_LEN) STATUS
        calls := d.calls
        iterations := d.iterations
        out := "\x1b[0m\n"
        exitCode := 0 } := by
    simp only [exitProgram, h1, hfree]
  refine ⟨_, hrun, h2, h3, ?_, ?_, h4, hheld, rfl⟩
  · show killed d.calls = _
    rw [h3, killed_flatMap]
  · show waited d.calls = _
    rw [h3, waited_flatMap]

/-- C9 (the code at the failing input): on the registry holding 11 and 22, when the blocking
wait for 11 is interrupted (`waitpid` returns -1) and the wait for 22 returns 22,
`exitProgram` makes one `waitpid` call for 11, drops its result, removes 11 from the registry
and goes on: the calls are `kill(11)`, `waitpid(11)`, `kill(22)`, `waitpid(22)`, the registry
ends empty and the process exits with code 0, although no `waitpid` call returned 11.  The
loop of `forkForeground` given the same interrupted wait calls `waitpid` again.  For every
registry the loop makes one `waitpid` call for each pid, whatever the calls return. -/
theorem C9_exit_does_not_retry_wait :
    (∃ r, exitProgram ⟨[some ⟨11, some 1⟩, some ⟨22, none⟩], some 0, some 1⟩
        [⟨-1, 0⟩, ⟨22, 15⟩] [] = some r ∧
      r.calls = [SysCall.kill 11 SIGTERM, SysCall.waitpid 11 0,
        SysCall.kill 22 SIGTERM, SysCall.waitpid 22 0] ∧
      r.iterations = 2 ∧ heldPids r.drained = some [] ∧ r.exitCode = 0) ∧
    (waitForeground 11 [⟨-1, 0⟩, ⟨11, 0⟩] []).map (fun c => (c.calls, c.result))
      = some ([SysCall.waitpid 11 0, SysCall.waitpid 11 0], 11) ∧
    (∀ (s : processLinkedList) (cells : List (Nat × Int)) (waits : List WaitResult) (env : Env),
      cellsOf s = some cells → waits.length = cells.length → (∀ w ∈ waits, w.ret = -1) →
      ∃ r, exitProgram s waits env = some r ∧
        waited r.calls = (cells.map Prod.snd).map (fun p => (p, 0)) ∧
        heldPids r.drained = some [] ∧ r.exitCode = 0) := by
  refine ⟨?_, by decide, ?_⟩
  · obtain ⟨r, h1, h2, h3, _, _, _, h7, h8⟩ := exitProgram_drains
      ⟨[some ⟨11, some 1⟩, some ⟨22, none⟩], some 0, some 1⟩ [(0, 11), (1, 22)]
      [⟨-1, 0⟩, ⟨22, 15⟩] [] (by decide) (by decide)
    exact ⟨r, h1, h3, h2, h7, h8⟩
  · intro s cells waits env hcells hlen _
    obtain ⟨r, h1, _, _, _, h5, _, h7, h8⟩ := exitProgram_drains s cells waits env hcells
      (by omega)
    exact ⟨r, h1, h5, h7, h8⟩

/-! ## C10: default redirection of background commands -/

/-- The input path after `setNullRedirects`: the null device when none was set. -/
theorem setNullRedirects_infile (cmd : command) :
    (setNullRedirects cmd).infile =
      (if cmd.hasInfile = 0 then some "/dev/null" else cmd.infile) := by
  unfold setNullRedirects
  by_cases h1 : cmd.hasInfile = 0 <;> by_cases h2 : cmd.hasOutfile = 0 <;> simp [h1, h2]

/-- The output path after `setNullRedirects`: the null device when none was set. -/
theorem setNullRedirects_outfile (cmd : command) :
    (setNullRedirects cmd).outfile =
      (if cmd.hasOutfile = 0 then some "/dev/null" else cmd.outfile) := by
  unfold setNullRedirects
  by_cases h1 : cmd.hasInfile = 0 <;> by_cases h2 : cmd.hasOutfile = 0 <;> simp [h1, h2]

theorem slot_mem {args : List (Option String)} {i : Int} {path : Option String}
    (h : slot args i = some path) : path ∈ args := by
  unfold slot at h
  split at h
  · exact List.getElem?_mem h
  · cases h

/-- Every path that `openRedirFile` passes to `open` is read from a slot of `args`. -/
theorem openRedirFile_opened {canOpen : String → Bool → Bool} {infileIdx outfileIdx : Int}
    {cmd : command} {isOutput : Bool} {r : Redirected}
    (h : openRedirFile canOpen infileIdx outfileIdx cmd isOutput = some r) :
    ∀ e ∈ r.opened, e.1 ∈ cmd.args := by
  unfold openRedirFile at h
  simp only at h
  split at h
  · cases h
  · rename_i path hs
    have hmem := slot_mem hs
    split at h <;>
    · cases h
      intro e he
      simp only [List.mem_singleton] at he
      subst he
      exact hmem

/-- Every path that `openRedirFiles` passes to `open` is read from a slot of `args`. -/
theorem openRedirFiles_opened {canOpen : String → Bool → Bool} {infileIdx outfileIdx : Int}
    {cmd : command} {r : Redirected}
    (h : openRedirFiles canOpen infileIdx outfileIdx cmd = some r) :
    ∀ e ∈ r.opened, e.1 ∈ cmd.args := by
  unfold openRedirFiles at h
  have hfirst : ∀ r1, (if infileIdx ≠ -1 then
        match openRedirFile canOpen infileIdx outfileIdx cmd false with
        | none => none
        | some r => some { r with ok := Int.land TRUE r.ok }
      else some { ok := TRUE, out := "", opened := [] }) = some r1 →
      ∀ e ∈ r1.opened, e.1 ∈ cmd.args := by
    intro r1 h1
    split at h1
    · cases h2 : openRedirFile canOpen infileIdx outfileIdx cmd false with
      | none => simp [h2] at h1
      | some r0 =>
        simp only [h2, Option.some.injEq] at h1
        subst h1
        intro e he
        exact openRedirFile_opened h2 e he
    · cases h1
      intro e he
      simp at he
  simp only at h
  split at h
  · cases h
  · rename_i r1 h1
    have hr1 := hfirst r1 h1
    split at h
    · cases h2 : openRedirFile canOpen infileIdx outfileIdx cmd true with
      | none => simp [h2] at h
      | some r2 =>
        simp only [h2, Option.some.injEq] at h
        subst h
        intro e he
        simp only [List.mem_append] at he
        exact he.elim (hr1 e) (openRedirFile_opened h2 e)
    · cases h
      exact hr1

set_option maxRecDepth 100000 in
/-- C10 (the code at the failing input): the line `sleep 5 &` read outside foreground-only
mode is parsed into a background command whose `infile` and `outfile` are both `/dev/null`
and whose `args` hold `sleep`, `5` and `NULL` slots only.  `openRedirFiles` reads the paths it
opens from `args`, at the indices `infileIdx` and `outfileIdx`, never from `infile` or
`outfile`: whatever the two indices and whatever `open` answers, no `open` call of the child
is made on `/dev/null`. -/
theorem C10_null_device_never_opened :
    ∃ cmd, parseInput (initialShell 4321 []).env "sleep 5 &" 0 = some (some cmd) ∧
      cmd.isBgProcess = 1 ∧ cmd.infile = some "/dev/null" ∧ cmd.outfile = some "/dev/null" ∧
      cmd.args = some "sleep" :: some "5" :: List.replicate 510 none ∧
      ∀ (canOpen : String → Bool → Bool) (infileIdx outfileIdx : Int) (r : Redirected),
        openRedirFiles canOpen infileIdx outfileIdx cmd = some r →
        ∀ e ∈ r.opened, e.1 ≠ some "/dev/null" := by
  refine ⟨{ args := some "sleep" :: some "5" :: List.replicate 510 none, numArgs := 2,
            isBgProcess := 1, hasOutfile := 1, outfile := some "/dev/null",
            hasInfile := 1, infile := some "/dev/null" }, by decide, rfl, rfl, rfl, rfl, ?_⟩
  intro canOpen infileIdx outfileIdx r h e he hnull
  have hmem := openRedirFiles_opened h e he
  rw [hnull] at hmem
  simp [List.mem_replicate] at hmem

/-! ## C11: the order of the two redirections -/

/-- The result of `openRedirFile` when the slot it reads is inside the array. -/
theorem openRedirFile_eq (canOpen : String → Bool → Bool) (infileIdx outfileIdx : Int)
    (cmd : command) (isOutput : Bool) (path : Option String)
    (h : slot cmd.args (if isOutput = true then outfileIdx else infileIdx) = some path) :
    openRedirFile canOpen infileIdx outfileIdx cmd isOutput =
      some { ok := if openSucceeds canOpen path isOutput = true then TRUE else FALSE
             out := if openSucceeds canOpen path isOutput = true then ""
               else "cannot open " ++ path.getD "(null)" ++ " for " ++
                 (if isOutput = true then "output\n" else "input\n")
             opened := [(path, isOutput)] } := by
  have hslot : slot cmd.args (if (!isOutput) = true then infileIdx else outfileIdx)
      = some path := by
    cases isOutput <;> simpa using h
  unfold openRedirFile
  simp only [hslot]
  cases path with
  | none => simp [openSucceeds]
  | some p => cases hc : canOpen p isOutput <;> simp [openSucceeds, hc]

theorem land_TRUE_TRUE : Int.land TRUE TRUE = TRUE := by decide

theorem land_TRUE_FALSE : Int.land TRUE FALSE = FALSE := by decide

theorem land_FALSE_TRUE : Int.land FALSE TRUE = FALSE := by decide

theorem TRUE_ne_zero : TRUE ≠ 0 := by decide

theorem FALSE_eq_zero : FALSE = 0 := rfl

theorem FALSE_ne_TRUE : FALSE ≠ TRUE := by decide

/-- The result of `openRedirFiles` when the slots it reads are inside the array. -/
theorem openRedirFiles_eq (canOpen : String → Bool → Bool) (infileIdx outfileIdx : Int)
    (cmd : command) (inPath outPath : Option String)
    (hin : infileIdx ≠ -1 → slot cmd.args infileIdx = some inPath)
    (hout : outfileIdx ≠ -1 → slot cmd.args outfileIdx = some outPath) :
    openRedirFiles canOpen infileIdx outfileIdx cmd =
      some { ok := if (infileIdx ≠ -1 → openSucceeds canOpen inPath false = true) ∧
                      (outfileIdx ≠ -1 → openSucceeds canOpen outPath true = true)
                   then TRUE else FALSE
             out := (if infileIdx ≠ -1 ∧ openSucceeds canOpen inPath false = false then
                       "cannot open " ++ inPath.getD "(null)" ++ " for input\n" else "") ++
                    (if outfileIdx ≠ -1 ∧ (infileIdx ≠ -1 → openSucceeds canOpen inPath false = true)
                        ∧ openSucceeds canOpen outPath true = false then
                       "cannot open " ++ outPath.getD "(null)" ++ " for output\n" else "")
             opened := (if infileIdx ≠ -1 then [(inPath, false)] else []) ++
                    (if outfileIdx ≠ -1 ∧ (infileIdx ≠ -1 → openSucceeds canOpen inPath false = true)
                     then [(outPath, true)] else []) } := by
  have l11 : Int.land 1 1 = 1 := by decide
  have l10 : Int.land 1 0 = 0 := by decide
  have sin : ∀ x : String, x ++ " for " ++ "input\n" = x ++ " for input\n" := by
    intro x
    rw [String.append_assoc]
    rfl
  have sout : ∀ x : String, x ++ " for " ++ "output\n" = x ++ " for output\n" := by
    intro x
    rw [String.append_assoc]
    rfl
  unfold openRedirFiles
  by_cases hi : infileIdx = -1
  · subst hi
    by_cases ho : outfileIdx = -1
    · simp [ho, TRUE]
    · have h2 := openRedirFile_eq canOpen (-1) outfileIdx cmd true outPath
        (by simpa using hout ho)
      cases hopen : openSucceeds canOpen outPath true <;>
        simp [ho, h2, hopen, TRUE, FALSE, l11, l10, sout]
  · by_cases ho : outfileIdx = -1
    · subst ho
      have h1 := openRedirFile_eq canOpen infileIdx (-1) cmd false inPath
        (by simpa using hin hi)
      cases hopen1 : openSucceeds canOpen inPath false <;>
        simp [hi, h1, hopen1, TRUE, FALSE, l11, l10, sin]
    · have h1 := openRedirFile_eq canOpen infileIdx outfileIdx cmd false inPath
        (by simpa using hin hi)
      have h2 := openRedirFile_eq canOpen infileIdx outfileIdx cmd true outPath
        (by simpa using hout ho)
      cases hopen1 : openSucceeds canOpen inPath false <;>
        cases hopen : openSucceeds canOpen outPath true <;>
          simp [hi, ho, h1, h2, hopen1, hopen, TRUE, FALSE, l11, l10, sin, sout]

/-- The two steps of `openRedirFiles` in terms of the indices it reads: for every command
and every pair of indices whose slots (an index other than -1) are inside `args`, it opens
the path in slot `infileIdx` first, the path in slot `outfileIdx` second only if the first
step did not fail, and returns TRUE exactly when every open it made succeeded. -/
theorem openRedirFiles_short_circuit (canOpen : String → Bool → Bool)
    (infileIdx outfileIdx : Int) (cmd : command) (inPath outPath : Option String)
    (hin : infileIdx ≠ -1 → slot cmd.args infileIdx = some inPath)
    (hout : outfileIdx ≠ -1 → slot cmd.args outfileIdx = some outPath) :
    ∃ r, openRedirFiles canOpen infileIdx outfileIdx cmd = some r ∧
      r.opened = (if infileIdx ≠ -1 then [(inPath, false)] else []) ++
        (if outfileIdx ≠ -1 ∧ (infileIdx ≠ -1 → openSucceeds canOpen inPath false = true)
         then [(outPath, true)] else []) ∧
      (infileIdx ≠ -1 → openSucceeds canOpen inPath false = false →
        r.opened = [(inPath, false)] ∧ r.ok = FALSE) ∧
      (r.ok = TRUE ↔ (infileIdx ≠ -1 → openSucceeds canOpen inPath false = true) ∧
        (outfileIdx ≠ -1 → openSucceeds canOpen outPath true = true)) ∧
      (r.ok = TRUE ∨ r.ok = FALSE) ∧
      (infileIdx = -1 → outfileIdx = -1 → r.opened = [] ∧ r.ok = TRUE) := by
  refine ⟨_, openRedirFiles_eq canOpen infileIdx outfileIdx cmd inPath outPath hin hout,
    rfl, ?_, ?_, ?_, ?_⟩
  · intro hi hfail
    simp [hi, hfail]
  · constructor
    · intro h
      by_contra hne
      simp only [if_neg hne] at h
      exact FALSE_ne_TRUE h
    · intro h
      simp only [if_pos h]
  · by_cases h : (infileIdx ≠ -1 → openSucceeds canOpen inPath false = true) ∧
        (outfileIdx ≠ -1 → openSucceeds canOpen outPath true = true)
    · left; simp only [if_pos h]
    · right; simp only [if_neg h]
  · intro hi ho
    simp [hi, ho]

/-- The result of `openRedirFile` depends on `open` only through the paths held by `args`. -/
theorem openRedirFile_congr (c1 c2 : String → Bool → Bool) (infileIdx outfileIdx : Int)
    (cmd : command) (isOutput : Bool)
    (h : ∀ p, some p ∈ cmd.args → ∀ b, c1 p b = c2 p b) :
    openRedirFile c1 infileIdx outfileIdx cmd isOutput =
      openRedirFile c2 infileIdx outfileIdx cmd isOutput := by
  unfold openRedirFile
  cases hs : slot cmd.args (if (!isOutput) = true then infileIdx else outfileIdx) with
  | none => simp only [hs]
  | some path =>
    cases path with
    | none => simp only [hs]
    | some p =>
      have := h p (slot_mem hs) isOutput
      simp only [hs, this]

/-- The result of `openRedirFiles` depends on `open` only through the paths held by `args`. -/
theorem openRedirFiles_congr (c1 c2 : String → Bool → Bool) (infileIdx outfileIdx : Int)
    (cmd : command) (h : ∀ p, some p ∈ cmd.args → ∀ b, c1 p b = c2 p b) :
    openRedirFiles c1 infileIdx outfileIdx cmd =
      openRedirFiles c2 infileIdx outfileIdx cmd := by
  unfold openRedirFiles
  rw [openRedirFile_congr c1 c2 infileIdx outfileIdx cmd false h,
    openRedirFile_congr c1 c2 infileIdx outfileIdx cmd true h]

set_option maxRecDepth 100000 in
/-- C11 (the code at the failing input): the line `cat < missing > out` is parsed into a
command that carries the two requests (`hasInfile` and `hasOutfile` TRUE, `infile` holding
`missing`, `outfile` holding `out`) and whose `args` hold `cat` and `NULL` slots only.
`openRedirFiles` never reads these four members: it opens the paths in the slots
`infileIdx` and `outfileIdx` of `args`.  Whatever the two indices and whatever `open`
answers, no `open` call is made on `missing` or on `out`; the result does not depend on
whether these two files can be opened; and with both indices -1, when `missing` cannot be
opened, nothing is opened and the result is TRUE. -/
theorem C11_requested_files_not_opened :
    ∃ cmd, parseInput (initialShell 4321 []).env "cat < missing > out" 0 = some (some cmd) ∧
      cmd.hasInfile = TRUE ∧ cmd.infile = some "missing" ∧
      cmd.hasOutfile = TRUE ∧ cmd.outfile = some "out" ∧
      cmd.args = some "cat" :: List.replicate 511 none ∧
      (∀ (canOpen : String → Bool → Bool) (infileIdx outfileIdx : Int) (r : Redirected),
        openRedirFiles canOpen infileIdx outfileIdx cmd = some r →
        ∀ e ∈ r.opened, e.1 ≠ some "missing" ∧ e.1 ≠ some "out") ∧
      (∀ (c1 c2 : String → Bool → Bool) (infileIdx outfileIdx : Int),
        (∀ b, c1 "cat" b = c2 "cat" b) →
        openRedirFiles c1 infileIdx outfileIdx cmd =
          openRedirFiles c2 infileIdx outfileIdx cmd) ∧
      openRedirFiles (fun p _ => decide (p ≠ "missing")) (-1) (-1) cmd
        = some { ok := TRUE, out := "", opened := [] } := by
  refine ⟨{ args := some "cat" :: List.replicate 511 none, numArgs := 1,
            isBgProcess := 0, hasOutfile := 1, outfile := some "out",
            hasInfile := 1, infile := some "missing" }, by decide, rfl, rfl, rfl, rfl, rfl,
          ?_, ?_, by decide⟩
  · intro canOpen infileIdx outfileIdx r h e he
    have hmem := openRedirFiles_opened h e he
    constructor
    · intro hm
      rw [hm] at hmem
      simp [List.mem_replicate] at hmem
    · intro hm
      rw [hm] at hmem
      simp [List.mem_replicate] at hmem
  · intro c1 c2 infileIdx outfileIdx hcat
    apply openRedirFiles_congr
    intro p hp b
    have : p = "cat" := by
      simp only [List.mem_cons, List.mem_replicate] at hp
      rcases hp with hp | hp
      · exact Option.some.inj hp
      · exact absurd hp.2 (by simp)
    rw [this]
    exact hcat b

/-! ## C12, C13, C15: failures in the child and failure of `fork` -/

/-- A command whose argument 0 is not a built-in takes one of the two fork branches. -/
theorem selectBranch_not_builtin {cmd : command} {arg0 : String}
    (h0 : slot cmd.args 0 = some (some arg0)) (hb : isBuiltIn arg0 = 0) :
    selectBranch cmd =
      some (if cmd.isBgProcess ≠ 0 then Branch.background else Branch.foreground) := by
  have h1 : (0 : Int) ≠ CD_FLAG := by decide
  have h2 : (0 : Int) ≠ STATUS_FLAG := by decide
  have h3 : (0 : Int) ≠ EXIT_FLAG := by decide
  unfold selectBranch
  simp only [h0, hb, if_neg h1, if_neg h2, if_neg h3]
  split <;> rfl

/-- When the input open fails, `openRedirFiles` makes that one `open` call, prints the
message for the input side and returns FALSE. -/
theorem openRedirFiles_input_fails (canOpen : String → Bool → Bool)
    (infileIdx outfileIdx : Int) (cmd : command) (inPath : Option String)
    (hi : infileIdx ≠ -1) (hin : slot cmd.args infileIdx = some inPath)
    (hfail : openSucceeds canOpen inPath false = false) :
    openRedirFiles canOpen infileIdx outfileIdx cmd =
      some { ok := FALSE
             out := "cannot open " ++ inPath.getD "(null)" ++ " for input\n"
             opened := [(inPath, false)] } := by
  have h1 := openRedirFile_eq canOpen infileIdx outfileIdx cmd false inPath (by simpa using hin)
  have l10 : Int.land 1 0 = 0 := by decide
  have sin : ∀ x : String, x ++ " for " ++ "input\n" = x ++ " for input\n" := by
    intro x
    rw [String.append_assoc]
    rfl
  unfold openRedirFiles
  simp [hi, h1, hfail, TRUE, FALSE, l10, sin]

/-- When the redirection fails, the child block prints what `openRedirFiles` printed and
makes no `execvp` call. -/
theorem redirectAndExec_redirect_fails {w : World} {cmd : command} {r : Redirected}
    (h : openRedirFiles w.canOpen w.infileIdx w.outfileIdx cmd = some r) (hok : r.ok = FALSE) :
    redirectAndExec w cmd =
      some { replaced := false, out := r.out, opened := r.opened, execs := [] } := by
  unfold redirectAndExec
  simp [h, hok, FALSE]

/-- When the redirection succeeds and `execvp` returns, the child block prints the message
for the program after what `openRedirFiles` printed. -/
theorem redirectAndExec_exec_fails {w : World} {cmd : command} {r : Redirected} {arg0 : String}
    (h : openRedirFiles w.canOpen w.infileIdx w.outfileIdx cmd = some r) (hok : r.ok ≠ 0)
    (h0 : slot cmd.args 0 = some (some arg0)) (hexec : w.execReturns = true) :
    redirectAndExec w cmd =
      some { replaced := false
             out := r.out ++ arg0 ++ ": no such file or directory\n"
             opened := r.opened
             execs := [(some arg0, cmd.args.takeWhile Option.isSome)] } := by
  unfold redirectAndExec
  simp [h, hok, h0, hexec]

theorem dispatch_background {w : World} {sh : Shell} {cmd : command}
    (h : selectBranch cmd = some Branch.background) :
    dispatch w sh cmd = (forkBackground w cmd sh).map (afterLaunch false) := by
  unfold dispatch
  rw [h]
  cases forkBackground w cmd sh <;> rfl

theorem dispatch_foreground {w : World} {sh : Shell} {cmd : command}
    (h : selectBranch cmd = some Branch.foreground) :
    dispatch w sh cmd = (forkForeground w cmd sh).map (afterLaunch true) := by
  unfold dispatch
  rw [h]
  cases forkForeground w cmd sh <;> rfl

/-- The child branch of `forkBackground`. -/
theorem forkBackground_child {w : World} {sh : Shell} {cmd : command} {child : ChildEnd}
    {list1 : processLinkedList} {swept : String} (hchild : w.forkRet = 0)
    (hsweep : nonBlockClearFinished w.sweep sh.procList = some (list1, swept))
    (hblock : redirectAndExec w cmd = some child) :
    forkBackground w cmd sh =
      some { shell := { installHandlers (BACKGROUND ||| CHILD) sh with procList := list1 }
             res := if child.replaced = true then none else some { pid := 0, isForeOnly := 0 }
             out := announcement w.ownPid ++ swept ++ printPrompt ++ child.out
             calls := sweepCalls w.sweep, opened := child.opened, execs := child.execs } := by
  have hn : ¬ w.forkRet < 0 := by omega
  have hp : ¬ w.forkRet > 0 := by omega
  simp only [forkBackground, if_neg hn, if_neg hp, hsweep, hblock]
  rw [hchild]

/-- The child branch of `forkForeground`. -/
theorem forkForeground_child {w : World} {sh : Shell} {cmd : command} {child : ChildEnd}
    (hchild : w.forkRet = 0) (hblock : redirectAndExec w cmd = some child) :
    forkForeground w cmd sh =
      some { shell := installHandlers (FOREGROUND ||| CHILD) sh
             res := if child.replaced = true then none
                    else some { pid := 0, isForeOnly := sh.isForeOnlyMode }
             out := child.out, calls := [], opened := child.opened, execs := child.execs } := by
  have hn : ¬ w.forkRet < 0 := by omega
  have hp : ¬ w.forkRet > 0 := by omega
  simp only [forkForeground, if_neg hn, if_neg hp, hblock]
  rw [hchild]

/-- In the child (`fork` returned 0), when the child block does not replace the process
image, the cycle ends with `exit(1)` after printing what the block printed. -/
theorem dispatch_child {w : World} {sh : Shell} {cmd : command} {arg0 : String}
    {child : ChildEnd} (h0 : slot cmd.args 0 = some (some arg0)) (hb : isBuiltIn arg0 = 0)
    (hchild : w.forkRet = 0) (hreg : isRegistry sh.procList = true)
    (hblock : redirectAndExec w cmd = some child) (hret : child.replaced = false) :
    ∃ c before, dispatch w sh cmd = some c ∧ c.ending = CycleEnd.exit 1 ∧
      c.out = before ++ child.out ∧ c.execs = child.execs ∧ c.opened = child.opened ∧
      c.forked = true := by
  have hsel := selectBranch_not_builtin h0 hb
  by_cases hbg : cmd.isBgProcess ≠ 0
  · rw [if_pos hbg] at hsel
    obtain ⟨cells, hseg, ht⟩ := isRegistry_iff.mp hreg
    obtain ⟨s2, swept, _, hsweep, _⟩ :=
      nonBlockClearFinished_registry w.sweep sh.procList cells hseg ht
    rw [dispatch_background hsel, forkBackground_child hchild hsweep hblock]
    refine ⟨_, announcement w.ownPid ++ swept ++ printPrompt, rfl, ?_, rfl, rfl, rfl, rfl⟩
    simp [afterLaunch, hret]
  · rw [if_neg hbg] at hsel
    rw [dispatch_foreground hsel, forkForeground_child hchild hblock]
    refine ⟨_, "", rfl, ?_, ?_, rfl, rfl, rfl⟩
    · simp [afterLaunch, hret]
    · simp [afterLaunch]

/-- In the child (`fork` returned 0) of a command that is not a built-in, foreground or
background, in terms of the indices that `openRedirFiles` reads: when the path in slot
`infileIdx` cannot be opened, the cycle ends with `exit(1)`, no `execvp` call is made, and the
text printed ends with `cannot open <path> for input`; when the input step is skipped or
succeeds and the path in slot `outfileIdx` cannot be opened, the same holds with
`cannot open <path> for output`. -/
theorem dispatch_redirection_fails (w : World) (sh : Shell) (cmd : command) (arg0 : String)
    (h0 : slot cmd.args 0 = some (some arg0)) (hb : isBuiltIn arg0 = 0)
    (hchild : w.forkRet = 0) (hreg : isRegistry sh.procList = true) :
    (∀ p, w.infileIdx ≠ -1 → slot cmd.args w.infileIdx = some (some p) →
      w.canOpen p false = false →
      ∃ c before, dispatch w sh cmd = some c ∧ c.ending = CycleEnd.exit 1 ∧ c.execs = [] ∧
        c.forked = true ∧ c.out = before ++ ("cannot open " ++ p ++ " for input\n")) ∧
    (∀ q inPath, w.outfileIdx ≠ -1 → slot cmd.args w.outfileIdx = some (some q) →
      w.canOpen q true = false →
      (w.infileIdx ≠ -1 → slot cmd.args w.infileIdx = some inPath ∧
        openSucceeds w.canOpen inPath false = true) →
      ∃ c before, dispatch w sh cmd = some c ∧ c.ending = CycleEnd.exit 1 ∧ c.execs = [] ∧
        c.forked = true ∧ c.out = before ++ ("cannot open " ++ q ++ " for output\n")) := by
  constructor
  · intro p hi hslot hfail
    have hr := openRedirFiles_input_fails w.canOpen w.infileIdx w.outfileIdx cmd (some p) hi
      hslot (by simpa [openSucceeds] using hfail)
    have hblock := redirectAndExec_redirect_fails hr rfl
    obtain ⟨c, before, h1, h2, h3, h4, _, h6⟩ := dispatch_child h0 hb hchild hreg hblock rfl
    exact ⟨c, before, h1, h2, h4, h6, h3⟩
  · intro q inPath ho hslot hfail hinput
    have hqfail : openSucceeds w.canOpen (some q) true = false := by
      simpa [openSucceeds] using hfail
    have hr := openRedirFiles_eq w.canOpen w.infileIdx w.outfileIdx cmd inPath (some q)
      (fun hi => (hinput hi).1) (fun _ => hslot)
    have hcond : ¬ ((w.infileIdx ≠ -1 → openSucceeds w.canOpen inPath false = true) ∧
        (w.outfileIdx ≠ -1 → openSucceeds w.canOpen (some q) true = true)) := by
      intro h
      have := h.2 ho
      rw [hqfail] at this
      cases this
    have hin1 : ¬ (w.infileIdx ≠ -1 ∧ openSucceeds w.canOpen inPath false = false) := by
      rintro ⟨hi, hf⟩
      have := (hinput hi).2
      rw [hf] at this
      cases this
    have hout1 : w.outfileIdx ≠ -1 ∧
        (w.infileIdx ≠ -1 → openSucceeds w.canOpen inPath false = true) ∧
        openSucceeds w.canOpen (some q) true = false :=
      ⟨ho, fun hi => (hinput hi).2, hqfail⟩
    rw [if_neg hcond, if_neg hin1, if_pos hout1] at hr
    have hblock := redirectAndExec_redirect_fails hr rfl
    obtain ⟨c, before, h1, h2, h3, h4, _, h6⟩ := dispatch_child h0 hb hchild hreg hblock rfl
    refine ⟨c, before, h1, h2, h4, h6, ?_⟩
    rw [h3]
    show before ++ ("" ++ ("cannot open " ++ q ++ " for output\n")) = _
    rw [String.empty_append]

/-- What `openRedirFile` prints: nothing when the open succeeds, and when it fails the
message names the path read from `args` (`(null)` for a `NULL` slot). -/
theorem openRedirFile_out {canOpen : String → Bool → Bool} {infileIdx outfileIdx : Int}
    {cmd : command} {isOutput : Bool} {r : Redirected}
    (h : openRedirFile canOpen infileIdx outfileIdx cmd isOutput = some r) :
    (r.ok = TRUE ∧ r.out = "") ∨
    (r.ok = FALSE ∧ ∃ path ∈ cmd.args, r.out = "cannot open " ++ path.getD "(null)" ++
      " for " ++ (if isOutput = true then "output\n" else "input\n")) := by
  cases hs : slot cmd.args (if isOutput = true then outfileIdx else infileIdx) with
  | none =>
    have hnone : openRedirFile canOpen infileIdx outfileIdx cmd isOutput = none := by
      unfold openRedirFile
      cases isOutput <;> simp_all
    rw [hnone] at h
    cases h
  | some path =>
    rw [openRedirFile_eq canOpen infileIdx outfileIdx cmd isOutput path hs] at h
    cases h
    cases hopen : openSucceeds canOpen path isOutput
    · right
      refine ⟨by simp, path, slot_mem hs, by simp⟩
    · left
      exact ⟨by simp, by simp⟩

/-- What `openRedirFiles` prints: nothing when it returns a non-zero flag, and otherwise one
message that names a path read from `args`. -/
theorem openRedirFiles_out {canOpen : String → Bool → Bool} {infileIdx outfileIdx : Int}
    {cmd : command} {r : Redirected}
    (h : openRedirFiles canOpen infileIdx outfileIdx cmd = some r) :
    (r.ok ≠ 0 ∧ r.out = "") ∨
    (r.ok = 0 ∧ ∃ path ∈ cmd.args, ∃ isOutput : Bool, r.out = "cannot open " ++
      path.getD "(null)" ++ " for " ++ (if isOutput = true then "output\n" else "input\n")) := by
  have l11 : Int.land TRUE TRUE = TRUE := by decide
  have l10 : Int.land TRUE FALSE = FALSE := by decide
  have hT : TRUE ≠ 0 := by decide
  have hF : FALSE = 0 := rfl
  have key : ∀ r1 : Redirected,
      ((r1.ok = TRUE ∧ r1.out = "") ∨
        (r1.ok = FALSE ∧ ∃ path ∈ cmd.args, ∃ isOutput : Bool, r1.out = "cannot open " ++
          path.getD "(null)" ++ " for " ++
            (if isOutput = true then "output\n" else "input\n"))) →
      ∀ res : Redirected, (if outfileIdx ≠ -1 ∧ r1.ok ≠ 0 then
          match openRedirFile canOpen infileIdx outfileIdx cmd true with
          | none => none
          | some r2 => some { ok := Int.land r1.ok r2.ok, out := r1.out ++ r2.out,
                              opened := r1.opened ++ r2.opened }
        else some r1) = some res →
      (res.ok ≠ 0 ∧ res.out = "") ∨
      (res.ok = 0 ∧ ∃ path ∈ cmd.args, ∃ isOutput : Bool, res.out = "cannot open " ++
        path.getD "(null)" ++ " for " ++
          (if isOutput = true then "output\n" else "input\n")) := by
    intro r1 hr1 res hres
    rcases hr1 with ⟨hok, hout⟩ | ⟨hok, hmsg⟩
    · by_cases ho : outfileIdx ≠ -1
      · rw [if_pos ⟨ho, by rw [hok]; exact hT⟩] at hres
        cases h2 : openRedirFile canOpen infileIdx outfileIdx cmd true with
        | none => simp [h2] at hres
        | some r2 =>
          simp only [h2, Option.some.injEq] at hres
          subst hres
          rcases openRedirFile_out h2 with ⟨hok2, hout2⟩ | ⟨hok2, path, hmem, hout2⟩
          · left
            simp only [hok, hok2, l11, hout, hout2]
            exact ⟨hT, rfl⟩
          · right
            simp only [hok, hok2, l10, hout, hout2]
            exact ⟨hF, path, hmem, true, by simp⟩
      · rw [if_neg (fun hc => ho hc.1)] at hres
        cases hres
        exact Or.inl ⟨by rw [hok]; exact hT, hout⟩
    · rw [if_neg (fun hc => hc.2 (by rw [hok]; exact hF))] at hres
      cases hres
      exact Or.inr ⟨by rw [hok]; exact hF, hmsg⟩
  unfold openRedirFiles at h
  by_cases hi : infileIdx ≠ -1
  · simp only [if_pos hi] at h
    cases h1 : openRedirFile canOpen infileIdx outfileIdx cmd false with
    | none => simp [h1] at h
    | some r0 =>
      simp only [h1] at h
      refine key { ok := Int.land TRUE r0.ok, out := r0.out, opened := r0.opened } ?_ r h
      rcases openRedirFile_out h1 with ⟨hok, hout⟩ | ⟨hok, path, hmem, hout⟩
      · left
        exact ⟨by simp only [hok, l11], hout⟩
      · right
        exact ⟨by simp only [hok, l10], path, hmem, false, by simpa using hout⟩
  · simp only [if_neg hi] at h
    exact key { ok := TRUE, out := "", opened := [] } (Or.inl ⟨rfl, rfl⟩) r h

/-- What the child block opens and prints: every path opened is read from `args`, and when
no `execvp` call is made the text is one message of `openRedirFile`, naming a path read
from `args`. -/
theorem redirectAndExec_paths {w : World} {cmd : command} {child : ChildEnd}
    (h : redirectAndExec w cmd = some child) :
    (∀ e ∈ child.opened, e.1 ∈ cmd.args) ∧
    (child.execs = [] → ∃ path ∈ cmd.args, ∃ isOutput : Bool, child.out = "cannot open " ++
      path.getD "(null)" ++ " for " ++ (if isOutput = true then "output\n" else "input\n")) := by
  unfold redirectAndExec at h
  cases hr : openRedirFiles w.canOpen w.infileIdx w.outfileIdx cmd with
  | none => simp [hr] at h
  | some r =>
    simp only [hr] at h
    have hopened := openRedirFiles_opened hr
    by_cases hok : r.ok ≠ 0
    · rw [if_pos hok] at h
      cases h0 : slot cmd.args 0 with
      | none => simp [h0] at h
      | some prog =>
        simp only [h0] at h
        split at h
        · cases h
          exact ⟨hopened, fun hex => by simp at hex⟩
        · cases h
          exact ⟨hopened, fun hex => by simp at hex⟩
    · rw [if_neg hok] at h
      cases h
      refine ⟨hopened, fun _ => ?_⟩
      rcases openRedirFiles_out hr with ⟨h1, _⟩ | ⟨_, hmsg⟩
      · exact absurd h1 hok
      · exact hmsg

set_option maxRecDepth 100000 in
/-- C12 (the code at the failing input): the lines `ls > nodir/out` and `ls > nodir/out &`
are parsed into a foreground and a background command that carry the request (`hasOutfile`
TRUE, `outfile` holding `nodir/out`) and whose `args` hold `ls` and `NULL` slots only.  The
child block of both `forkForeground` and `forkBackground` opens the paths in the slots
`infileIdx` and `outfileIdx` of `args` and never reads `outfile`: whatever the two indices and
whatever `open` answers, no `open` call is on `nodir/out`, and when no `execvp` call is made
the text of the block is `cannot open ls ...` or `cannot open (null) ...`, never a message
naming `nodir/out`.  With both indices -1 and no file that can be opened, each child makes no
`open` call, prints no such message and runs `execvp` on `ls`. -/
theorem C12_failed_path_not_reported :
    ∃ fg bg, parseInput (initialShell 4321 []).env "ls > nodir/out" 0 = some (some fg) ∧
      parseInput (initialShell 4321 []).env "ls > nodir/out &" 0 = some (some bg) ∧
      fg.hasOutfile = TRUE ∧ fg.outfile = some "nodir/out" ∧ fg.isBgProcess = 0 ∧
      bg.hasOutfile = TRUE ∧ bg.outfile = some "nodir/out" ∧ bg.isBgProcess = 1 ∧
      (∀ cmd ∈ [fg, bg], ∀ (w : World) (child : ChildEnd),
        redirectAndExec w cmd = some child →
        (∀ e ∈ child.opened, e.1 ≠ some "nodir/out") ∧
        (child.execs = [] → child.out ∈
          ["cannot open ls for input\n", "cannot open (null) for input\n",
           "cannot open ls for output\n", "cannot open (null) for output\n"])) ∧
      (∃ c, dispatch
          { forkRet := 0, ownPid := 4242, waits := [], sweep := [],
            canOpen := fun _ _ => false, infileIdx := -1, outfileIdx := -1,
            execReturns := false }
          (initialShell 4321 []) fg = some c ∧
        c.ending = CycleEnd.exec ∧ c.out = "" ∧ c.opened = [] ∧
        c.execs = [(some "ls", [some "ls"])]) ∧
      (∃ c, dispatch
          { forkRet := 0, ownPid := 4242, waits := [], sweep := [],
            canOpen := fun _ _ => false, infileIdx := -1, outfileIdx := -1,
            execReturns := false }
          (initialShell 4321 []) bg = some c ∧
        c.ending = CycleEnd.exec ∧ c.out = announcement 4242 ++ printPrompt ∧
        c.opened = [] ∧ c.execs = [(some "ls", [some "ls"])]) := by
  have hargs : ∀ path : Option String, path ∈ some "ls" :: List.replicate 511 none →
      path = some "ls" ∨ path = none := by
    intro path hp
    simp only [List.mem_cons, List.mem_replicate] at hp
    rcases hp with hp | hp
    · exact Or.inl hp
    · exact Or.inr hp.2
  have hall : ∀ cmd : command, cmd.args = some "ls" :: List.replicate 511 none →
      ∀ (w : World) (child : ChildEnd), redirectAndExec w cmd = some child →
      (∀ e ∈ child.opened, e.1 ≠ some "nodir/out") ∧
      (child.execs = [] → child.out ∈
        ["cannot open ls for input\n", "cannot open (null) for input\n",
         "cannot open ls for output\n", "cannot open (null) for output\n"]) := by
    intro cmd hcmd w child hrun
    obtain ⟨h1, h2⟩ := redirectAndExec_paths hrun
    rw [hcmd] at h1 h2
    constructor
    · intro e he hbad
      have := hargs _ (h1 e he)
      rw [hbad] at this
      rcases this with h | h
      · exact absurd (Option.some.inj h) (by decide)
      · cases h
    · intro hex
      obtain ⟨path, hmem, isOutput, hout⟩ := h2 hex
      rw [hout]
      rcases hargs path hmem with h | h <;> subst h <;> cases isOutput <;> decide
  refine ⟨{ args := some "ls" :: List.replicate 511 none, numArgs := 1,
            isBgProcess := 0, hasOutfile := 1, outfile := some "nodir/out",
            hasInfile := 0, infile := none },
          { args := some "ls" :: List.replicate 511 none, numArgs := 1,
            isBgProcess := 1, hasOutfile := 1, outfile := some "nodir/out",
            hasInfile := 1, infile := some "/dev/null" },
          by decide, by decide, rfl, rfl, rfl, rfl, rfl, rfl, ?_,
          ⟨_, rfl, rfl, rfl, rfl, by decide⟩, ⟨_, rfl, rfl, by decide, rfl, by decide⟩⟩
  intro cmd hcmd
  simp only [List.mem_cons, List.mem_singleton, List.not_mem_nil, or_false] at hcmd
  rcases hcmd with h | h <;> subst h <;> exact hall _ rfl

/-- C13: in the child (`fork` returned 0) of a command that is not a built-in, foreground or
background, when the redirections succeed and `execvp` returns: one `execvp` call was made on
argument 0 with the arguments up to the first `NULL`, the text printed ends with
`<program>: no such file or directory`, the program being argument 0, and the cycle ends with
`exit(1)`; the process does not go on to the next cycle. -/
theorem C13_exec_failure_exits (w : World) (sh : Shell) (cmd : command) (arg0 : String)
    (r : Redirected) (h0 : slot cmd.args 0 = some (some arg0)) (hb : isBuiltIn arg0 = 0)
    (hchild : w.forkRet = 0) (hreg : isRegistry sh.procList = true)
    (hredir : openRedirFiles w.canOpen w.infileIdx w.outfileIdx cmd = some r)
    (hok : r.ok ≠ 0) (hexec : w.execReturns = true) :
    ∃ c before, dispatch w sh cmd = some c ∧ c.ending = CycleEnd.exit 1 ∧
      (∀ next, c.ending ≠ CycleEnd.next next) ∧
      c.execs = [(some arg0, cmd.args.takeWhile Option.isSome)] ∧
      c.out = before ++ (arg0 ++ ": no such file or directory\n") := by
  have hblock := redirectAndExec_exec_fails hredir hok h0 hexec
  obtain ⟨c, before, h1, h2, h3, h4, _, _⟩ := dispatch_child h0 hb hchild hreg hblock rfl
  refine ⟨c, before ++ r.out, h1, h2, ?_, h4, ?_⟩
  · intro next hnext
    rw [h2] at hnext
    cases hnext
  · rw [h3]
    show before ++ (r.out ++ arg0 ++ ": no such file or directory\n") = _
    simp only [String.append_assoc]

/-- Witness for `C13_exec_failure_exits`: the child of the foreground command `nosuch`,
no redirection requested. -/
theorem C13_exec_failure_exits_witness :
    slot [some "nosuch", none] 0 = some (some "nosuch") ∧ isBuiltIn "nosuch" = 0 ∧
    (0 : Int) = 0 ∧ isRegistry (initialShell 4321 []).procList = true ∧
    openRedirFiles (fun _ _ => true) (-1) (-1)
      { args := [some "nosuch", none], numArgs := 1, isBgProcess := 0,
        hasOutfile := 0, outfile := none, hasInfile := 0, infile := none }
      = some { ok := TRUE, out := "", opened := [] } ∧
    TRUE ≠ 0 ∧ true = true ∧
    ∃ c before, dispatch
        { forkRet := 0, ownPid := 4242, waits := [], sweep := [],
          canOpen := fun _ _ => true, infileIdx := -1, outfileIdx := -1, execReturns := true }
        (initialShell 4321 [])
        { args := [some "nosuch", none], numArgs := 1, isBgProcess := 0,
          hasOutfile := 0, outfile := none, hasInfile := 0, infile := none } = some c ∧
      c.ending = CycleEnd.exit 1 ∧ (∀ next, c.ending ≠ CycleEnd.next next) ∧
      c.execs = [(some "nosuch", [some "nosuch", none].takeWhile Option.isSome)] ∧
      c.out = before ++ ("nosuch" ++ ": no such file or directory\n") :=
  ⟨by decide, by decide, rfl, by decide, by decide, by decide, rfl,
    C13_exec_failure_exits
      { forkRet := 0, ownPid := 4242, waits := [], sweep := [],
        canOpen := fun _ _ => true, infileIdx := -1, outfileIdx := -1, execReturns := true }
      (initialShell 4321 [])
      { args := [some "nosuch", none], numArgs := 1, isBgProcess := 0,
        hasOutfile := 0, outfile := none, hasInfile := 0, infile := none }
      "nosuch" { ok := TRUE, out := "", opened := [] }
      (by decide) (by decide) rfl (by decide) (by decide) (by decide) rfl⟩

/-- C15: when `fork` returns a negative value for a command that is not a built-in, both
`forkForeground` and `forkBackground` print `Error forking process`, return the record with
that value, make no `waitpid`, `open` or `execvp` call and leave the session state as it
was; the cycle of `startShell` ends with the loop going on to the next cycle from the same
session state, so the registry and the foreground-only mode are unchanged. -/
theorem C15_fork_failure_continues (w : World) (sh : Shell) (cmd : command) (arg0 : String)
    (h0 : slot cmd.args 0 = some (some arg0)) (hb : isBuiltIn arg0 = 0)
    (hneg : w.forkRet < 0) :
    forkForeground w cmd sh =
      some { shell := sh, res := some { pid := w.forkRet, isForeOnly := sh.isForeOnlyMode }
             out := "Error forking process", calls := [], opened := [], execs := [] } ∧
    forkBackground w cmd sh =
      some { shell := sh, res := some { pid := w.forkRet, isForeOnly := 0 }
             out := "Error forking process", calls := [], opened := [], execs := [] } ∧
    dispatch w sh cmd =
      some { ending := CycleEnd.next sh, out := "Error forking process", forked := true
             calls := [], opened := [], execs := [], chdir := none } := by
  have hne : w.forkRet ≠ 0 := by omega
  have hfg : forkForeground w cmd sh =
      some { shell := sh, res := some { pid := w.forkRet, isForeOnly := sh.isForeOnlyMode }
             out := "Error forking process", calls := [], opened := [], execs := [] } := by
    simp only [forkForeground, if_pos hneg]
  have hbgr : forkBackground w cmd sh =
      some { shell := sh, res := some { pid := w.forkRet, isForeOnly := 0 }
             out := "Error forking process", calls := [], opened := [], execs := [] } := by
    simp only [forkBackground, if_pos hneg]
  refine ⟨hfg, hbgr, ?_⟩
  have hsel := selectBranch_not_builtin h0 hb
  by_cases hbg : cmd.isBgProcess ≠ 0
  · rw [if_pos hbg] at hsel
    rw [dispatch_background hsel, hbgr]
    simp [afterLaunch, hne]
  · rw [if_neg hbg] at hsel
    rw [dispatch_foreground hsel, hfg]
    simp [afterLaunch, hne]

/-- Witness for `C15_fork_failure_continues`: the command `ls`, `fork` returning -1. -/
theorem C15_fork_failure_continues_witness :
    slot [some "ls", none] 0 = some (some "ls") ∧ isBuiltIn "ls" = 0 ∧ (-1 : Int) < 0 ∧
    (forkForeground
        { forkRet := -1, ownPid := 4321, waits := [], sweep := [],
          canOpen := fun _ _ => true, infileIdx := -1, outfileIdx := -1, execReturns := true }
        { args := [some "ls", none], numArgs := 1, isBgProcess := 0,
          hasOutfile := 0, outfile := none, hasInfile := 0, infile := none }
        (initialShell 4321 []) =
      some { shell := initialShell 4321 []
             res := some { pid := -1, isForeOnly := (initialShell 4321 []).isForeOnlyMode }
             out := "Error forking process", calls := [], opened := [], execs := [] } ∧
    forkBackground
        { forkRet := -1, ownPid := 4321, waits := [], sweep := [],
          canOpen := fun _ _ => true, infileIdx := -1, outfileIdx := -1, execReturns := true }
        { args := [some "ls", none], numArgs := 1, isBgProcess := 0,
          hasOutfile := 0, outfile := none, hasInfile := 0, infile := none }
        (initialShell 4321 []) =
      some { shell := initialShell 4321 [], res := some { pid := -1, isForeOnly := 0 }
             out := "Error forking process", calls := [], opened := [], execs := [] } ∧
    dispatch
        { forkRet := -1, ownPid := 4321, waits := [], sweep := [],
          canOpen := fun _ _ => true, infileIdx := -1, outfileIdx := -1, execReturns := true }
        (initialShell 4321 [])
        { args := [some "ls", none], numArgs := 1, isBgProcess := 0,
          hasOutfile := 0, outfile := none, hasInfile := 0, infile := none } =
      some { ending := CycleEnd.next (initialShell 4321 []), out := "Error forking process"
             forked := true, calls := [], opened := [], execs := [], chdir := none }) :=
  ⟨by decide, by decide, by decide,
    C15_fork_failure_continues
      { forkRet := -1, ownPid := 4321, waits := [], sweep := [],
        canOpen := fun _ _ => true, infileIdx := -1, outfileIdx := -1, execReturns := true }
      (initialShell 4321 [])
      { args := [some "ls", none], numArgs := 1, isBgProcess := 0,
        hasOutfile := 0, outfile := none, hasInfile := 0, infile := none }
      "ls" (by decide) (by decide) (by decide)⟩

/-! ## C14, C16: the background launch -/

/-- C14 (the code at the failing input): the child branch of `forkBackground` prints
`backround pid is <pid>` (the word is misspelt), followed by a newline, for every pid; this
text never starts with `background pid is`.  For the child with pid 4242 of the command
`sleep 5`, the text printed before the program runs is `backround pid is 4242` and the
prompt. -/
theorem C14_announcement_is_misspelt :
    (∀ pid : Int, announcement pid = "backround pid is " ++ toString pid ++ "\n") ∧
    (∀ (pid : Int) (tail : String), announcement pid ≠ "background pid is " ++ tail) ∧
    (forkBackground
        { forkRet := 0, ownPid := 4242, waits := [], sweep := [],
          canOpen := fun _ _ => true, infileIdx := -1, outfileIdx := -1, execReturns := false }
        { args := [some "sleep", some "5", none], numArgs := 2, isBgProcess := 1,
          hasOutfile := 1, outfile := some "/dev/null", hasInfile := 1,
          infile := some "/dev/null" }
        (initialShell 4321 [])).map (fun l => (l.out, l.execs))
      = some ("backround pid is 4242\n" ++ printPrompt,
          [(some "sleep", [some "sleep", some "5"])]) := by
  refine ⟨fun _ => rfl, ?_, by decide⟩
  intro pid tail h
  have := congrArg String.data h
  simp [announcement] at this

/-- A sweep whose first `waitpid` call returns a value that is not positive leaves the
registry as it is and prints nothing. -/
theorem nonBlockClearFinished_none_finished (ws : List WaitResult) (s : processLinkedList)
    (h : ∀ x, ws.head? = some x → x.ret ≤ 0) :
    nonBlockClearFinished ws s = some (s, "") ∧
    sweepCalls ws = [SysCall.waitpid (-1) WNOHANG] := by
  cases ws with
  | nil => exact ⟨rfl, rfl⟩
  | cons x rest =>
    have hx : ¬ x.ret > 0 := by
      have := h x rfl
      omega
    simp [nonBlockClearFinished, sweepCalls, hx]

/-- Every `waitpid` call of the sweep is the non-blocking one. -/
theorem sweepCalls_nonblocking (ws : List WaitResult) :
    ∀ c ∈ sweepCalls ws, c = SysCall.waitpid (-1) WNOHANG := by
  induction ws with
  | nil => simp [sweepCalls]
  | cons x rest ih =>
    intro c hc
    simp only [sweepCalls, List.mem_cons] at hc
    rcases hc with hc | hc
    · exact hc
    · split at hc
      · exact ih c hc
      · simp at hc

/-- C16: on the parent side of a background launch (`fork` returned `p > 0`), for every
registry built by a sequence of `addProcess`/`removeProcess` calls in which no pid is
registered while it is held: `forkBackground` returns; it first registers `p`, after every
entry held, and then runs the sweep on that registry; its only system calls are the
`waitpid(-1, &statusCode, WNOHANG)` calls of the sweep, so it never waits blocking; and when
no child has finished (the first `waitpid` call returns a value that is not positive) the
registry afterwards is the previous one followed by `p`, nothing is printed and one
`waitpid` call was made. -/
theorem C16_background_parent_registers (calls : List RegistryCall)
    (hnew : registersOnlyNew calls [] = true) (w : World) (cmd : command) (sh : Shell)
    (hreg : runCalls calls emptyList = some sh.procList) (hpos : w.forkRet > 0) :
    ∃ s1 list2 swept l, heldPids sh.procList = some (heldInArrivalOrder calls []) ∧
      addProcess sh.procList w.forkRet = some s1 ∧
      heldPids s1 = some (heldInArrivalOrder calls [] ++ [w.forkRet]) ∧
      nonBlockClearFinished w.sweep s1 = some (list2, swept) ∧
      forkBackground w cmd sh = some l ∧
      l.shell = { sh with procList := list2 } ∧
      l.res = some { pid := w.forkRet, isForeOnly := 0 } ∧ l.out = swept ∧
      l.calls = sweepCalls w.sweep ∧
      (∀ c ∈ l.calls, c = SysCall.waitpid (-1) WNOHANG) ∧
      ((∀ x, w.sweep.head? = some x → x.ret ≤ 0) →
        heldPids l.shell.procList = some (heldInArrivalOrder calls [] ++ [w.forkRet]) ∧
        l.out = "" ∧ l.calls = [SysCall.waitpid (-1) WNOHANG]) := by
  obtain ⟨s, cells, h1, hseg, ht, _, hpids⟩ :=
    runCalls_wellFormed calls emptyList [] emptyList_seg emptyList_tailLast (by simp)
      (by simpa using hnew)
  simp only [List.map_nil] at hpids
  rw [hreg] at h1
  have hs : sh.procList = s := Option.some.inj h1
  subst hs
  obtain ⟨s1, h2, h3, h4⟩ := addProcess_wellFormed hseg ht w.forkRet
  obtain ⟨list2, swept, _, h5, _⟩ :=
    nonBlockClearFinished_registry w.sweep s1 _ h3 (tailIn_of_tailLast h4)
  have hn : ¬ w.forkRet < 0 := by omega
  have hheld1 : heldPids s1 = some (heldInArrivalOrder calls [] ++ [w.forkRet]) := by
    rw [heldPids_of_seg h3, ← hpids]
    simp
  refine ⟨s1, list2, swept,
    { shell := { sh with procList := list2 }
      res := some { pid := w.forkRet, isForeOnly := 0 }, out := swept
      calls := sweepCalls w.sweep, opened := [], execs := [] },
    by rw [heldPids_of_seg hseg, hpids], h2, hheld1, h5, ?_, rfl, rfl, rfl, rfl,
    sweepCalls_nonblocking w.sweep, ?_⟩
  · simp only [forkBackground, if_neg hn, if_pos hpos, h2, h5]
  · intro hnone
    obtain ⟨h6, h7⟩ := nonBlockClearFinished_none_finished w.sweep s1 hnone
    rw [h6] at h5
    have hpair := Option.some.inj h5
    have hl : list2 = s1 := (congrArg Prod.fst hpair).symm
    have ho : swept = "" := (congrArg Prod.snd hpair).symm
    subst hl
    subst ho
    exact ⟨hheld1, rfl, h7⟩

/-- Witness for `C16_background_parent_registers`: the registry after registering 4 and 9
and removing 4, `fork` returning 5 and no child finished. -/
theorem C16_background_parent_registers_witness :
    registersOnlyNew [.register 4, .register 9, .remove 4] [] = true ∧
    runCalls [.register 4, .register 9, .remove 4] emptyList = some
      ({ initialShell 4321 [] with procList := ⟨[none, some ⟨9, none⟩], some 1, some 1⟩ } : Shell).procList ∧
    (5 : Int) > 0 ∧
    ∃ s1 list2 swept l,
      heldPids ({ initialShell 4321 [] with procList := ⟨[none, some ⟨9, none⟩], some 1, some 1⟩ } : Shell).procList
        = some (heldInArrivalOrder [.register 4, .register 9, .remove 4] []) ∧
      addProcess ({ initialShell 4321 [] with procList := ⟨[none, some ⟨9, none⟩], some 1, some 1⟩ } : Shell).procList 5 = some s1 ∧
      heldPids s1 = some (heldInArrivalOrder [.register 4, .register 9, .remove 4] [] ++ [5]) ∧
      nonBlockClearFinished [] s1 = some (list2, swept) ∧
      forkBackground
        { forkRet := 5, ownPid := 4321, waits := [], sweep := [],
          canOpen := fun _ _ => true, infileIdx := -1, outfileIdx := -1, execReturns := true }
        { args := [some "sleep", some "5", none], numArgs := 2, isBgProcess := 1,
          hasOutfile := 1, outfile := some "/dev/null", hasInfile := 1,
          infile := some "/dev/null" }
        { initialShell 4321 [] with procList := ⟨[none, some ⟨9, none⟩], some 1, some 1⟩ } = some l ∧
      l.shell = { ({ initialShell 4321 [] with procList := ⟨[none, some ⟨9, none⟩], some 1, some 1⟩ } : Shell) with procList := list2 } ∧
      l.res = some { pid := 5, isForeOnly := 0 } ∧ l.out = swept ∧
      l.calls = sweepCalls [] ∧
      (∀ c ∈ l.calls, c = SysCall.waitpid (-1) WNOHANG) ∧
      ((∀ x, ([] : List WaitResult).head? = some x → x.ret ≤ 0) →
        heldPids l.shell.procList
          = some (heldInArrivalOrder [.register 4, .register 9, .remove 4] [] ++ [5]) ∧
        l.out = "" ∧ l.calls = [SysCall.waitpid (-1) WNOHANG]) :=
  ⟨by decide, by decide, by decide,
    C16_background_parent_registers [.register 4, .register 9, .remove 4] (by decide)
      { forkRet := 5, ownPid := 4321, waits := [], sweep := [],
          canOpen := fun _ _ => true, infileIdx := -1, outfileIdx := -1, execReturns := true }
      { args := [some "sleep", some "5", none], numArgs := 2, isBgProcess := 1,
          hasOutfile := 1, outfile := some "/dev/null", hasInfile := 1,
          infile := some "/dev/null" }
      { initialShell 4321 [] with procList := ⟨[none, some ⟨9, none⟩], some 1, some 1⟩ } (by decide) (by decide)⟩

/-! ## C17: the handlers -/

/-- C17: `loadHandlers` sets, for the mask `PARENT`, `SIGINT` to be ignored and `SIGTSTP` to
run `toggleFgOnlyMode`, whose delivery sets `toggleFgMode` and changes nothing else; for the
mask `FOREGROUND | CHILD`, `SIGINT` to its default action and `SIGTSTP` to be ignored; for
the mask `BACKGROUND | CHILD`, both to be ignored.  The pair installed is a function of the
mask alone: installing touches only the handlers, and installing the same mask twice leaves
the same state as installing it once. -/
theorem C17_loadHandlers_table :
    loadHandlers PARENT = (Disposition.SIG_IGN, Disposition.toggleFgOnlyMode) ∧
    (∀ sh : Shell, deliver (loadHandlers PARENT).1 sh = some sh) ∧
    (∀ sh : Shell, deliver (loadHandlers PARENT).2 sh = some { sh with toggleFgMode := 1 }) ∧
    loadHandlers (FOREGROUND ||| CHILD) = (Disposition.SIG_DFL, Disposition.SIG_IGN) ∧
    loadHandlers (BACKGROUND ||| CHILD) = (Disposition.SIG_IGN, Disposition.SIG_IGN) ∧
    (∀ (mask : Nat) (sh : Shell),
      (installHandlers mask sh).handlers = loadHandlers mask ∧
      installHandlers mask sh = { sh with handlers := loadHandlers mask } ∧
      installHandlers mask (installHandlers mask sh) = installHandlers mask sh) := by
  refine ⟨by decide, fun _ => rfl, fun _ => rfl, by decide, by decide, fun _ _ => ⟨rfl, rfl, rfl⟩⟩

/-! ## C18: the built-in commands -/

/-- The value of `isBuiltIn` on every string. -/
theorem isBuiltIn_eq (s : String) :
    isBuiltIn s = (if s = "cd" then CD_FLAG else if s = "status" then STATUS_FLAG
      else if s = "exit" then EXIT_FLAG else 0) := by
  unfold isBuiltIn
  by_cases h1 : s = "cd"
  · subst h1; decide
  · by_cases h2 : s = "status"
    · subst h2; decide
    · by_cases h3 : s = "exit"
      · subst h3; decide
      · simp [h1, h2, h3]

/-- The cycle calls `fork` exactly in the two fork branches. -/
theorem dispatch_forked {w : World} {sh : Shell} {cmd : command} {c : Cycle}
    (h : dispatch w sh cmd = some c) :
    c.forked = true ↔
      (selectBranch cmd = some Branch.background ∨ selectBranch cmd = some Branch.foreground) := by
  unfold dispatch at h
  cases hsel : selectBranch cmd with
  | none => simp [hsel] at h
  | some b =>
    simp only [hsel] at h
    cases b with
    | cd =>
      simp only at h
      split at h
      · cases h
      · cases h; simp
    | status =>
      simp only at h
      split at h
      · cases h
      · cases h; simp
    | exit =>
      simp only at h
      split at h
      · cases h
      · cases h; simp
    | background =>
      simp only at h
      split at h
      · cases h
      · cases h; simp [afterLaunch]
    | foreground =>
      simp only at h
      split at h
      · cases h
      · cases h; simp [afterLaunch]

/-- C18: `isBuiltIn` returns `CD_FLAG` exactly for `cd`, `STATUS_FLAG` exactly for `status`,
`EXIT_FLAG` exactly for `exit` and 0 for every other string, other capitalisations, prefixes
and extensions of the three names included.  For every command whose argument 0 is a string,
the choice of the branch in `startShell` returns, and it is one of the two fork branches if
and only if `isBuiltIn` returns 0 on argument 0; a cycle that ends has called `fork` if and
only if `isBuiltIn` returns 0. -/
theorem C18_builtin_dispatch :
    (∀ s : String, (isBuiltIn s = CD_FLAG ↔ s = "cd") ∧ (isBuiltIn s = STATUS_FLAG ↔ s = "status")
      ∧ (isBuiltIn s = EXIT_FLAG ↔ s = "exit")
      ∧ (isBuiltIn s = 0 ↔ (s ≠ "cd" ∧ s ≠ "status" ∧ s ≠ "exit"))) ∧
    (isBuiltIn "CD" = 0 ∧ isBuiltIn "Status" = 0 ∧ isBuiltIn "EXIT" = 0 ∧ isBuiltIn "c" = 0 ∧
      isBuiltIn "cdx" = 0 ∧ isBuiltIn "exit1" = 0 ∧ isBuiltIn "stat" = 0 ∧ isBuiltIn "" = 0) ∧
    (∀ (cmd : command) (arg0 : String), slot cmd.args 0 = some (some arg0) →
      ∃ b, selectBranch cmd = some b ∧
        ((b = Branch.background ∨ b = Branch.foreground) ↔ isBuiltIn arg0 = 0)) ∧
    (∀ (w : World) (sh : Shell) (cmd : command) (arg0 : String) (c : Cycle),
      slot cmd.args 0 = some (some arg0) → dispatch w sh cmd = some c →
      (c.forked = true ↔ isBuiltIn arg0 = 0)) := by
  have hsel : ∀ (cmd : command) (arg0 : String), slot cmd.args 0 = some (some arg0) →
      ∃ b, selectBranch cmd = some b ∧
        ((b = Branch.background ∨ b = Branch.foreground) ↔ isBuiltIn arg0 = 0) := by
    intro cmd arg0 h0
    have e1 : CD_FLAG ≠ 0 := by decide
    have e2 : STATUS_FLAG ≠ 0 := by decide
    have e3 : EXIT_FLAG ≠ 0 := by decide
    have d1 : STATUS_FLAG ≠ CD_FLAG := by decide
    have d2 : EXIT_FLAG ≠ CD_FLAG := by decide
    have d3 : EXIT_FLAG ≠ STATUS_FLAG := by decide
    unfold selectBranch
    simp only [h0]
    by_cases h1 : isBuiltIn arg0 = CD_FLAG
    · exact ⟨Branch.cd, by simp [h1], by simp [h1, e1]⟩
    · by_cases h2 : isBuiltIn arg0 = STATUS_FLAG
      · exact ⟨Branch.status, by simp [h2, d1], by simp [h2, e2]⟩
      · by_cases h3 : isBuiltIn arg0 = EXIT_FLAG
        · exact ⟨Branch.exit, by simp [h3, d2, d3], by simp [h3, e3]⟩
        · have hz : isBuiltIn arg0 = 0 := by
            have := isBuiltIn_eq arg0
            split_ifs at this <;> simp_all
          by_cases hbg : cmd.isBgProcess ≠ 0
          · exact ⟨Branch.background, by simp [h1, h2, h3, hbg], by simp [hz]⟩
          · exact ⟨Branch.foreground, by simp [h1, h2, h3, hbg], by simp [hz]⟩
  refine ⟨?_, by decide, hsel, ?_⟩
  · intro s
    rw [isBuiltIn_eq]
    by_cases h1 : s = "cd"
    · subst h1; decide
    · by_cases h2 : s = "status"
      · subst h2; decide
      · by_cases h3 : s = "exit"
        · subst h3; decide
        · have c1 : (0 : Int) ≠ CD_FLAG := by decide
          have c2 : (0 : Int) ≠ STATUS_FLAG := by decide
          have c3 : (0 : Int) ≠ EXIT_FLAG := by decide
          simp [h1, h2, h3, c1, c2, c3]
  · intro w sh cmd arg0 c h0 hd
    obtain ⟨b, hb1, hb2⟩ := hsel cmd arg0 h0
    rw [dispatch_forked hd, hb1, ← hb2]
    simp

/-! ## C19, C20: the trailing `&` -/

/-- The fuel `parseAllArgs` gives its loop is enough: from index `i`, any fuel above
`ptrIdx - i` gives the same result, so the loop never ends for lack of fuel. -/
theorem parseArgsLoop_fuel (env : Env) (n : Nat) : ∀ (f1 f2 i : Nat),
    n - i + 1 ≤ f1 → n - i + 1 ≤ f2 →
    parseArgsLoop env (n : Int) f1 i = parseArgsLoop env (n : Int) f2 i
  | 0, _, _, h, _ => by omega
  | _ + 1, 0, _, _, h => by omega
  | f1 + 1, f2 + 1, i, h1, h2 => by
    funext cmd
    by_cases hlt : (i : Int) < n
    · have e1 := parseArgsLoop_fuel env n f1 f2 (i + 1) (by omega) (by omega)
      have e2 := parseArgsLoop_fuel env n f1 f2 (i + 2) (by omega) (by omega)
      simp only [parseArgsLoop, e1, e2]
    · simp only [parseArgsLoop, if_neg hlt]

set_option maxRecDepth 100000 in
/-- C20 (the code at the failing inputs): `parseAllArgs` calls `setNullRedirects` whenever
the last argument is `&`, whatever `isBgProcess` was set to.  The line `sleep 5 &` read in
foreground-only mode gives a command with `isBgProcess` 0, run by `forkForeground`, whose
`infile` and `outfile` are both `/dev/null` although the line names no file; so does the
built-in line `cd &` read outside foreground-only mode. -/
theorem C20_null_redirects_on_foreground_command :
    (∃ cmd, parseInput (initialShell 4321 []).env "sleep 5 &" FOREGROUND_ONLY
        = some (some cmd) ∧
      cmd.isBgProcess = 0 ∧ selectBranch cmd = some Branch.foreground ∧
      cmd.hasInfile = TRUE ∧ cmd.infile = some "/dev/null" ∧
      cmd.hasOutfile = TRUE ∧ cmd.outfile = some "/dev/null") ∧
    (∃ cmd, parseInput (initialShell 4321 []).env "cd &" 0 = some (some cmd) ∧
      cmd.isBgProcess = 0 ∧ selectBranch cmd = some Branch.cd ∧
      cmd.hasInfile = TRUE ∧ cmd.infile = some "/dev/null" ∧
      cmd.hasOutfile = TRUE ∧ cmd.outfile = some "/dev/null") := by
  refine ⟨⟨{ args := some "sleep" :: some "5" :: List.replicate 510 none, numArgs := 2,
             isBgProcess := 0, hasOutfile := 1, outfile := some "/dev/null",
             hasInfile := 1, infile := some "/dev/null" },
           by decide, rfl, by decide, rfl, rfl, rfl, rfl⟩,
          ⟨{ args := some "cd" :: List.replicate 511 none, numArgs := 1,
             isBgProcess := 0, hasOutfile := 1, outfile := some "/dev/null",
             hasInfile := 1, infile := some "/dev/null" },
           by decide, rfl, by decide, rfl, rfl, rfl, rfl⟩⟩

/-! ## C21: variable expansion (`countVars`, `expandVariables`, `parseArg`) -/

/-- The string held by a buffer: the characters before the first `NUL`. -/
theorem takeWhile_append_nul (out : List Char) (k : Nat) (h : NUL ∉ out) :
    (out ++ List.replicate k NUL).takeWhile (fun x => x ≠ NUL) = out := by
  induction out with
  | nil =>
    cases k with
    | zero => rfl
    | succ k => simp [List.replicate_succ, List.takeWhile]
  | cons a t ih =>
    have ha : a ≠ NUL := by
      intro he
      exact h (by rw [he]; exact List.mem_cons_self _ _)
    have ht : NUL ∉ t := fun hm => h (List.mem_cons_of_mem _ hm)
    have hcons : (a :: t ++ List.replicate k NUL).takeWhile (fun x => x ≠ NUL)
        = a :: (t ++ List.replicate k NUL).takeWhile (fun x => x ≠ NUL) := by
      rw [List.cons_append, List.takeWhile_cons]
      simp [ha]
    rw [hcons, ih ht]

theorem set_append_replicate (out : List Char) (k : Nat) (c : Char) :
    (out ++ List.replicate (k + 1) NUL).set out.length c = out ++ c :: List.replicate k NUL := by
  induction out with
  | nil => simp [List.replicate_succ]
  | cons a t ih => simpa using ih

/-- An argument in which `countVars` finds a pair of dollar signs makes the loop of
`expandVariables` reach the `sprintf` call whose destination is also its source: no result
is defined, whatever the buffer and the index. -/
theorem expandLoop_pair (s : List Char) (h : 0 < countVars s) :
    ∀ (curIdx : Int) (dest : List Char), expandLoop s curIdx dest = none := by
  induction s using countVars.induct with
  | case1 => simp [countVars] at h
  | case2 c => simp [countVars] at h
  | case3 c d rest hc ih =>
    intro curIdx dest
    simp only [expandLoop, if_pos hc]
  | case4 c d rest hc ih =>
    intro curIdx dest
    simp only [countVars, if_neg hc] at h
    simp only [expandLoop, if_neg hc, ih h]
    split <;> rfl

/-- An argument without a pair of dollar signs is copied: on a buffer that holds the text
`out` followed by `k` `NUL` characters, with `curIdx` at the end of `out`, when the argument
and one more `NUL` fit in the `k` characters, every write is inside the buffer and the buffer
ends holding `out`, the argument, and `NUL` characters. -/
theorem expandLoop_copy (s : List Char) (h : countVars s = 0) :
    ∀ (out : List Char) (k : Nat), s.length + 1 ≤ k →
      expandLoop s (out.length : Int) (out ++ List.replicate k NUL) =
        some (out ++ s ++ List.replicate (k - s.length) NUL) := by
  induction s using countVars.induct with
  | case1 =>
    intro out k _
    simp [expandLoop]
  | case2 c =>
    intro out k hk
    simp only [List.length_singleton] at hk ⊢
    obtain ⟨j, rfl⟩ : ∃ j, k = j + 1 := ⟨k - 1, by omega⟩
    have hcond : (0 : Int) ≤ (out.length : Int) ∧
        (out.length : Int) < ((out ++ List.replicate (j + 1) NUL).length : Int) := by
      simp only [List.length_append, List.length_replicate]
      omega
    simp only [expandLoop, if_pos hcond, Int.toNat_ofNat, set_append_replicate]
    simp
  | case3 c d rest hc ih =>
    simp [countVars, hc] at h
  | case4 c d rest hc ih =>
    intro out k hk
    simp only [countVars, if_neg hc] at h
    simp only [List.length_cons] at hk ⊢
    obtain ⟨j, rfl⟩ : ∃ j, k = j + 1 := ⟨k - 1, by omega⟩
    have hcond : (0 : Int) ≤ (out.length : Int) ∧
        (out.length : Int) < ((out ++ List.replicate (j + 1) NUL).length : Int) := by
      simp only [List.length_append, List.length_replicate]
      omega
    have hbuf : out ++ c :: List.replicate j NUL = (out ++ [c]) ++ List.replicate j NUL := by
      simp
    have hidx : (out.length : Int) + 1 = ((out ++ [c]).length : Int) := by
      simp
    have hstep := ih h (out ++ [c]) j (by simp only [List.length_cons]; omega)
    simp only [expandLoop, if_neg hc, if_pos hcond, Int.toNat_ofNat, set_append_replicate,
      hbuf, hidx, hstep]
    have hk2 : j - (d :: rest).length = j + 1 - ((rest.length + 1) + 1) := by
      simp only [List.length_cons]
      omega
    rw [hk2]
    simp

set_option maxRecDepth 100000 in
/-- C21 (the code at the failing input): for the argument `a$$b` in the session whose pid is
4321, `countVars` finds one pair and `parseArg` allocates a buffer of 7 bytes; the loop of
`expandVariables` stores `a` and then, at the pair, calls
`sprintf(dest, "%s%s", dest, getenv(PID))`, whose destination is the string it reads first:
the behaviour of the call is undefined, so no result is defined for `expandVariables` or
`parseArg`, and the line `echo a$$b` gives no command.  The same holds for every argument
in which `countVars` finds a pair, whatever the buffer.  An argument without a pair and
without `NUL` is copied as it is into the buffer of `strlen(s) + 1` bytes that `parseArg`
allocates, each write inside the buffer, and ends with one `NUL`. -/
theorem C21_expansion_calls_sprintf_on_overlap :
    (countVars "a$$b".data = 1 ∧
      expandVariables (List.replicate 7 NUL) "a$$b".data = none ∧
      parseArg (initialShell 4321 []).env "a$$b" = none ∧
      parseInput (initialShell 4321 []).env "echo a$$b" 0 = none) ∧
    (∀ (s dest : List Char), 0 < countVars s → expandVariables dest s = none) ∧
    (∀ (env : Env) (s lenText : String), getenv env PID_LEN = some lenText →
      0 < countVars s.data → parseArg env s = none) ∧
    (∀ (env : Env) (s lenText : String), getenv env PID_LEN = some lenText →
      countVars s.data = 0 → NUL ∉ s.data →
      expandVariables (List.replicate (s.data.length + 1) NUL) s.data
        = some (s.data ++ [NUL]) ∧
      parseArg env s = some s) := by
  refine ⟨⟨by decide, by decide, by decide, by decide⟩, ?_, ?_, ?_⟩
  · intro s dest h
    exact expandLoop_pair s h 0 dest
  · intro env s lenText hlen h
    unfold parseArg
    rw [hlen]
    simp only [expandVariables, expandLoop_pair s.data h]
    split <;> rfl
  · intro env s lenText hlen h hnul
    have hloop := expandLoop_copy s.data h [] (s.data.length + 1) (le_refl _)
    have hexp : expandVariables (List.replicate (s.data.length + 1) NUL) s.data
        = some (s.data ++ [NUL]) := by
      unfold expandVariables
      simpa using hloop
    refine ⟨hexp, ?_⟩
    unfold parseArg
    rw [hlen]
    have hsize : ((atoi lenText - 2) * ((countVars s.data : Nat) : Int) + s.data.length + 1).toNat
        = s.data.length + 1 := by
      rw [h]
      simp
    have hpos : ¬ ((atoi lenText - 2) * ((countVars s.data : Nat) : Int) + s.data.length + 1
        ≤ 0) := by
      rw [h]
      simp
    simp only [if_neg hpos, hsize, hexp]
    have htake := takeWhile_append_nul s.data 1 hnul
    simp only [List.replicate_one] at htake
    rw [htake]

end SmallShell
